import Mathlib

/-!
# Bopila/k8s-cluster: cluster bootstrap scripts

A shallow embedding of the three Go programs of the repository

* `golang_scripts/ssh_version1/ssh_setup.go`   (namespace `SshV1`)
* `golang_scripts/ssh_version2/ssh_setup.go`   (namespace `SshV2`)
* `golang_scripts/k8s-cluster-installation/k8s-setup_full.go` (namespace `K8s`)

Every program is a sequence of external commands.  The outside world is an
`Env`: a function that, given the history of commands already executed
together with their results, answers the next command with its captured output
and its exit status.  A run of a program is the trace of events it produces.

Go strings are modelled by Lean strings (sequences of Unicode code points,
which is what `strings.Fields`, `strings.TrimSpace` and `strings.Split` see
of a valid UTF-8 text).
-/

set_option autoImplicit false

/-! ## The Go standard-library string functions called by the programs -/

namespace GoStr

/-- Go `unicode.IsSpace`: the white-space code points. -/
def isSpace (c : Char) : Bool :=
  c.toNat == 0x09 || c.toNat == 0x0a || c.toNat == 0x0b || c.toNat == 0x0c ||
  c.toNat == 0x0d || c.toNat == 0x20 || c.toNat == 0x85 || c.toNat == 0xa0 ||
  c.toNat == 0x1680 || (0x2000 ≤ c.toNat && c.toNat ≤ 0x200a) ||
  c.toNat == 0x2028 || c.toNat == 0x2029 || c.toNat == 0x202f ||
  c.toNat == 0x205f || c.toNat == 0x3000

/-- One pass of `strings.Fields` over the remaining characters; `cur` holds the
characters of the field being read, most recent first. -/
def fieldsFrom : List Char → List Char → List String
  | [], cur => if cur.isEmpty then [] else [String.mk cur.reverse]
  | c :: cs, cur =>
    if isSpace c then
      if cur.isEmpty then fieldsFrom cs [] else String.mk cur.reverse :: fieldsFrom cs []
    else fieldsFrom cs (c :: cur)

/-- Go `strings.Fields`: the maximal runs of non-space characters. -/
def Fields (s : String) : List String := fieldsFrom s.data []

/-- One pass of `strings.Split` for a non-empty separator; `skip` counts the
characters of a separator occurrence still to be consumed. -/
def splitFrom (sep : List Char) : List Char → Nat → List Char → List String
  | [], _, cur => [String.mk cur.reverse]
  | _ :: cs, skip + 1, cur => splitFrom sep cs skip cur
  | c :: cs, 0, cur =>
    if sep.isPrefixOf (c :: cs) then
      String.mk cur.reverse :: splitFrom sep cs (sep.length - 1) []
    else splitFrom sep cs 0 (c :: cur)

/-- Go `strings.Split`: the pieces between the occurrences of `sep`; an empty
separator explodes the string into its characters. -/
def Split (s sep : String) : List String :=
  if sep.data.isEmpty then s.data.map (fun c => String.mk [c])
  else splitFrom sep.data s.data 0 []

/-- Whether `sub` occurs in the character list at some position. -/
def hasInfix (sub : List Char) : List Char → Bool
  | [] => sub.isEmpty
  | c :: cs => sub.isPrefixOf (c :: cs) || hasInfix sub cs

/-- Go `strings.Contains`. -/
def Contains (s substr : String) : Bool := hasInfix substr.data s.data

/-- Go `strings.TrimSpace`: leading and trailing white space removed. -/
def TrimSpace (s : String) : String :=
  String.mk ((s.data.dropWhile isSpace).reverse.dropWhile isSpace).reverse

/-- Go `filepath.Base` on a slash-separated path: trailing slashes are
dropped and the last element is returned; the empty path gives `.` and a
path of slashes only gives `/`. -/
def filepathBase (path : String) : String :=
  if path.data.isEmpty then "."
  else
    let stripped := (path.data.reverse.dropWhile (· == '/'))
    if stripped.isEmpty then "/"
    else String.mk (stripped.takeWhile (· != '/')).reverse

/-- Go `bufio.MaxScanTokenSize`: the size of the largest buffer a `bufio.Scanner`
allocates by default. -/
def maxScanTokenSize : Nat := 64 * 1024

/-- The helper `dropCR` of `bufio.ScanLines`, on a line held last character first: one
terminal carriage return is dropped. -/
def dropCR : List Char → List Char
  | [] => []
  | c :: rest => if c = '\r' then rest else c :: rest

/-- A `bufio.Scanner` with the split function `bufio.ScanLines` and the default buffer,
reading the rest of a file.  `cur` holds the characters of the line being
read, last first, and `size` their number of bytes.  The result is the list of
lines that `Scan` yields and whether `Err` is `bufio.ErrTooLong` afterwards:
the scanner gives up when its buffer of `maxScanTokenSize` bytes is full and
holds no line end. -/
def scanFrom : List Char → List Char → Nat → List String × Bool
  | [], cur, size =>
    if size = 0 then ([], false)
    else if maxScanTokenSize ≤ size then ([], true)
    else ([String.mk (dropCR cur).reverse], false)
  | c :: cs, cur, size =>
    if c = '\n' then
      if size < maxScanTokenSize then
        (String.mk (dropCR cur).reverse :: (scanFrom cs [] 0).1, (scanFrom cs [] 0).2)
      else ([], true)
    else scanFrom cs (c :: cur) (size + c.utf8Size)

/-- The lines a fresh `bufio.Scanner` yields for a file with the given content, and
whether it ends with `bufio.ErrTooLong`. -/
def scanLines (content : String) : List String × Bool := scanFrom content.data [] 0

end GoStr

/-! ## The host registry: a Go `map[string]string` -/

/-- A Go `map[string]string`, kept as an association list with distinct keys.
The storage order carries no meaning: iteration order is supplied separately
wherever a program ranges over the map. -/
abbrev HostMap := List (String × String)

namespace HostMap

/-- The Go assignment `m[k] = v`. -/
def set : HostMap → String → String → HostMap
  | [], k, v => [(k, v)]
  | (k', v') :: rest, k, v =>
    if k' = k then (k, v) :: rest else (k', v') :: set rest k v

/-- The Go lookup `m[k]` with its presence flag. -/
def get? : HostMap → String → Option String
  | [], _ => none
  | (k', v') :: rest, k => if k' = k then some v' else get? rest k

/-- The key set of the map. -/
def keys (m : HostMap) : List String := m.map Prod.fst

/-- The map after a sequence of assignments. -/
def setAll (m : HostMap) (es : List (String × String)) : HostMap :=
  es.foldl (fun acc e => acc.set e.1 e.2) m

end HostMap

/-! ## Second SSH variant: `ssh_version2/ssh_setup.go`, host file loading -/

namespace SshV2

open GoStr

/-- The body of the scanner loop of `loadHostsFromFile` for one line.  Slice
indexing is checked: `none` stands for an index-out-of-range panic. -/
def loadLine (hosts : HostMap) (line : String) : Option HostMap :=
  let parts := Fields line
  if parts.length ≥ 2 then
    match parts[0]? with
    | none => none
    | some ip =>
      match parts[1]? with
      | none => none
      | some second =>
        match (Split second ",")[0]? with
        | none => none
        | some hostname => some (hosts.set ip hostname)
  else some hosts

/-- The loop `for scanner.Scan()` of `loadHostsFromFile`, on the lines the scanner yields and
the global `hosts` map it updates; `none` stands for an index-out-of-range
panic. -/
def loadLines : List String → HostMap → Option HostMap
  | [], hosts => some hosts
  | line :: rest, hosts =>
    match loadLine hosts line with
    | none => none
    | some hosts' => loadLines rest hosts'

/-- How a call of `loadHostsFromFile` ends. -/
inductive Load where
  /-- The function returned; the registry is the given map. -/
  | done (hosts : HostMap)
  /-- The function called `log.Fatal` and the process exited; the registry held the given
  map at that time. -/
  | fatal (hosts : HostMap)
  /-- A slice index was out of range. -/
  | panic
  deriving DecidableEq, Repr

/-- The function `loadHostsFromFile`.  `file` is the content of the named file, `none` when
`os.Open` fails.  The lines are processed as the scanner yields them; after
the loop a scanner error is fatal. -/
def loadHostsFromFile (file : Option String) (hosts : HostMap) : Load :=
  match file with
  | none => .fatal hosts
  | some content =>
    match loadLines (scanLines content).1 hosts with
    | none => .panic
    | some hosts' => if (scanLines content).2 then .fatal hosts' else .done hosts'

end SshV2

/-! ## Specification-side notions for the host file -/

/-- The part of a string before its first comma (the whole string when it
has none). -/
def beforeComma (s : String) : String := String.mk (s.data.takeWhile (· != ','))

/-- Number of bytes of the UTF-8 encoding of a text. -/
def byteSize (l : List Char) : Nat := (l.map Char.utf8Size).sum

/-- A line of text as a line-oriented reader sees it: it holds no line feed and does
not end with a carriage return. -/
def IsLine (l : String) : Prop := '\n' ∉ l.data ∧ l.data.getLast? ≠ some '\r'

/-- The content of the text file made of the given lines, each ended by a line feed. -/
def fileOf (lines : List String) : String :=
  String.mk (lines.flatMap (fun l => l.data ++ ['\n']))

/-- The registry that the given lines describe: `a` is a key iff `a` is the first
field of some line with at least two fields; its label is taken from the last
such line (second field up to its first comma); the keys are distinct; every
key is non-empty and free of white space and every label is free of commas
and white space. -/
def RegistryOf (lines : List String) (m : HostMap) : Prop :=
  m.keys.Nodup ∧
  (∀ a, a ∈ m.keys ↔
    ∃ l ∈ lines, 2 ≤ (GoStr.Fields l).length ∧ (GoStr.Fields l)[0]? = some a) ∧
  (∀ pre l post a b, lines = pre ++ l :: post →
    (GoStr.Fields l)[0]? = some a → (GoStr.Fields l)[1]? = some b →
    (∀ l' ∈ post, ¬ (2 ≤ (GoStr.Fields l').length ∧ (GoStr.Fields l')[0]? = some a)) →
    m.get? a = some (beforeComma b)) ∧
  (∀ a lab, m.get? a = some lab →
    a ≠ "" ∧ (∀ c ∈ a.data, GoStr.isSpace c = false) ∧
    (∀ c ∈ lab.data, c ≠ ',' ∧ GoStr.isSpace c = false))

/-- The registry entry a host-file line stands for: lines with at least two
fields give the first field and the second field up to its first comma. -/
def entryOf (line : String) : Option (String × String) :=
  match GoStr.Fields line with
  | a :: b :: _ => some (a, beforeComma b)
  | _ => none


/-! ## Commands, the environment and traces -/

/-- What running a command gives back: the captured output and whether the
command succeeded (Go `err == nil`). -/
structure Result where
  output : String
  ok : Bool
  deriving DecidableEq, Repr

/-- One executed command together with its result. -/
structure Event (κ : Type) where
  cmd : κ
  res : Result
  deriving DecidableEq, Repr

/-- The outside world: it answers a command, knowing everything executed so far. -/
abbrev Env (κ : Type) := List (Event κ) → κ → Result

/-- An `exec.Command(name, arg...)` of the SSH programs: the argument vector. -/
abbrev Cmd := List String

/-- State of a run of one of the SSH programs: the events so far, and whether the
process is still running (`os.Exit(1)` has not been called). -/
structure Run where
  trace : List (Event Cmd)
  alive : Bool
  deriving DecidableEq, Repr

/-- A Go `for ip := range hosts { body }` loop, the keys being produced in the given order;
nothing runs once the process has exited. -/
def forEach (body : String → List (Event Cmd) → Run) : List String → List (Event Cmd) → Run
  | [], tr => ⟨tr, true⟩
  | ip :: rest, tr =>
    let r := body ip tr
    if r.alive then forEach body rest r.trace else r

/-- The commands of a trace, results dropped. -/
def cmdsOf {κ : Type} (tr : List (Event κ)) : List κ := tr.map Event.cmd

/-! ## First SSH variant: `ssh_version1/ssh_setup.go` -/

namespace SshV1

def sshUser : String := "user"

def sshPassword : String := "password"

def hosts : HostMap :=
  [("172.16.197.100", "ubuntu"),
   ("172.16.197.110", "control-plane"),
   ("172.16.197.120", "worker-node1"),
   ("172.16.197.130", "worker-node2"),
   ("172.16.197.140", "worker-node3")]

/-- The helper `runCommand`: run the command; on failure the process exits. -/
def runCommand (env : Env Cmd) (cmd : Cmd) (tr : List (Event Cmd)) : Run :=
  let r := env tr cmd
  ⟨tr ++ [⟨cmd, r⟩], r.ok⟩

/-- The direct key copy `sshpass -p <pw> ssh-copy-id -o StrictHostKeyChecking=no <user>@<ip>`. -/
def copyKeyCmd (ip : String) : Cmd :=
  ["sshpass", "-p", sshPassword, "ssh-copy-id", "-o", "StrictHostKeyChecking=no",
    sshUser ++ "@" ++ ip]

/-- The inter-host key copy: `ssh-copy-id` to `subIP`, relayed through `ssh <user>@<ip>`. -/
def interCopyKeyCmd (ip subIP : String) : Cmd :=
  ["ssh", sshUser ++ "@" ++ ip, "sshpass", "-p", sshPassword, "ssh-copy-id", "-o",
    "StrictHostKeyChecking=no", sshUser ++ "@" ++ subIP]

/-- The function `setupSSH`.  `outer` is the order in which the outer `range hosts` yields
the addresses, `inner ip` the order of the inner `range hosts` during the
iteration for `ip`. -/
def setupSSH (env : Env Cmd) (outer : List String) (inner : String → List String)
    (tr : List (Event Cmd)) : Run :=
  forEach (fun ip tr =>
    let r := runCommand env (copyKeyCmd ip) tr
    if r.alive then
      forEach (fun subIP tr =>
        if ip ≠ subIP then runCommand env (interCopyKeyCmd ip subIP) tr
        else ⟨tr, true⟩) (inner ip) r.trace
    else r) outer tr

/-- Shape of a direct key copy: `sshpass ... ssh-copy-id ... target`. -/
def isCopyKey (c : Cmd) : Bool :=
  match c with
  | [p, _, _, q, _, _, _] => p == "sshpass" && q == "ssh-copy-id"
  | _ => false

/-- Shape of an inter-host key copy: `ssh relay sshpass ... ssh-copy-id ... target`. -/
def isInterCopyKey (c : Cmd) : Bool :=
  match c with
  | [p, _, q, _, _, r, _, _, _] => p == "ssh" && q == "sshpass" && r == "ssh-copy-id"
  | _ => false

end SshV1

/-! ## Second SSH variant: `ssh_version2/ssh_setup.go`, the remote steps

The globals `sshUser` and `sshPassword` are read from the process environment at
start-up; they are parameters here. -/

namespace SshV2

open GoStr

/-- The helper `runCommand`: run the command; on failure the process exits. -/
def runCommand (env : Env Cmd) (cmd : Cmd) (tr : List (Event Cmd)) : Run :=
  let r := env tr cmd
  ⟨tr ++ [⟨cmd, r⟩], r.ok⟩

/-- The command line `sshpass -p <pw> ssh -o StrictHostKeyChecking=no -tt <user>@<ip> <script>`
shared by the key and sudo steps. -/
def remoteCmd (sshUser sshPassword ip script : String) : Cmd :=
  ["sshpass", "-p", sshPassword, "ssh", "-o", "StrictHostKeyChecking=no", "-tt",
    sshUser ++ "@" ++ ip, script]

/-- The command `cmdCheckKey` of `generateSSHKey`. -/
def keyCheckCmd (sshUser sshPassword ip : String) : Cmd :=
  remoteCmd sshUser sshPassword ip "if [ -f /home/user/.ssh/id_rsa ]; then echo 'exists'; fi"

/-- The `ssh-keygen` command of `generateSSHKey`. -/
def keyGenCmd (sshUser sshPassword ip : String) : Cmd :=
  remoteCmd sshUser sshPassword ip "ssh-keygen -t rsa -b 4096 -N '' -f /home/user/.ssh/id_rsa"

/-- The function `generateSSHKey`; `order` is the order in which `range hosts` yields the
addresses. -/
def generateSSHKey (env : Env Cmd) (sshUser sshPassword : String) (order : List String)
    (tr : List (Event Cmd)) : Run :=
  forEach (fun ip tr =>
    let output := env tr (keyCheckCmd sshUser sshPassword ip)
    let tr1 := tr ++ [⟨keyCheckCmd sshUser sshPassword ip, output⟩]
    if Contains output.output "exists" then ⟨tr1, true⟩
    else runCommand env (keyGenCmd sshUser sshPassword ip) tr1) order tr

/-- The command `cmdSudoCheck` of `configurePasswordlessSudo`.  Its script is built by a
`fmt.Sprintf` whose format has no verb but which is given `sshUser`: Go
appends the surplus argument as `%!(EXTRA string=<user>)`. -/
def sudoCheckCmd (sshUser sshPassword ip : String) : Cmd :=
  remoteCmd sshUser sshPassword ip
    ("sudo -l | grep -q '(ALL) NOPASSWD: ALL' && echo 'passwordless'" ++
      "%!(EXTRA string=" ++ sshUser ++ ")")

/-- The command `cmdSudo` of `configurePasswordlessSudo`: the sudoers write. -/
def sudoCmd (sshUser sshPassword ip : String) : Cmd :=
  remoteCmd sshUser sshPassword ip
    ("echo \"" ++ sshUser ++ " ALL=(ALL) NOPASSWD: ALL\" | sudo -S tee /etc/sudoers.d/" ++
      sshUser ++ " && sudo chmod 440 /etc/sudoers.d/" ++ sshUser)

/-- The function `configurePasswordlessSudo`. -/
def configurePasswordlessSudo (env : Env Cmd) (sshUser sshPassword : String)
    (order : List String) (tr : List (Event Cmd)) : Run :=
  forEach (fun ip tr =>
    let output := env tr (sudoCheckCmd sshUser sshPassword ip)
    let tr1 := tr ++ [⟨sudoCheckCmd sshUser sshPassword ip, output⟩]
    if Contains output.output "passwordless" then ⟨tr1, true⟩
    else runCommand env (sudoCmd sshUser sshPassword ip) tr1) order tr

/-- The command `cmdCheckSSH` of `setupSSH`: the direct probe. -/
def checkSSHCmd (sshUser ip : String) : Cmd :=
  ["ssh", "-o", "BatchMode=yes", "-o", "StrictHostKeyChecking=no", sshUser ++ "@" ++ ip,
    "echo success"]

/-- The command `cmdCopyKey` of `setupSSH`: the direct key copy. -/
def copyKeyCmd (sshUser sshPassword ip : String) : Cmd :=
  ["sshpass", "-p", sshPassword, "ssh-copy-id", "-o", "StrictHostKeyChecking=no",
    sshUser ++ "@" ++ ip]

/-- The command `cmdCheckInterSSH` of `setupSSH`: the inter-host probe, run on `ip`. -/
def checkInterSSHCmd (sshUser ip subIP : String) : Cmd :=
  ["ssh", sshUser ++ "@" ++ ip, "ssh", "-o", "BatchMode=yes", "-o",
    "StrictHostKeyChecking=no", sshUser ++ "@" ++ subIP, "echo success"]

/-- The command `cmdInterCopyKey` of `setupSSH`: `ssh-copy-id` to `subIP`, relayed through an
ssh session on `ip`. -/
def interCopyKeyCmd (sshUser sshPassword ip subIP : String) : Cmd :=
  ["ssh", sshUser ++ "@" ++ ip, "sshpass", "-p", sshPassword, "ssh-copy-id", "-o",
    "StrictHostKeyChecking=no", sshUser ++ "@" ++ subIP]

/-- The function `setupSSH`.  `outer` is the order in which the outer `range hosts` yields
the addresses, `inner ip` the order of the inner `range hosts` during the
iteration for `ip`. -/
def setupSSH (env : Env Cmd) (sshUser sshPassword : String) (outer : List String)
    (inner : String → List String) (tr : List (Event Cmd)) : Run :=
  forEach (fun ip tr =>
    let output := env tr (checkSSHCmd sshUser ip)
    let tr1 := tr ++ [⟨checkSSHCmd sshUser ip, output⟩]
    let r :=
      if Contains output.output "success" then (⟨tr1, true⟩ : Run)
      else runCommand env (copyKeyCmd sshUser sshPassword ip) tr1
    if r.alive then
      forEach (fun subIP tr =>
        if ip ≠ subIP then
          let interOutput := env tr (checkInterSSHCmd sshUser ip subIP)
          let tr2 := tr ++ [⟨checkInterSSHCmd sshUser ip subIP, interOutput⟩]
          if Contains interOutput.output "success" then ⟨tr2, true⟩
          else runCommand env (interCopyKeyCmd sshUser sshPassword ip subIP) tr2
        else ⟨tr, true⟩) (inner ip) r.trace
    else r) outer tr

/-- Shape of an inter-host probe: `ssh relay ssh -o BatchMode=yes ... target "echo success"`. -/
def isCheckInterSSH (c : Cmd) : Bool :=
  match c with
  | [p, _, q, _, r, _, _, _, s] =>
    p == "ssh" && q == "ssh" && r == "BatchMode=yes" && s == "echo success"
  | _ => false

/-- Shape of an inter-host key copy: `ssh relay sshpass ... ssh-copy-id ... target`. -/
def isInterCopyKey (c : Cmd) : Bool :=
  match c with
  | [p, _, q, _, _, r, _, _, _] => p == "ssh" && q == "sshpass" && r == "ssh-copy-id"
  | _ => false

end SshV2

/-! ## Counting in traces -/

/-- A probe followed, unless its output shows the marker, by a mutating command run
through `runCommand`: the pattern of every gated step of the second SSH variant. -/
def gated (env : Env Cmd) (check mutate : Cmd) (marker : String) (tr : List (Event Cmd)) :
    Run :=
  let output := env tr check
  let tr1 := tr ++ [⟨check, output⟩]
  if GoStr.Contains output.output marker then ⟨tr1, true⟩
  else SshV2.runCommand env mutate tr1

/-- Number of events whose command satisfies `q`. -/
def countCmd (q : Cmd → Bool) (tr : List (Event Cmd)) : Nat :=
  tr.countP (fun e => q e.cmd)

/-- Number of events whose command satisfies `q` and whose output contains the marker. -/
def countMarked (q : Cmd → Bool) (marker : String) (tr : List (Event Cmd)) : Nat :=
  tr.countP (fun e => q e.cmd && GoStr.Contains e.res.output marker)

/-- Number of commands satisfying `q` among a direct command per host and an inter-host
command per ordered pair of distinct hosts, for the outer host `ip`. -/
def fanout (direct : String → Cmd) (inter : String → String → Cmd) (q : Cmd → Bool)
    (inner : String → List String) (ip : String) : Nat :=
  (if q (direct ip) then 1 else 0) +
    ((inner ip).map (fun sub => if ip ≠ sub ∧ q (inter ip sub) = true then 1 else 0)).sum

/-! ## The Kubernetes provisioning program: `k8s-cluster-installation/k8s-setup_full.go` -/

namespace K8s

open GoStr

/-- The command lines the program hands to `bash -c`.  `ssh node cmd` is the line
`ssh <node> "<cmd>"` built by `runCommand` and by the probes; `sh script` is a
line run on the local machine (the `scp` calls).  An environment that only
sees the rendered argument vector is the special case of an `Env Cmd` that
factors through `Cmd.render`. -/
inductive Cmd where
  | ssh (node cmd : String)
  | sh (script : String)
  deriving DecidableEq, Repr

/-- The argument vector given to `exec.Command`. -/
def Cmd.render : Cmd → List String
  | .ssh node cmd => ["bash", "-c", "ssh " ++ node ++ " \"" ++ cmd ++ "\""]
  | .sh script => ["bash", "-c", script]

abbrev Trace := List (Event Cmd)

def nodes : List String :=
  ["control-plane", "worker-node1", "worker-node2", "worker-node3"]

/-- The function `runCommand`: the result is `true` when the returned error is `nil`. -/
def runCommand (env : Env Cmd) (node cmd : String) (tr : Trace) : Trace × Bool :=
  let r := env tr (.ssh node cmd)
  (tr ++ [⟨.ssh node cmd, r⟩], r.ok)

/-- The loop `for _, cmd := range cmds { if err := runCommand(node, cmd); err != nil { return err } }`
followed by `return nil`, as written in five of the step functions. -/
def runAll (env : Env Cmd) (node : String) : List String → Trace → Trace × Bool
  | [], tr => (tr, true)
  | cmd :: rest, tr =>
    match runCommand env node cmd tr with
    | (tr', true) => runAll env node rest tr'
    | (tr', false) => (tr', false)

def firewallCmds : List String :=
  ["sudo ufw allow 6443/tcp",
   "sudo ufw allow 2379:2380/tcp",
   "sudo ufw allow 10250/tcp",
   "sudo ufw allow 10251/tcp",
   "sudo ufw allow 10252/tcp",
   "sudo ufw allow 30000:32767/tcp",
   "sudo ufw enable"]

def configureFirewall (env : Env Cmd) (node : String) (tr : Trace) : Trace × Bool :=
  runAll env node firewallCmds tr

def certFiles : List String :=
  ["/home/user/KAINOS-INSPECTION_G2.crt",
   "/home/user/KAINOS-ROOT-CA_G2.crt",
   "/home/user/KAINOS-ZSCALER_G2.crt"]

/-- The `destPath` of a certificate. -/
def certDest (certPath : String) : String :=
  "/usr/local/share/ca-certificates/" ++ filepathBase certPath

/-- The `checkCmd` of `copyCertificates`. -/
def certCheckScript (certPath : String) : String :=
  "[ -f " ++ certDest certPath ++ " ] && echo 'exists'"

/-- The `scpCmd` of `copyCertificates`. -/
def certScpScript (node certPath : String) : String :=
  "scp " ++ certPath ++ " " ++ node ++ ":/tmp/" ++ filepathBase certPath

/-- The `installCmd` of `copyCertificates`. -/
def certInstallScript (certPath : String) : String :=
  "sudo mv /tmp/" ++ filepathBase certPath ++ " " ++ certDest certPath ++
    " && sudo update-ca-certificates"

/-- The body of the loop of `copyCertificates` for one certificate: `true` when the loop
goes on (`continue` or end of body), `false` when the function returns an error. -/
def copyCertificate (env : Env Cmd) (node certPath : String) (tr : Trace) : Trace × Bool :=
  let out := env tr (.ssh node (certCheckScript certPath))
  let tr1 := tr ++ [⟨.ssh node (certCheckScript certPath), out⟩]
  if TrimSpace out.output = "exists" then (tr1, true)
  else
    let scp := env tr1 (.sh (certScpScript node certPath))
    let tr2 := tr1 ++ [⟨.sh (certScpScript node certPath), scp⟩]
    if scp.ok then runCommand env node (certInstallScript certPath) tr2
    else (tr2, false)

/-- The loop of `copyCertificates` over the remaining certificates. -/
def copyCertificatesFrom (env : Env Cmd) (node : String) : List String → Trace → Trace × Bool
  | [], tr => (tr, true)
  | certPath :: rest, tr =>
    match copyCertificate env node certPath tr with
    | (tr', true) => copyCertificatesFrom env node rest tr'
    | (tr', false) => (tr', false)

def copyCertificates (env : Env Cmd) (node : String) (tr : Trace) : Trace × Bool :=
  copyCertificatesFrom env node certFiles tr

/-- The `checkCmd` of `enableIPv4Forwarding`. -/
def forwardingCheckScript : String := "sysctl net.ipv4.ip_forward"

def forwardingCmds : List String :=
  ["echo 'net.ipv4.ip_forward=1' | sudo tee /etc/sysctl.d/99-kubernetes-cri.conf",
   "sudo sysctl --system"]

def enableIPv4Forwarding (env : Env Cmd) (node : String) (tr : Trace) : Trace × Bool :=
  let out := env tr (.ssh node forwardingCheckScript)
  let tr1 := tr ++ [⟨.ssh node forwardingCheckScript, out⟩]
  if Contains out.output "= 1" then (tr1, true)
  else runAll env node forwardingCmds tr1

def swapCmd : String := "sudo swapoff -a && sudo sed -i '/swap/d' /etc/fstab"

def disableSwap (env : Env Cmd) (node : String) (tr : Trace) : Trace × Bool :=
  runCommand env node swapCmd tr

def repositoryCmds : List String :=
  ["curl -fsSL https://pkgs.k8s.io/core:/stable:/v1.30/deb/Release.key | sudo gpg --batch --yes --dearmor -o /etc/apt/keyrings/kubernetes-apt-keyring.gpg",
   "echo 'deb [signed-by=/etc/apt/keyrings/kubernetes-apt-keyring.gpg] https://pkgs.k8s.io/core:/stable:/v1.30/deb/ /' | sudo tee /etc/apt/sources.list.d/kubernetes.list",
   "sudo apt update"]

def setupKubernetesRepository (env : Env Cmd) (node : String) (tr : Trace) : Trace × Bool :=
  runAll env node repositoryCmds tr

def packageCmds : List String :=
  ["sudo apt install -y kubelet kubeadm kubectl",
   "sudo apt-mark hold kubelet kubeadm kubectl"]

def installKubernetesPackages (env : Env Cmd) (node : String) (tr : Trace) : Trace × Bool :=
  runAll env node packageCmds tr

def containerdCmds : List String :=
  ["sudo mkdir -p /etc/containerd",
   "containerd config default | sudo tee /etc/containerd/config.toml > /dev/null",
   "sudo sed -i 's/SystemdCgroup = false/SystemdCgroup = true/' /etc/containerd/config.toml",
   "sudo systemctl restart containerd"]

def setupContainerd (env : Env Cmd) (node : String) (tr : Trace) : Trace × Bool :=
  runAll env node containerdCmds tr

/-- The `checkCmd` of `initControlPlane`. -/
def manifestCheckScript : String :=
  "test -f /etc/kubernetes/manifests/kube-apiserver.yaml && echo 'exists'"

def kubeadmInitCmd : String := "sudo kubeadm init --pod-network-cidr=192.168.0.0/16"

def copyAdminConfCmd : String :=
  "mkdir -p $HOME/.kube && sudo cp -f /etc/kubernetes/admin.conf $HOME/.kube/config && sudo chown $(id -u):$(id -g) $HOME/.kube/config"

/-- The `joinCmd` of `initControlPlane`: the token creation. -/
def tokenCreateCmd : String := "kubeadm token create --print-join-command"

/-- The function `initControlPlane`: the trace, the returned join command and whether the
returned error is `nil`. -/
def initControlPlane (env : Env Cmd) (tr : Trace) : Trace × String × Bool :=
  let out := env tr (.ssh "control-plane" manifestCheckScript)
  let tr1 := tr ++ [⟨.ssh "control-plane" manifestCheckScript, out⟩]
  if TrimSpace out.output = "exists" then (tr1, "", true)
  else
    match runCommand env "control-plane" kubeadmInitCmd tr1 with
    | (tr2, false) => (tr2, "", false)
    | (tr2, true) =>
      match runCommand env "control-plane" copyAdminConfCmd tr2 with
      | (tr3, false) => (tr3, "", false)
      | (tr3, true) =>
        let tok := env tr3 (.ssh "control-plane" tokenCreateCmd)
        let tr4 := tr3 ++ [⟨.ssh "control-plane" tokenCreateCmd, tok⟩]
        if tok.ok then (tr4, TrimSpace tok.output, true) else (tr4, "", false)

/-- The loop of `joinWorkerNodes` over the remaining nodes. -/
def joinFrom (env : Env Cmd) (joinCmd : String) : List String → Trace → Trace × Bool
  | [], tr => (tr, true)
  | node :: rest, tr =>
    match runCommand env node ("sudo " ++ joinCmd) tr with
    | (tr', true) => joinFrom env joinCmd rest tr'
    | (tr', false) => (tr', false)

/-- The function `joinWorkerNodes`; `nodes[1:]` is the node list without its first element. -/
def joinWorkerNodes (env : Env Cmd) (joinCmd : String) (tr : Trace) : Trace × Bool :=
  if joinCmd = "" then (tr, true)
  else joinFrom env joinCmd (nodes.drop 1) tr

def remoteKubectlScript : String :=
  "scp control-plane:$HOME/.kube/config $HOME/.kube/config && sudo chown $(id -u):$(id -g) $HOME/.kube/config"

def setupRemoteKubectl (env : Env Cmd) (tr : Trace) : Trace × Bool :=
  let r := env tr (.sh remoteKubectlScript)
  (tr ++ [⟨.sh remoteKubectlScript, r⟩], r.ok)

def networkPluginCmds : List String :=
  ["kubectl create -f https://raw.githubusercontent.com/projectcalico/calico/v3.25.0/manifests/tigera-operator.yaml",
   "kubectl apply -f https://docs.projectcalico.org/manifests/calico.yaml"]

def installNetworkPlugin (env : Env Cmd) (tr : Trace) : Trace × Bool :=
  runAll env "control-plane" networkPluginCmds tr

/-- Go on with `next` when the step returned no error; otherwise stop there (in `main`:
`log.Fatalf`). -/
def andThen (r : Trace × Bool) (next : Trace → Trace × Bool) : Trace × Bool :=
  if r.2 then next r.1 else r

/-- The body of the loop of `main` for one node: the seven steps in the order written. -/
def provisionNode (env : Env Cmd) (node : String) (tr : Trace) : Trace × Bool :=
  andThen (configureFirewall env node tr) fun tr =>
  andThen (copyCertificates env node tr) fun tr =>
  andThen (enableIPv4Forwarding env node tr) fun tr =>
  andThen (disableSwap env node tr) fun tr =>
  andThen (setupKubernetesRepository env node tr) fun tr =>
  andThen (installKubernetesPackages env node tr) fun tr =>
  setupContainerd env node tr

/-- The loop `for _, node := range nodes` of `main`. -/
def provisionFrom (env : Env Cmd) : List String → Trace → Trace × Bool
  | [], tr => (tr, true)
  | node :: rest, tr =>
    match provisionNode env node tr with
    | (tr', true) => provisionFrom env rest tr'
    | (tr', false) => (tr', false)

/-- What is left of `main` after the loop over the nodes. -/
def bootstrap (env : Env Cmd) (tr : Trace) : Trace × Bool :=
  match initControlPlane env tr with
  | (tr1, _, false) => (tr1, false)
  | (tr1, joinCmd, true) =>
    andThen (joinWorkerNodes env joinCmd tr1) fun tr =>
    andThen (setupRemoteKubectl env tr) fun tr =>
    installNetworkPlugin env tr

/-- Outcome of a run of the program: its trace and whether it ended in `log.Fatalf`. -/
structure Outcome where
  trace : Trace
  fatal : Bool
  deriving DecidableEq, Repr

/-- The function `main`. -/
def main (env : Env Cmd) : Outcome :=
  let r := andThen (provisionFrom env nodes []) (bootstrap env)
  ⟨r.1, !r.2⟩

/-- The probe scripts: the commands whose error is discarded by the program. -/
def probeScripts : List String :=
  certFiles.map certCheckScript ++ [forwardingCheckScript, manifestCheckScript]

/-- Whether a command is one of the idempotency probes. -/
def isProbe : Cmd → Bool
  | .ssh _ cmd => decide (cmd ∈ probeScripts)
  | .sh _ => false

/-- An event that makes the program give up: a failed command that is not a probe. -/
def fails (e : Event Cmd) : Bool := !e.res.ok && !isProbe e.cmd

end K8s

namespace K8s

/-- The events `new` added by a step that returned `ok`: no command whose error is
checked has failed before the last event, and none at all when the step
returned no error. -/
def Orderly (new : Trace) (ok : Bool) : Prop :=
  (ok = true → ∀ e ∈ new, fails e = false) ∧
  (ok = false → ∃ pre e, new = pre ++ [e] ∧ ∀ x ∈ pre, fails x = false)

/-- The step result `r` extends the trace `tr` in an orderly way. -/
def Extends (tr : Trace) (r : Trace × Bool) : Prop :=
  ∃ new, r.1 = tr ++ new ∧ Orderly new r.2

end K8s

namespace K8s

/-- An environment in which every command whose error is checked succeeds; the probes
may return anything. -/
def Quiet (env : Env Cmd) : Prop :=
  ∀ h c, isProbe c = false → (env h c).ok = true

/-- The provisioning steps of a node, named as in the specification. -/
inductive Step where
  | firewall
  | certificates
  | forwarding
  | swap
  | repository
  | packages
  | containerd
  deriving DecidableEq, Repr

/-- The order of the steps: firewall rules, certificate install, IPv4 forwarding, swap
disable, package repository setup, package install, container runtime
configuration. -/
def stepOrder : List Step :=
  [.firewall, .certificates, .forwarding, .swap, .repository, .packages, .containerd]

/-- Which probes of a node reported that the work is already done. -/
structure Skips where
  cert1 : Bool
  cert2 : Bool
  cert3 : Bool
  forwarding : Bool
  deriving DecidableEq, Repr

/-- The commands expected for one certificate: the presence probe, then the copy and the
install unless the probe said to skip. -/
def certStep (node name : String) (skip : Bool) : List Cmd :=
  Cmd.ssh node ("[ -f /usr/local/share/ca-certificates/" ++ name ++ " ] && echo 'exists'") ::
    (if skip then []
     else [Cmd.sh ("scp /home/user/" ++ name ++ " " ++ node ++ ":/tmp/" ++ name),
           Cmd.ssh node ("sudo mv /tmp/" ++ name ++ " /usr/local/share/ca-certificates/" ++
             name ++ " && sudo update-ca-certificates")])

/-- The commands expected for one step on one node, written out. -/
def stepPlan (node : String) (sk : Skips) : Step → List Cmd
  | .firewall =>
    [Cmd.ssh node "sudo ufw allow 6443/tcp",
     Cmd.ssh node "sudo ufw allow 2379:2380/tcp",
     Cmd.ssh node "sudo ufw allow 10250/tcp",
     Cmd.ssh node "sudo ufw allow 10251/tcp",
     Cmd.ssh node "sudo ufw allow 10252/tcp",
     Cmd.ssh node "sudo ufw allow 30000:32767/tcp",
     Cmd.ssh node "sudo ufw enable"]
  | .certificates =>
    certStep node "KAINOS-INSPECTION_G2.crt" sk.cert1 ++
    certStep node "KAINOS-ROOT-CA_G2.crt" sk.cert2 ++
    certStep node "KAINOS-ZSCALER_G2.crt" sk.cert3
  | .forwarding =>
    Cmd.ssh node "sysctl net.ipv4.ip_forward" ::
      (if sk.forwarding then []
       else [Cmd.ssh node
               "echo 'net.ipv4.ip_forward=1' | sudo tee /etc/sysctl.d/99-kubernetes-cri.conf",
             Cmd.ssh node "sudo sysctl --system"])
  | .swap =>
    [Cmd.ssh node "sudo swapoff -a && sudo sed -i '/swap/d' /etc/fstab"]
  | .repository =>
    [Cmd.ssh node "curl -fsSL https://pkgs.k8s.io/core:/stable:/v1.30/deb/Release.key | sudo gpg --batch --yes --dearmor -o /etc/apt/keyrings/kubernetes-apt-keyring.gpg",
     Cmd.ssh node "echo 'deb [signed-by=/etc/apt/keyrings/kubernetes-apt-keyring.gpg] https://pkgs.k8s.io/core:/stable:/v1.30/deb/ /' | sudo tee /etc/apt/sources.list.d/kubernetes.list",
     Cmd.ssh node "sudo apt update"]
  | .packages =>
    [Cmd.ssh node "sudo apt install -y kubelet kubeadm kubectl",
     Cmd.ssh node "sudo apt-mark hold kubelet kubeadm kubectl"]
  | .containerd =>
    [Cmd.ssh node "sudo mkdir -p /etc/containerd",
     Cmd.ssh node "containerd config default | sudo tee /etc/containerd/config.toml > /dev/null",
     Cmd.ssh node "sudo sed -i 's/SystemdCgroup = false/SystemdCgroup = true/' /etc/containerd/config.toml",
     Cmd.ssh node "sudo systemctl restart containerd"]

/-- The commands expected for one node: those of its steps, in the order of the steps. -/
def nodePlan (node : String) (sk : Skips) : List Cmd :=
  stepOrder.flatMap (stepPlan node sk)

/-- The provisioning commands expected for the whole node list, node after node. -/
def provisioningPlan (k0 k1 k2 k3 : Skips) : List Cmd :=
  nodePlan "control-plane" k0 ++ nodePlan "worker-node1" k1 ++
  nodePlan "worker-node2" k2 ++ nodePlan "worker-node3" k3

/-- The commands expected after the node loop: the manifest probe that opens the
control-plane initialisation, the initialisation itself unless the probe
matched, the joins of the workers unless the join command is empty, the copy
of the kubeconfig and the network plugin. -/
def bootstrapPlan (initSkipped : Bool) (joinCmd : String) : List Cmd :=
  Cmd.ssh "control-plane"
      "test -f /etc/kubernetes/manifests/kube-apiserver.yaml && echo 'exists'" ::
    (if initSkipped then []
     else [Cmd.ssh "control-plane" "sudo kubeadm init --pod-network-cidr=192.168.0.0/16",
           Cmd.ssh "control-plane" "mkdir -p $HOME/.kube && sudo cp -f /etc/kubernetes/admin.conf $HOME/.kube/config && sudo chown $(id -u):$(id -g) $HOME/.kube/config",
           Cmd.ssh "control-plane" "kubeadm token create --print-join-command"]) ++
    (if joinCmd = "" then []
     else [Cmd.ssh "worker-node1" ("sudo " ++ joinCmd),
           Cmd.ssh "worker-node2" ("sudo " ++ joinCmd),
           Cmd.ssh "worker-node3" ("sudo " ++ joinCmd)]) ++
    [Cmd.sh "scp control-plane:$HOME/.kube/config $HOME/.kube/config && sudo chown $(id -u):$(id -g) $HOME/.kube/config",
     Cmd.ssh "control-plane" "kubectl create -f https://raw.githubusercontent.com/projectcalico/calico/v3.25.0/manifests/tigera-operator.yaml",
     Cmd.ssh "control-plane" "kubectl apply -f https://docs.projectcalico.org/manifests/calico.yaml"]

/-- No probe says to skip. -/
def noSkip : Skips := ⟨false, false, false, false⟩

/-- The provisioning commands of a run in which no step is skipped. -/
def fullPlan : List Cmd := provisioningPlan noSkip noSkip noSkip noSkip

end K8s
/-! ## Facts about the string functions -/

namespace GoStr

theorem fieldsFrom_clean (l : List Char) :
    ∀ cur : List Char, (∀ c ∈ cur, isSpace c = false) →
      ∀ f ∈ fieldsFrom l cur, f.data ≠ [] ∧ ∀ c ∈ f.data, isSpace c = false := by
  induction l with
  | nil =>
    intro cur hcur f hf
    unfold fieldsFrom at hf
    cases cur with
    | nil => simp at hf
    | cons a as =>
      simp at hf
      subst hf
      refine ⟨by simp, ?_⟩
      intro c hc
      simp at hc
      exact hcur c (by simpa [or_comm] using hc)
  | cons x xs ih =>
    intro cur hcur f hf
    unfold fieldsFrom at hf
    by_cases hx : isSpace x = true
    · cases cur with
      | nil =>
        simp [hx] at hf
        exact ih [] (by simp) f hf
      | cons a as =>
        simp [hx] at hf
        rcases hf with hf | hf
        · subst hf
          refine ⟨by simp, ?_⟩
          intro c hc
          simp at hc
          exact hcur c (by simpa [or_comm] using hc)
        · exact ih [] (by simp) f hf
    · simp [hx] at hf
      refine ih (x :: cur) ?_ f hf
      intro c hc
      rcases List.mem_cons.1 hc with h | h
      · subst h; simpa using hx
      · exact hcur c h

/-- Every field is non-empty and free of white space. -/
theorem Fields_clean (s f : String) (hf : f ∈ Fields s) :
    f ≠ "" ∧ ∀ c ∈ f.data, isSpace c = false := by
  have h := fieldsFrom_clean s.data [] (by simp) f hf
  refine ⟨?_, h.2⟩
  intro h0
  apply h.1
  rw [h0]

theorem splitFrom_comma_head (l : List Char) :
    ∀ cur : List Char,
      (splitFrom [','] l 0 cur)[0]? =
        some (String.mk (cur.reverse ++ l.takeWhile (· != ','))) := by
  induction l with
  | nil => intro cur; simp [splitFrom]
  | cons x xs ih =>
    intro cur
    unfold splitFrom
    by_cases hx : x = ','
    · subst hx
      simp [List.isPrefixOf]
    · have hne : ¬ (',' = x) := fun h => hx h.symm
      simp [List.isPrefixOf, hne, ih, List.takeWhile_cons, hx]

/-- The first piece of a split at commas is the text before the first comma. -/
theorem Split_comma_head (s : String) :
    (Split s ",")[0]? = some (String.mk (s.data.takeWhile (· != ','))) := by
  have h := splitFrom_comma_head s.data []
  simpa [Split] using h

end GoStr

/-! ## Facts about the host registry -/

namespace HostMap

theorem get?_set (m : HostMap) (k v a : String) :
    (m.set k v).get? a = if a = k then some v else m.get? a := by
  induction m with
  | nil =>
    by_cases h : a = k
    · simp [set, get?, h]
    · have h' : ¬ k = a := fun hc => h hc.symm
      simp [set, get?, h, h']
  | cons p rest ih =>
    obtain ⟨k', v'⟩ := p
    by_cases hk : k' = k
    · subst hk
      by_cases h : a = k'
      · simp [set, get?, h]
      · have h' : ¬ k' = a := fun hc => h hc.symm
        simp [set, get?, h, h']
    · by_cases h : a = k
      · subst h
        simp [set, get?, hk, ih]
      · by_cases h' : k' = a
        · simp [set, get?, hk, h, h']
        · simp [set, get?, hk, h, h', ih]

theorem mem_keys_set (m : HostMap) (k v a : String) :
    a ∈ (m.set k v).keys ↔ a = k ∨ a ∈ m.keys := by
  induction m with
  | nil => simp [set, keys]
  | cons p rest ih =>
    obtain ⟨k', v'⟩ := p
    unfold keys at ih
    by_cases hk : k' = k
    · subst hk
      simp [set, keys]
    · simp [set, keys, hk, ih]
      tauto

theorem nodup_keys_set (m : HostMap) (k v : String) (h : m.keys.Nodup) :
    (m.set k v).keys.Nodup := by
  induction m with
  | nil => simp [set, keys]
  | cons p rest ih =>
    obtain ⟨k', v'⟩ := p
    have h' : k' ∉ HostMap.keys rest ∧ (HostMap.keys rest).Nodup := by
      simpa [keys] using h
    by_cases hk : k' = k
    · subst hk
      simpa [set, keys] using h
    · have hmem : k' ∉ HostMap.keys (HostMap.set rest k v) := by
        rw [mem_keys_set]
        intro hc
        rcases hc with hc | hc
        · exact hk hc
        · exact h'.1 hc
      have := ih h'.2
      simp only [keys] at this hmem
      simp only [set, if_neg hk, keys, List.map_cons, List.nodup_cons]
      exact ⟨hmem, this⟩

theorem mem_keys_of_get? (m : HostMap) (a v : String) (h : m.get? a = some v) :
    a ∈ m.keys := by
  induction m with
  | nil => simp [get?] at h
  | cons p rest ih =>
    obtain ⟨k', v'⟩ := p
    by_cases hk : k' = a
    · simp [keys, hk]
    · have h1 : HostMap.get? rest a = some v := by simpa [get?, hk] using h
      have h2 := ih h1
      simp only [keys] at h2
      simp [keys, h2]

theorem setAll_append (m : HostMap) (es fs : List (String × String)) :
    setAll m (es ++ fs) = setAll (setAll m es) fs := by
  simp [setAll, List.foldl_append]

theorem nodup_keys_setAll (es : List (String × String)) :
    ∀ m : HostMap, m.keys.Nodup → (setAll m es).keys.Nodup := by
  induction es with
  | nil => intro m h; simpa [setAll] using h
  | cons e es ih =>
    intro m h
    exact ih (m.set e.1 e.2) (nodup_keys_set m e.1 e.2 h)

theorem mem_keys_setAll (es : List (String × String)) :
    ∀ (m : HostMap) (a : String),
      a ∈ (setAll m es).keys ↔ a ∈ m.keys ∨ ∃ e ∈ es, e.1 = a := by
  induction es with
  | nil => intro m a; simp [setAll]
  | cons e es ih =>
    intro m a
    have h := ih (m.set e.1 e.2) a
    simp only [setAll, List.foldl_cons] at h ⊢
    rw [h, mem_keys_set]
    constructor
    · rintro ((h1 | h1) | ⟨e', he', h1⟩)
      · exact Or.inr ⟨e, by simp, h1.symm⟩
      · exact Or.inl h1
      · exact Or.inr ⟨e', by simp [he'], h1⟩
    · rintro (h1 | ⟨e', he', h1⟩)
      · exact Or.inl (Or.inr h1)
      · rcases List.mem_cons.1 he' with h2 | h2
        · subst h2; exact Or.inl (Or.inl h1.symm)
        · exact Or.inr ⟨e', h2, h1⟩

theorem get?_setAll_of_not_mem (es : List (String × String)) :
    ∀ (m : HostMap) (a : String), (∀ e ∈ es, e.1 ≠ a) →
      (setAll m es).get? a = m.get? a := by
  induction es with
  | nil => intro m a _; simp [setAll]
  | cons e es ih =>
    intro m a h
    have h1 := ih (m.set e.1 e.2) a (fun e' he' => h e' (by simp [he']))
    have h2 : ¬ a = e.1 := fun hc => h e (by simp) hc.symm
    simp only [setAll, List.foldl_cons] at h1 ⊢
    rw [h1, get?_set, if_neg h2]

theorem get?_setAll_last (m : HostMap) (pre post : List (String × String))
    (e : String × String) (h : ∀ e' ∈ post, e'.1 ≠ e.1) :
    (setAll m (pre ++ e :: post)).get? e.1 = some e.2 := by
  rw [setAll_append]
  have : setAll (setAll m pre) (e :: post) = setAll ((setAll m pre).set e.1 e.2) post := by
    simp [setAll]
  rw [this, get?_setAll_of_not_mem post _ _ h, get?_set, if_pos rfl]

theorem get?_setAll_source (es : List (String × String)) :
    ∀ (m : HostMap) (a v : String), (setAll m es).get? a = some v →
      m.get? a = some v ∨ (a, v) ∈ es := by
  induction es with
  | nil => intro m a v h; exact Or.inl (by simpa [setAll] using h)
  | cons e es ih =>
    intro m a v h
    have h1 := ih (m.set e.1 e.2) a v (by simpa [setAll] using h)
    rcases h1 with h1 | h1
    · rw [get?_set] at h1
      by_cases hk : a = e.1
      · rw [if_pos hk] at h1
        right
        have : e = (a, v) := by
          cases e
          simp at hk h1
          simp [hk, h1]
        simp [this]
      · rw [if_neg hk] at h1
        exact Or.inl h1
    · exact Or.inr (by simp [h1])

end HostMap

namespace SshV2

open GoStr

theorem loadLine_eq (hosts : HostMap) (line : String) :
    loadLine hosts line =
      some (match entryOf line with
            | some e => hosts.set e.1 e.2
            | none => hosts) := by
  unfold loadLine entryOf
  rcases hF : Fields line with _ | ⟨a, _ | ⟨b, rest⟩⟩
  · simp
  · simp
  · simp [Split_comma_head, beforeComma]

theorem loadLines_eq (lines : List String) :
    ∀ hosts : HostMap,
      loadLines lines hosts = some (HostMap.setAll hosts (lines.filterMap entryOf)) := by
  induction lines with
  | nil => intro hosts; simp [loadLines, HostMap.setAll]
  | cons l ls ih =>
    intro hosts
    unfold loadLines
    rw [loadLine_eq]
    cases h : entryOf l with
    | none => simp [ih, List.filterMap_cons, h]
    | some e => simp [ih, List.filterMap_cons, h, HostMap.setAll]

theorem loadHostsFromFile_eq (content : String) (hosts : HostMap) :
    loadHostsFromFile (some content) hosts =
      if (scanLines content).2 then
        Load.fatal (HostMap.setAll hosts ((scanLines content).1.filterMap entryOf))
      else Load.done (HostMap.setAll hosts ((scanLines content).1.filterMap entryOf)) := by
  simp only [loadHostsFromFile, loadLines_eq]

end SshV2

theorem entryOf_eq_some (line : String) (e : String × String) :
    entryOf line = some e ↔
      ∃ b, (GoStr.Fields line)[0]? = some e.1 ∧ (GoStr.Fields line)[1]? = some b ∧
        e.2 = beforeComma b := by
  unfold entryOf
  rcases hF : GoStr.Fields line with _ | ⟨a, _ | ⟨b, rest⟩⟩
  · simp
  · simp
  · obtain ⟨e1, e2⟩ := e
    simp
    intro _
    exact eq_comm

theorem entryOf_eq_none (line : String) :
    entryOf line = none ↔ (GoStr.Fields line).length < 2 := by
  unfold entryOf
  rcases hF : GoStr.Fields line with _ | ⟨a, _ | ⟨b, rest⟩⟩ <;> simp

namespace GoStr

theorem fieldsFrom_spaces (ws l : List Char) (h : ∀ c ∈ ws, isSpace c = true) :
    fieldsFrom (ws ++ l) [] = fieldsFrom l [] := by
  induction ws with
  | nil => rfl
  | cons w ws ih =>
    have hw : isSpace w = true := h w (by simp)
    have := ih (fun c hc => h c (by simp [hc]))
    simp [fieldsFrom, hw, this]

theorem fieldsFrom_word (a : List Char) (h : ∀ c ∈ a, isSpace c = false) :
    ∀ (l cur : List Char), fieldsFrom (a ++ l) cur = fieldsFrom l (a.reverse ++ cur) := by
  induction a with
  | nil => intro l cur; rfl
  | cons x xs ih =>
    intro l cur
    have hx : isSpace x = false := h x (by simp)
    have := ih (fun c hc => h c (by simp [hc])) l (x :: cur)
    simp [fieldsFrom, hx, this]

theorem fieldsFrom_end (cur l : List Char) (hcur : cur ≠ [])
    (hl : l = [] ∨ ∃ c t, l = c :: t ∧ isSpace c = true) :
    fieldsFrom l cur = String.mk cur.reverse :: fieldsFrom l [] := by
  rcases hl with hl | ⟨c, t, hl, hc⟩
  · subst hl
    cases cur with
    | nil => exact absurd rfl hcur
    | cons y ys => simp [fieldsFrom]
  · subst hl
    cases cur with
    | nil => exact absurd rfl hcur
    | cons y ys => simp [fieldsFrom, hc]

/-- The fields of a line made of optional white space, a word, white space,
a second word and a remainder that is empty or starts with white space. -/
theorem Fields_two (w0 a w1 b tail : List Char)
    (hw0 : ∀ c ∈ w0, isSpace c = true)
    (ha : a ≠ []) (ha' : ∀ c ∈ a, isSpace c = false)
    (hw1 : w1 ≠ []) (hw1' : ∀ c ∈ w1, isSpace c = true)
    (hb : b ≠ []) (hb' : ∀ c ∈ b, isSpace c = false)
    (ht : tail = [] ∨ ∃ c t, tail = c :: t ∧ isSpace c = true) :
    Fields (String.mk (w0 ++ a ++ w1 ++ b ++ tail)) =
      String.mk a :: String.mk b :: Fields (String.mk tail) := by
  unfold Fields
  simp only [List.append_assoc]
  rw [fieldsFrom_spaces _ _ hw0, fieldsFrom_word a ha']
  have h1 : fieldsFrom (w1 ++ (b ++ tail)) (a.reverse ++ []) =
      String.mk a :: fieldsFrom (w1 ++ (b ++ tail)) [] := by
    have := fieldsFrom_end (a.reverse ++ []) (w1 ++ (b ++ tail)) (by simpa using ha)
      (by
        right
        cases w1 with
        | nil => exact absurd rfl hw1
        | cons c t => exact ⟨c, t ++ (b ++ tail), rfl, hw1' c (by simp)⟩)
    simpa using this
  rw [h1, fieldsFrom_spaces _ _ hw1', fieldsFrom_word b hb']
  have h2 := fieldsFrom_end (b.reverse ++ []) tail (by simpa using hb) ht
  rw [h2]
  simp

end GoStr

theorem filterMap_entryOf_filter (lines : List String) :
    (lines.filter (fun l => decide (2 ≤ (GoStr.Fields l).length))).filterMap entryOf =
      lines.filterMap entryOf := by
  induction lines with
  | nil => rfl
  | cons l ls ih =>
    by_cases h : 2 ≤ (GoStr.Fields l).length
    · simp [List.filter_cons, h, List.filterMap_cons, ih]
    · have hn : entryOf l = none := (entryOf_eq_none l).2 (by omega)
      simp [List.filter_cons, h, List.filterMap_cons, ih, hn]

theorem entryOf_clean (line : String) (e : String × String) (h : entryOf line = some e) :
    e.1 ≠ "" ∧ (∀ c ∈ e.1.data, GoStr.isSpace c = false) ∧
      (∀ c ∈ e.2.data, c ≠ ',' ∧ GoStr.isSpace c = false) := by
  obtain ⟨b, h0, h1, h2⟩ := (entryOf_eq_some line e).1 h
  have ha : e.1 ∈ GoStr.Fields line := List.getElem?_mem h0
  have hb : b ∈ GoStr.Fields line := List.getElem?_mem h1
  have ca := GoStr.Fields_clean line e.1 ha
  have cb := GoStr.Fields_clean line b hb
  refine ⟨ca.1, ca.2, ?_⟩
  intro c hc
  rw [h2] at hc
  simp only [beforeComma] at hc
  constructor
  · have := List.mem_takeWhile_imp hc
    simpa using this
  · exact cb.2 c ((List.takeWhile_sublist _).subset hc)

/-! ## Loops over the registry -/

theorem forEach_invariant (I : List (Event Cmd) → Prop)
    (body : String → List (Event Cmd) → Run)
    (hbody : ∀ ip tr, I tr → I (body ip tr).trace) (L : List String) :
    ∀ tr, I tr → I (forEach body L tr).trace := by
  induction L with
  | nil => intro tr h; simpa [forEach] using h
  | cons x xs ih =>
    intro tr h
    unfold forEach
    by_cases ha : (body x tr).alive = true
    · simp only [ha, if_true]
      exact ih _ (hbody x tr h)
    · simp only [ha]
      exact hbody x tr h

theorem forEach_le (μ : List (Event Cmd) → Nat) (w : String → Nat)
    (body : String → List (Event Cmd) → Run)
    (hbody : ∀ ip tr, μ (body ip tr).trace ≤ μ tr + w ip) (L : List String) :
    ∀ tr, μ (forEach body L tr).trace ≤ μ tr + (L.map w).sum := by
  induction L with
  | nil => intro tr; simp [forEach]
  | cons x xs ih =>
    intro tr
    unfold forEach
    by_cases ha : (body x tr).alive = true
    · simp only [ha, if_true, List.map_cons, List.sum_cons]
      have h1 := ih (body x tr).trace
      have h2 := hbody x tr
      omega
    · simp only [ha, List.map_cons, List.sum_cons]
      have h2 := hbody x tr
      simp only [Bool.false_eq_true, if_false]
      omega

theorem forEach_eq (μ : List (Event Cmd) → Nat) (w : String → Nat)
    (body : String → List (Event Cmd) → Run) (L : List String)
    (hbody : ∀ ip ∈ L, ∀ tr, (body ip tr).alive = true ∧ μ (body ip tr).trace = μ tr + w ip) :
    ∀ tr, (forEach body L tr).alive = true ∧
      μ (forEach body L tr).trace = μ tr + (L.map w).sum := by
  induction L with
  | nil => intro tr; simp [forEach]
  | cons x xs ih =>
    intro tr
    unfold forEach
    have hx := hbody x (by simp) tr
    have h1 := ih (fun ip hip => hbody ip (by simp [hip])) (body x tr).trace
    simp only [hx.1, if_true, List.map_cons, List.sum_cons]
    refine ⟨h1.1, ?_⟩
    rw [h1.2, hx.2]
    omega

theorem sum_map_indicator (a : String) (k : Nat) (L : List String) :
    (L.map (fun x => if x = a then k else 0)).sum = L.count a * k := by
  induction L with
  | nil => simp
  | cons x xs ih =>
    by_cases h : x = a
    · subst h
      simp [ih, Nat.add_mul, Nat.add_comm]
    · have h' : ¬ (x == a) = true := by simpa using h
      simp [ih, h, List.count_cons, h']

theorem sum_map_const_on (w : String → Nat) (k : Nat) (L : List String)
    (h : ∀ x ∈ L, w x = k) : (L.map w).sum = L.length * k := by
  induction L with
  | nil => simp
  | cons x xs ih =>
    have := ih (fun y hy => h y (by simp [hy]))
    simp [this, h x (by simp), Nat.add_mul, Nat.add_comm]

theorem userAt_inj (u x y : String) : u ++ "@" ++ x = u ++ "@" ++ y ↔ x = y := by
  constructor
  · intro h
    have h1 := congrArg String.data h
    simp only [String.data_append, List.append_assoc, List.append_cancel_left_eq] at h1
    exact String.ext h1
  · intro h; rw [h]

theorem sum_map_ne_add_count (ip : String) (L : List String) :
    (L.map (fun sub => if ip ≠ sub then 1 else 0)).sum + L.count ip = L.length := by
  induction L with
  | nil => simp
  | cons x xs ih =>
    by_cases h : ip = x
    · subst h
      simp at ih ⊢
      omega
    · have h' : ¬ (x == ip) = true := by
        simp only [beq_iff_eq]
        exact fun hc => h hc.symm
      simp [h, List.count_cons, h'] at ih ⊢
      omega

theorem cmdsOf_append {κ : Type} (a b : List (Event κ)) :
    cmdsOf (a ++ b) = cmdsOf a ++ cmdsOf b := by
  simp [cmdsOf]

/-! ## One direct command per host, one inter-host command per ordered pair -/

theorem fanout_pair (d : String → Cmd) (i : String → String → Cmd) (a b ip : String)
    (inner : String → List String)
    (hinj : ∀ x y, i x y = i a b ↔ x = a ∧ y = b) (hd : ∀ x, d x ≠ i a b) :
    fanout d i (fun c => c == i a b) inner ip =
      if ip = a ∧ a ≠ b then (inner a).count b else 0 := by
  unfold fanout
  have h0 : (d ip == i a b) = false := by simpa using hd ip
  simp only [h0, Bool.false_eq_true, if_false, Nat.zero_add, beq_iff_eq, hinj]
  by_cases h : ip = a ∧ a ≠ b
  · obtain ⟨h1, h2⟩ := h
    subst h1
    have hf : (fun sub => if ip ≠ sub ∧ ip = ip ∧ sub = b then 1 else 0) =
        (fun sub => if sub = b then 1 else 0) := by
      funext sub
      by_cases hs : sub = b
      · subst hs; simp [h2]
      · simp [hs]
    rw [hf, sum_map_indicator]
    simp [h2]
  · rw [if_neg h]
    have hz := sum_map_const_on
      (fun sub => if ip ≠ sub ∧ ip = a ∧ sub = b then 1 else 0) 0 (inner ip)
      (by
        intro sub _
        by_cases h1 : ip = a
        · by_cases h2 : sub = b
          · subst h1 h2
            have : ip = sub := by
              by_contra hc
              exact h ⟨rfl, hc⟩
            simp [this]
          · simp [h2]
        · simp [h1])
    simpa using hz

theorem fanout_inter_class (d : String → Cmd) (i : String → String → Cmd) (q : Cmd → Bool)
    (hd : ∀ x, q (d x) = false) (hi : ∀ x y, q (i x y) = true)
    (inner : String → List String) (ip : String) :
    fanout d i q inner ip + (inner ip).count ip = (inner ip).length := by
  unfold fanout
  simp only [hd, Bool.false_eq_true, if_false, Nat.zero_add, hi, and_true]
  exact sum_map_ne_add_count ip (inner ip)

theorem fanout_single (d : String → Cmd) (i : String → String → Cmd) (a ip : String)
    (inner : String → List String)
    (hinj : ∀ x, d x = d a ↔ x = a) (hi : ∀ x y, i x y ≠ d a) :
    fanout d i (fun c => c == d a) inner ip = if ip = a then 1 else 0 := by
  unfold fanout
  have hz := sum_map_const_on
    (fun sub => if ip ≠ sub ∧ (i ip sub == d a) = true then 1 else 0) 0 (inner ip)
    (by
      intro sub _
      simp [hi ip sub])
  rw [hz]
  simp [hinj]

theorem fanout_direct_class (d : String → Cmd) (i : String → String → Cmd) (q : Cmd → Bool)
    (hd : ∀ x, q (d x) = true) (hi : ∀ x y, q (i x y) = false)
    (inner : String → List String) (ip : String) :
    fanout d i q inner ip = 1 := by
  unfold fanout
  simp [hd, hi]

theorem count_le_one_of_nodup (L : List String) (h : L.Nodup) (a : String) : L.count a ≤ 1 :=
  List.nodup_iff_count_le_one.1 h a

theorem sum_fanout_pair_le (d : String → Cmd) (i : String → String → Cmd) (a b : String)
    (outer : List String) (inner : String → List String)
    (hinj : ∀ x y, i x y = i a b ↔ x = a ∧ y = b) (hd : ∀ x, d x ≠ i a b)
    (houter : outer.Nodup) (hinner : (inner a).Nodup) :
    (outer.map (fanout d i (fun c => c == i a b) inner)).sum ≤ 1 := by
  have hw : fanout d i (fun c => c == i a b) inner =
      fun ip => if ip = a then (if a ≠ b then (inner a).count b else 0) else 0 := by
    funext ip
    rw [fanout_pair d i a b ip inner hinj hd]
    by_cases h1 : ip = a <;> by_cases h2 : a = b <;> simp [h1, h2]
  rw [hw, sum_map_indicator]
  have h1 := count_le_one_of_nodup outer houter a
  have h2 := count_le_one_of_nodup (inner a) hinner b
  have h3 : (if a ≠ b then (inner a).count b else 0) ≤ 1 := by
    split <;> omega
  calc outer.count a * (if a ≠ b then (inner a).count b else 0)
      ≤ 1 * 1 := Nat.mul_le_mul h1 h3
    _ = 1 := by simp

theorem sum_fanout_pair (d : String → Cmd) (i : String → String → Cmd) (a b : String)
    (outer : List String) (inner : String → List String)
    (hinj : ∀ x y, i x y = i a b ↔ x = a ∧ y = b) (hd : ∀ x, d x ≠ i a b)
    (hab : a ≠ b) (houter : outer.count a = 1) (hinner : (inner a).count b = 1) :
    (outer.map (fanout d i (fun c => c == i a b) inner)).sum = 1 := by
  have hw : fanout d i (fun c => c == i a b) inner =
      fun ip => if ip = a then (inner a).count b else 0 := by
    funext ip
    rw [fanout_pair d i a b ip inner hinj hd]
    simp [hab]
  rw [hw, sum_map_indicator, houter, hinner]

theorem sum_fanout_self (d : String → Cmd) (i : String → String → Cmd) (a : String)
    (outer : List String) (inner : String → List String)
    (hinj : ∀ x y, i x y = i a a ↔ x = a ∧ y = a) (hd : ∀ x, d x ≠ i a a) :
    (outer.map (fanout d i (fun c => c == i a a) inner)).sum = 0 := by
  have hw : fanout d i (fun c => c == i a a) inner = fun _ => 0 := by
    funext ip
    rw [fanout_pair d i a a ip inner hinj hd]
    simp
  rw [hw]
  simp

theorem sum_fanout_inter_class (d : String → Cmd) (i : String → String → Cmd)
    (q : Cmd → Bool) (hd : ∀ x, q (d x) = false) (hi : ∀ x y, q (i x y) = true)
    (keys outer : List String) (inner : String → List String)
    (hnd : keys.Nodup) (houter : outer.Perm keys)
    (hinner : ∀ ip ∈ keys, (inner ip).Perm keys) :
    (outer.map (fanout d i q inner)).sum = keys.length * (keys.length - 1) := by
  rw [sum_map_const_on _ (keys.length - 1) outer]
  · rw [houter.length_eq]
  · intro ip hip
    have hk : ip ∈ keys := houter.subset hip
    have h1 := fanout_inter_class d i q hd hi inner ip
    rw [(hinner ip hk).count_eq, List.count_eq_one_of_mem hnd hk,
      (hinner ip hk).length_eq] at h1
    omega

theorem sum_fanout_single (d : String → Cmd) (i : String → String → Cmd) (a : String)
    (outer : List String) (inner : String → List String)
    (hinj : ∀ x, d x = d a ↔ x = a) (hi : ∀ x y, i x y ≠ d a) :
    (outer.map (fanout d i (fun c => c == d a) inner)).sum = outer.count a := by
  have hw : fanout d i (fun c => c == d a) inner = fun ip => if ip = a then 1 else 0 := by
    funext ip
    rw [fanout_single d i a ip inner hinj hi]
  rw [hw, sum_map_indicator]
  simp

theorem sum_fanout_direct_class (d : String → Cmd) (i : String → String → Cmd)
    (q : Cmd → Bool) (hd : ∀ x, q (d x) = true) (hi : ∀ x y, q (i x y) = false)
    (outer : List String) (inner : String → List String) :
    (outer.map (fanout d i q inner)).sum = outer.length := by
  rw [sum_map_const_on _ 1 outer (fun ip _ => fanout_direct_class d i q hd hi inner ip)]
  simp

/-! ## First SSH variant: counting the key copies -/

namespace SshV1

theorem v1_runCommand_ok (env : Env Cmd) (hok : ∀ h c, (env h c).ok = true)
    (q : Cmd → Bool) (c : Cmd) (tr : List (Event Cmd)) :
    (runCommand env c tr).alive = true ∧
      countCmd q (runCommand env c tr).trace = countCmd q tr + (if q c then 1 else 0) := by
  simp [runCommand, hok, countCmd, List.countP_append, List.countP_cons]

theorem v1_setupSSH_countCmd (env : Env Cmd) (hok : ∀ h c, (env h c).ok = true)
    (q : Cmd → Bool) (outer : List String) (inner : String → List String)
    (tr : List (Event Cmd)) :
    (setupSSH env outer inner tr).alive = true ∧
      countCmd q (setupSSH env outer inner tr).trace =
        countCmd q tr + (outer.map (fanout copyKeyCmd interCopyKeyCmd q inner)).sum := by
  unfold setupSSH
  apply forEach_eq (countCmd q) (fanout copyKeyCmd interCopyKeyCmd q inner)
  intro ip _ tr
  have h1 := v1_runCommand_ok env hok q (copyKeyCmd ip) tr
  simp only [h1.1, if_true]
  have h2 := forEach_eq (countCmd q)
    (fun sub => if ip ≠ sub ∧ q (interCopyKeyCmd ip sub) = true then 1 else 0)
    (fun subIP tr =>
        if ip ≠ subIP then runCommand env (interCopyKeyCmd ip subIP) tr
        else ⟨tr, true⟩) (inner ip)
    (by
      intro sub _ t
      by_cases hne : ip = sub
      · simp [hne]
      · have := v1_runCommand_ok env hok q (interCopyKeyCmd ip sub) t
        simp only [ne_eq, hne, not_false_eq_true, if_true, true_and]
        exact this)
    (runCommand env (copyKeyCmd ip) tr).trace
  refine ⟨h2.1, ?_⟩
  rw [h2.2, h1.2]
  simp only [fanout]
  omega

theorem v1_copyKeyCmd_inj (a b : String) : copyKeyCmd a = copyKeyCmd b ↔ a = b := by
  simp [copyKeyCmd, userAt_inj]

theorem v1_interCopyKeyCmd_inj (a b c d : String) :
    interCopyKeyCmd a b = interCopyKeyCmd c d ↔ a = c ∧ b = d := by
  simp [interCopyKeyCmd, userAt_inj]

theorem v1_copyKeyCmd_ne_inter (a b c : String) : copyKeyCmd a ≠ interCopyKeyCmd b c := by
  simp [copyKeyCmd, interCopyKeyCmd]

theorem v1_isInterCopyKey_inter (a b : String) : isInterCopyKey (interCopyKeyCmd a b) = true := by
  simp [isInterCopyKey, interCopyKeyCmd]

theorem v1_isInterCopyKey_copy (a : String) : isInterCopyKey (copyKeyCmd a) = false := by
  simp [isInterCopyKey, copyKeyCmd]

theorem v1_isCopyKey_copy (a : String) : isCopyKey (copyKeyCmd a) = true := by
  simp [isCopyKey, copyKeyCmd]

theorem v1_isCopyKey_inter (a b : String) : isCopyKey (interCopyKeyCmd a b) = false := by
  simp [isCopyKey, interCopyKeyCmd]

end SshV1

theorem count_cmdsOf (c : Cmd) (tr : List (Event Cmd)) :
    (cmdsOf tr).count c = countCmd (fun x => x == c) tr := by
  simp [cmdsOf, countCmd, List.count_eq_countP, List.countP_map, Function.comp_def]

theorem countP_cmdsOf (q : Cmd → Bool) (tr : List (Event Cmd)) :
    (cmdsOf tr).countP q = countCmd q tr := by
  simp [cmdsOf, countCmd, List.countP_map, Function.comp_def]

/-! ## Gated steps -/

theorem gated_alive (env : Env Cmd) (check mutate : Cmd)
    (hok : ∀ h, (env h mutate).ok = true) (marker : String) (tr : List (Event Cmd)) :
    (gated env check mutate marker tr).alive = true := by
  unfold gated
  by_cases hm : GoStr.Contains (env tr check).output marker = true
  · simp [hm]
  · simp [hm, SshV2.runCommand, hok]

theorem gated_countCmd (env : Env Cmd) (check mutate : Cmd) (marker : String)
    (q : Cmd → Bool) (hq : q mutate = false) (tr : List (Event Cmd)) :
    countCmd q (gated env check mutate marker tr).trace =
      countCmd q tr + (if q check then 1 else 0) := by
  unfold gated
  by_cases hm : GoStr.Contains (env tr check).output marker = true
  · simp [hm, countCmd, List.countP_append, List.countP_cons]
  · simp [hm, SshV2.runCommand, countCmd, List.countP_append, List.countP_cons, hq]

/-- Every event of a gated step is accounted for: a mutating command is in the trace
for each probe without the marker, and only then. -/
theorem gated_balance (env : Env Cmd) (check mutate : Cmd) (marker : String)
    (pc pm : Cmd → Bool) (h1 : pm check = false) (h2 : pc mutate = false)
    (h3 : pm mutate = pc check) (tr : List (Event Cmd))
    (hI : countCmd pm tr + countMarked pc marker tr = countCmd pc tr) :
    countCmd pm (gated env check mutate marker tr).trace +
        countMarked pc marker (gated env check mutate marker tr).trace =
      countCmd pc (gated env check mutate marker tr).trace := by
  unfold gated
  by_cases hm : GoStr.Contains (env tr check).output marker = true
  · by_cases hc : pc check = true
    · simp [hm, countCmd, countMarked, List.countP_append, List.countP_cons, h1, hc] at hI ⊢
      omega
    · simp [hm, countCmd, countMarked, List.countP_append, List.countP_cons, h1, hc] at hI ⊢
      omega
  · by_cases hc : pc check = true
    · have h3' : pm mutate = true := by rw [h3, hc]
      simp [hm, SshV2.runCommand, countCmd, countMarked, List.countP_append,
        List.countP_cons, h1, h2, h3', hc] at hI ⊢
      omega
    · have h3' : pm mutate = false := by rw [h3]; simpa using hc
      simp [hm, SshV2.runCommand, countCmd, countMarked, List.countP_append,
        List.countP_cons, h1, h2, h3', hc] at hI ⊢
      omega

/-- A loop of gated steps, one per host. -/
theorem forEach_gated_balance (env : Env Cmd) (check mutate : String → Cmd) (marker : String)
    (pc pm : Cmd → Bool) (h1 : ∀ ip, pm (check ip) = false) (h2 : ∀ ip, pc (mutate ip) = false)
    (h3 : ∀ ip, pm (mutate ip) = pc (check ip)) (L : List String) (tr : List (Event Cmd))
    (hI : countCmd pm tr + countMarked pc marker tr = countCmd pc tr) :
    countCmd pm (forEach (fun ip t => gated env (check ip) (mutate ip) marker t) L tr).trace +
        countMarked pc marker
          (forEach (fun ip t => gated env (check ip) (mutate ip) marker t) L tr).trace =
      countCmd pc (forEach (fun ip t => gated env (check ip) (mutate ip) marker t) L tr).trace :=
  forEach_invariant
    (fun t => countCmd pm t + countMarked pc marker t = countCmd pc t) _
    (fun ip t ht => gated_balance env (check ip) (mutate ip) marker pc pm (h1 ip) (h2 ip)
      (h3 ip) t ht) L tr hI

theorem forEach_gated_count_le (env : Env Cmd) (check mutate : String → Cmd) (marker : String)
    (q : Cmd → Bool) (hq : ∀ ip, q (mutate ip) = false) (L : List String)
    (tr : List (Event Cmd)) :
    countCmd q (forEach (fun ip t => gated env (check ip) (mutate ip) marker t) L tr).trace ≤
      countCmd q tr + (L.map (fun ip => if q (check ip) then 1 else 0)).sum :=
  forEach_le (countCmd q) (fun ip => if q (check ip) then 1 else 0) _
    (fun ip t => by rw [gated_countCmd env (check ip) (mutate ip) marker q (hq ip) t]) L tr

theorem forEach_gated_count_eq (env : Env Cmd) (check mutate : String → Cmd)
    (hok : ∀ h ip, (env h (mutate ip)).ok = true) (marker : String)
    (q : Cmd → Bool) (hq : ∀ ip, q (mutate ip) = false) (L : List String)
    (tr : List (Event Cmd)) :
    (forEach (fun ip t => gated env (check ip) (mutate ip) marker t) L tr).alive = true ∧
    countCmd q (forEach (fun ip t => gated env (check ip) (mutate ip) marker t) L tr).trace =
      countCmd q tr + (L.map (fun ip => if q (check ip) then 1 else 0)).sum :=
  forEach_eq (countCmd q) (fun ip => if q (check ip) then 1 else 0) _ L
    (fun ip _ t => ⟨gated_alive env _ _ (fun h => hok h ip) _ t,
      gated_countCmd env (check ip) (mutate ip) marker q (hq ip) t⟩) tr

/-- If some probe event for the target shows the marker and the target was probed at
most once, the balance leaves no room for the mutating command. -/
theorem no_mutation_of_marked (pc pm : Cmd → Bool) (marker : String) (tr : List (Event Cmd))
    (hbal : countCmd pm tr + countMarked pc marker tr = countCmd pc tr)
    (hle : countCmd pc tr ≤ 1)
    (hev : ∃ e ∈ tr, pc e.cmd = true ∧ GoStr.Contains e.res.output marker = true) :
    countCmd pm tr = 0 := by
  have hpos : 0 < countMarked pc marker tr := by
    unfold countMarked
    rw [List.countP_pos_iff]
    obtain ⟨e, he, h1, h2⟩ := hev
    exact ⟨e, he, by simp [h1, h2]⟩
  omega

theorem not_mem_cmdsOf_of_count (c : Cmd) (tr : List (Event Cmd))
    (h : countCmd (fun x => x == c) tr = 0) : c ∉ cmdsOf tr := by
  rw [← count_cmdsOf] at h
  exact List.count_eq_zero.1 h

/-! ## Second SSH variant: the commands are pairwise distinct -/

namespace SshV2

theorem sudo_scripts_ne (u : String) :
    ("sudo -l | grep -q '(ALL) NOPASSWD: ALL' && echo 'passwordless'" ++
        "%!(EXTRA string=" ++ u ++ ")") ≠
      ("echo \"" ++ u ++ " ALL=(ALL) NOPASSWD: ALL\" | sudo -S tee /etc/sudoers.d/" ++
        u ++ " && sudo chmod 440 /etc/sudoers.d/" ++ u) := by
  intro h
  have h1 := congrArg String.data h
  simp at h1

theorem keyCheckCmd_inj (u p a b : String) : keyCheckCmd u p a = keyCheckCmd u p b ↔ a = b := by
  simp [keyCheckCmd, remoteCmd, userAt_inj]

theorem keyGenCmd_inj (u p a b : String) : keyGenCmd u p a = keyGenCmd u p b ↔ a = b := by
  simp [keyGenCmd, remoteCmd, userAt_inj]

theorem keyCheckCmd_ne_keyGenCmd (u p a b : String) : keyCheckCmd u p a ≠ keyGenCmd u p b := by
  simp [keyCheckCmd, keyGenCmd, remoteCmd]

theorem sudoCheckCmd_inj (u p a b : String) :
    sudoCheckCmd u p a = sudoCheckCmd u p b ↔ a = b := by
  simp [sudoCheckCmd, remoteCmd, userAt_inj]

theorem sudoCmd_inj (u p a b : String) : sudoCmd u p a = sudoCmd u p b ↔ a = b := by
  simp [sudoCmd, remoteCmd, userAt_inj]

theorem sudoCheckCmd_ne_sudoCmd (u p a b : String) : sudoCheckCmd u p a ≠ sudoCmd u p b := by
  intro h
  simp only [sudoCheckCmd, sudoCmd, remoteCmd, List.cons.injEq] at h
  exact sudo_scripts_ne u h.2.2.2.2.2.2.2.2.1

theorem checkSSHCmd_inj (u a b : String) : checkSSHCmd u a = checkSSHCmd u b ↔ a = b := by
  simp [checkSSHCmd, userAt_inj]

theorem copyKeyCmd_inj (u p a b : String) : copyKeyCmd u p a = copyKeyCmd u p b ↔ a = b := by
  simp [copyKeyCmd, userAt_inj]

theorem checkInterSSHCmd_inj (u a b c d : String) :
    checkInterSSHCmd u a b = checkInterSSHCmd u c d ↔ a = c ∧ b = d := by
  simp [checkInterSSHCmd, userAt_inj]

theorem interCopyKeyCmd_inj (u p a b c d : String) :
    interCopyKeyCmd u p a b = interCopyKeyCmd u p c d ↔ a = c ∧ b = d := by
  simp [interCopyKeyCmd, userAt_inj]

theorem checkSSHCmd_ne_copyKeyCmd (u p a b : String) : checkSSHCmd u a ≠ copyKeyCmd u p b := by
  simp [checkSSHCmd, copyKeyCmd]

theorem checkSSHCmd_ne_checkInter (u a b c : String) :
    checkSSHCmd u a ≠ checkInterSSHCmd u b c := by
  simp [checkSSHCmd, checkInterSSHCmd]

theorem checkSSHCmd_ne_interCopy (u p a b c : String) :
    checkSSHCmd u a ≠ interCopyKeyCmd u p b c := by
  simp [checkSSHCmd, interCopyKeyCmd]

theorem copyKeyCmd_ne_checkInter (u p a b c : String) :
    copyKeyCmd u p a ≠ checkInterSSHCmd u b c := by
  simp [copyKeyCmd, checkInterSSHCmd]

theorem copyKeyCmd_ne_interCopy (u p a b c : String) :
    copyKeyCmd u p a ≠ interCopyKeyCmd u p b c := by
  simp [copyKeyCmd, interCopyKeyCmd]

theorem checkInter_ne_interCopy (u p a b c d : String) :
    checkInterSSHCmd u a b ≠ interCopyKeyCmd u p c d := by
  simp [checkInterSSHCmd, interCopyKeyCmd]

theorem isCheckInterSSH_checkInter (u a b : String) :
    isCheckInterSSH (checkInterSSHCmd u a b) = true := by
  simp [isCheckInterSSH, checkInterSSHCmd]

theorem isCheckInterSSH_interCopy (u p a b : String) :
    isCheckInterSSH (interCopyKeyCmd u p a b) = false := by
  simp [isCheckInterSSH, interCopyKeyCmd]

theorem isCheckInterSSH_checkSSH (u a : String) :
    isCheckInterSSH (checkSSHCmd u a) = false := by
  simp [isCheckInterSSH, checkSSHCmd]

theorem isCheckInterSSH_copyKey (u p a : String) :
    isCheckInterSSH (copyKeyCmd u p a) = false := by
  simp [isCheckInterSSH, copyKeyCmd]

theorem isInterCopyKey_interCopy (u p a b : String) :
    isInterCopyKey (interCopyKeyCmd u p a b) = true := by
  simp [isInterCopyKey, interCopyKeyCmd]

theorem isInterCopyKey_checkInter (u a b : String) :
    isInterCopyKey (checkInterSSHCmd u a b) = false := by
  simp [isInterCopyKey, checkInterSSHCmd]

theorem isInterCopyKey_checkSSH (u a : String) :
    isInterCopyKey (checkSSHCmd u a) = false := by
  simp [isInterCopyKey, checkSSHCmd]

theorem isInterCopyKey_copyKey (u p a : String) :
    isInterCopyKey (copyKeyCmd u p a) = false := by
  simp [isInterCopyKey, copyKeyCmd]

/-! ## Second SSH variant: the steps as loops of gated steps -/

theorem generateSSHKey_eq (env : Env Cmd) (u p : String) (order : List String)
    (tr : List (Event Cmd)) :
    generateSSHKey env u p order tr =
      forEach (fun ip t => gated env (keyCheckCmd u p ip) (keyGenCmd u p ip) "exists" t)
        order tr := rfl

theorem configurePasswordlessSudo_eq (env : Env Cmd) (u p : String) (order : List String)
    (tr : List (Event Cmd)) :
    configurePasswordlessSudo env u p order tr =
      forEach (fun ip t => gated env (sudoCheckCmd u p ip) (sudoCmd u p ip) "passwordless" t)
        order tr := rfl

/-- The body of the outer loop of `setupSSH`. -/
theorem setupSSH_eq (env : Env Cmd) (u p : String) (outer : List String)
    (inner : String → List String) (tr : List (Event Cmd)) :
    setupSSH env u p outer inner tr =
      forEach (fun ip t =>
        if (gated env (checkSSHCmd u ip) (copyKeyCmd u p ip) "success" t).alive then
          forEach (fun subIP t =>
            if ip ≠ subIP then
              gated env (checkInterSSHCmd u ip subIP) (interCopyKeyCmd u p ip subIP) "success" t
            else ⟨t, true⟩) (inner ip)
            (gated env (checkSSHCmd u ip) (copyKeyCmd u p ip) "success" t).trace
        else gated env (checkSSHCmd u ip) (copyKeyCmd u p ip) "success" t) outer tr := rfl

theorem setupSSH_balance (env : Env Cmd) (u p : String) (pc pm : Cmd → Bool)
    (hd1 : ∀ ip, pm (checkSSHCmd u ip) = false) (hd2 : ∀ ip, pc (copyKeyCmd u p ip) = false)
    (hd3 : ∀ ip, pm (copyKeyCmd u p ip) = pc (checkSSHCmd u ip))
    (hi1 : ∀ ip sub, pm (checkInterSSHCmd u ip sub) = false)
    (hi2 : ∀ ip sub, pc (interCopyKeyCmd u p ip sub) = false)
    (hi3 : ∀ ip sub, pm (interCopyKeyCmd u p ip sub) = pc (checkInterSSHCmd u ip sub))
    (outer : List String) (inner : String → List String) (tr : List (Event Cmd))
    (hI : countCmd pm tr + countMarked pc "success" tr = countCmd pc tr) :
    countCmd pm (setupSSH env u p outer inner tr).trace +
        countMarked pc "success" (setupSSH env u p outer inner tr).trace =
      countCmd pc (setupSSH env u p outer inner tr).trace := by
  rw [setupSSH_eq]
  refine forEach_invariant
    (fun t => countCmd pm t + countMarked pc "success" t = countCmd pc t) _ ?_ outer tr hI
  intro ip t ht
  have hg := gated_balance env (checkSSHCmd u ip) (copyKeyCmd u p ip) "success" pc pm
    (hd1 ip) (hd2 ip) (hd3 ip) t ht
  by_cases ha : (gated env (checkSSHCmd u ip) (copyKeyCmd u p ip) "success" t).alive = true
  · simp only [ha, if_true]
    refine forEach_invariant
      (fun t => countCmd pm t + countMarked pc "success" t = countCmd pc t) _ ?_ (inner ip) _ hg
    intro sub t' ht'
    by_cases hs : ip = sub
    · simpa [hs] using ht'
    · simp only [ne_eq, hs, not_false_eq_true, if_true]
      exact gated_balance env _ _ "success" pc pm (hi1 ip sub) (hi2 ip sub) (hi3 ip sub) t' ht'
  · simp only [ha]
    exact hg

theorem setupSSH_count_le (env : Env Cmd) (u p : String) (q : Cmd → Bool)
    (hq1 : ∀ ip, q (copyKeyCmd u p ip) = false)
    (hq2 : ∀ ip sub, q (interCopyKeyCmd u p ip sub) = false)
    (outer : List String) (inner : String → List String) (tr : List (Event Cmd)) :
    countCmd q (setupSSH env u p outer inner tr).trace ≤
      countCmd q tr + (outer.map (fanout (checkSSHCmd u) (checkInterSSHCmd u) q inner)).sum := by
  rw [setupSSH_eq]
  refine forEach_le (countCmd q) (fanout (checkSSHCmd u) (checkInterSSHCmd u) q inner) _ ?_
    outer tr
  intro ip t
  have hg := gated_countCmd env (checkSSHCmd u ip) (copyKeyCmd u p ip) "success" q (hq1 ip) t
  by_cases ha : (gated env (checkSSHCmd u ip) (copyKeyCmd u p ip) "success" t).alive = true
  · simp only [ha, if_true]
    have hin := forEach_le (countCmd q)
      (fun sub => if ip ≠ sub ∧ q (checkInterSSHCmd u ip sub) = true then 1 else 0)
      (fun subIP t =>
        if ip ≠ subIP then
          gated env (checkInterSSHCmd u ip subIP) (interCopyKeyCmd u p ip subIP) "success" t
        else ⟨t, true⟩)
      (by
        intro sub t'
        by_cases hs : ip = sub
        · simp [hs]
        · simp only [ne_eq, hs, not_false_eq_true, if_true, true_and]
          rw [gated_countCmd env _ _ "success" q (hq2 ip sub) t'])
      (inner ip) (gated env (checkSSHCmd u ip) (copyKeyCmd u p ip) "success" t).trace
    simp only [fanout]
    omega
  · simp only [ha, fanout]
    simp only [Bool.false_eq_true, if_false]
    omega

theorem setupSSH_count_eq (env : Env Cmd) (u p : String)
    (hok1 : ∀ h ip, (env h (copyKeyCmd u p ip)).ok = true)
    (hok2 : ∀ h ip sub, (env h (interCopyKeyCmd u p ip sub)).ok = true)
    (q : Cmd → Bool)
    (hq1 : ∀ ip, q (copyKeyCmd u p ip) = false)
    (hq2 : ∀ ip sub, q (interCopyKeyCmd u p ip sub) = false)
    (outer : List String) (inner : String → List String) (tr : List (Event Cmd)) :
    (setupSSH env u p outer inner tr).alive = true ∧
    countCmd q (setupSSH env u p outer inner tr).trace =
      countCmd q tr + (outer.map (fanout (checkSSHCmd u) (checkInterSSHCmd u) q inner)).sum := by
  rw [setupSSH_eq]
  refine forEach_eq (countCmd q) (fanout (checkSSHCmd u) (checkInterSSHCmd u) q inner) _ outer
    ?_ tr
  intro ip _ t
  have hg := gated_countCmd env (checkSSHCmd u ip) (copyKeyCmd u p ip) "success" q (hq1 ip) t
  have ha := gated_alive env (checkSSHCmd u ip) (copyKeyCmd u p ip) (fun h => hok1 h ip)
    "success" t
  simp only [ha, if_true]
  have hin := forEach_eq (countCmd q)
    (fun sub => if ip ≠ sub ∧ q (checkInterSSHCmd u ip sub) = true then 1 else 0)
    (fun subIP t =>
      if ip ≠ subIP then
        gated env (checkInterSSHCmd u ip subIP) (interCopyKeyCmd u p ip subIP) "success" t
      else ⟨t, true⟩) (inner ip)
    (by
      intro sub _ t'
      by_cases hs : ip = sub
      · simp [hs]
      · simp only [ne_eq, hs, not_false_eq_true, if_true, true_and]
        exact ⟨gated_alive env _ _ (fun h => hok2 h ip sub) _ t',
          gated_countCmd env _ _ "success" q (hq2 ip sub) t'⟩)
    (gated env (checkSSHCmd u ip) (copyKeyCmd u p ip) "success" t).trace
  refine ⟨hin.1, ?_⟩
  rw [hin.2, hg]
  simp only [fanout]
  omega

end SshV2

theorem countCmd_split (q : Cmd → Bool) (marker : String) (tr : List (Event Cmd)) :
    countCmd q tr = countMarked q marker tr +
      tr.countP (fun e => q e.cmd && !GoStr.Contains e.res.output marker) := by
  induction tr with
  | nil => simp [countCmd, countMarked]
  | cons e es ih =>
    unfold countCmd countMarked at ih ⊢
    by_cases h1 : q e.cmd = true <;>
      by_cases h2 : GoStr.Contains e.res.output marker = true <;>
      simp [List.countP_cons, h1, h2] <;> omega

theorem sum_map_check_indicator (check : String → Cmd)
    (hinj : ∀ a b, check a = check b ↔ a = b) (h : String) (L : List String) :
    (L.map (fun ip => if (check ip == check h) = true then 1 else 0)).sum = L.count h := by
  have hf : (fun ip => if (check ip == check h) = true then 1 else 0) =
      (fun ip => if ip = h then 1 else 0) := by
    funext ip
    simp [hinj]
  rw [hf, sum_map_indicator]
  simp

/-- A loop of gated steps over distinct hosts: a marked probe excludes the mutating
command for that host, and when all commands succeed every host is probed. -/
theorem gated_loop_facts (env : Env Cmd) (check mutate : String → Cmd) (marker : String)
    (hinj : ∀ a b, check a = check b ↔ a = b) (hminj : ∀ a b, mutate a = mutate b ↔ a = b)
    (hne : ∀ a b, check a ≠ mutate b) (order : List String) (hnd : order.Nodup) :
    (∀ h, (∃ e ∈ (forEach (fun ip t => gated env (check ip) (mutate ip) marker t)
              order []).trace,
            e.cmd = check h ∧ GoStr.Contains e.res.output marker = true) →
        mutate h ∉
          cmdsOf (forEach (fun ip t => gated env (check ip) (mutate ip) marker t)
            order []).trace) ∧
    ((∀ h ip, (env h (mutate ip)).ok = true) →
      (forEach (fun ip t => gated env (check ip) (mutate ip) marker t) order []).alive = true ∧
      ∀ h ∈ order, check h ∈
        cmdsOf (forEach (fun ip t => gated env (check ip) (mutate ip) marker t)
          order []).trace) := by
  constructor
  · intro h hev
    apply not_mem_cmdsOf_of_count
    have hbal := forEach_gated_balance env check mutate marker
      (fun c => c == check h) (fun c => c == mutate h)
      (fun ip => by simpa using hne ip h)
      (fun ip => by simpa using fun hc => hne h ip hc.symm)
      (fun ip => by
        by_cases hh : ip = h
        · simp [hh]
        · simp [hinj, hminj, hh])
      order [] (by simp [countCmd, countMarked])
    have hle := forEach_gated_count_le env check mutate marker (fun c => c == check h)
      (fun ip => by simpa using fun hc => hne h ip hc.symm) order []
    rw [sum_map_check_indicator check hinj] at hle
    have h1 := count_le_one_of_nodup order hnd h
    refine no_mutation_of_marked (fun c => c == check h) (fun c => c == mutate h) marker _
      hbal ?_ ?_
    · simp only [countCmd, List.countP_nil] at hle ⊢
      omega
    · obtain ⟨e, he, hc, hm⟩ := hev
      exact ⟨e, he, by simp [hc], hm⟩
  · intro hok
    refine ⟨(forEach_gated_count_eq env check mutate hok marker (fun _ => false)
      (fun _ => rfl) order []).1, ?_⟩
    intro h hmem
    have heq := (forEach_gated_count_eq env check mutate hok marker (fun c => c == check h)
      (fun ip => by simpa using fun hc => hne h ip hc.symm) order []).2
    rw [sum_map_check_indicator check hinj] at heq
    have hpos : 0 < order.count h := List.count_pos_iff.2 hmem
    rw [← List.count_pos_iff, count_cmdsOf]
    simp only [countCmd, List.countP_nil] at heq ⊢
    omega

namespace SshV2

/-- Balance of `setupSSH` for one ordered pair: inter-host copies plus marked inter-host
probes equal the inter-host probes. -/
theorem setupSSH_pair_balance (env : Env Cmd) (u p a b : String) (outer : List String)
    (inner : String → List String) :
    countCmd (fun c => c == interCopyKeyCmd u p a b) (setupSSH env u p outer inner []).trace +
        countMarked (fun c => c == checkInterSSHCmd u a b) "success"
          (setupSSH env u p outer inner []).trace =
      countCmd (fun c => c == checkInterSSHCmd u a b)
        (setupSSH env u p outer inner []).trace :=
  setupSSH_balance env u p
    (fun c => c == checkInterSSHCmd u a b) (fun c => c == interCopyKeyCmd u p a b)
    (fun ip => by simpa using checkSSHCmd_ne_interCopy u p ip a b)
    (fun ip => by simpa using copyKeyCmd_ne_checkInter u p ip a b)
    (fun ip => by
      have h1 := copyKeyCmd_ne_interCopy u p ip a b
      have h2 := checkSSHCmd_ne_checkInter u ip a b
      simp [h1, h2])
    (fun ip sub => by simpa using checkInter_ne_interCopy u p ip sub a b)
    (fun ip sub => by
      simpa using fun hc => checkInter_ne_interCopy u p a b ip sub hc.symm)
    (fun ip sub => by simp [interCopyKeyCmd_inj, checkInterSSHCmd_inj])
    outer inner [] (by simp [countCmd, countMarked])

/-- Balance of `setupSSH` for one host: direct copies plus marked direct probes equal the
direct probes. -/
theorem setupSSH_direct_balance (env : Env Cmd) (u p h : String) (outer : List String)
    (inner : String → List String) :
    countCmd (fun c => c == copyKeyCmd u p h) (setupSSH env u p outer inner []).trace +
        countMarked (fun c => c == checkSSHCmd u h) "success"
          (setupSSH env u p outer inner []).trace =
      countCmd (fun c => c == checkSSHCmd u h) (setupSSH env u p outer inner []).trace :=
  setupSSH_balance env u p
    (fun c => c == checkSSHCmd u h) (fun c => c == copyKeyCmd u p h)
    (fun ip => by simpa using checkSSHCmd_ne_copyKeyCmd u p ip h)
    (fun ip => by simpa using fun hc => checkSSHCmd_ne_copyKeyCmd u p h ip hc.symm)
    (fun ip => by simp [copyKeyCmd_inj, checkSSHCmd_inj])
    (fun ip sub => by
      simpa using fun hc => copyKeyCmd_ne_checkInter u p h ip sub hc.symm)
    (fun ip sub => by
      simpa using fun hc => checkSSHCmd_ne_interCopy u p h ip sub hc.symm)
    (fun ip sub => by
      have h1 : ¬ interCopyKeyCmd u p ip sub = copyKeyCmd u p h := fun hc =>
        copyKeyCmd_ne_interCopy u p h ip sub hc.symm
      have h2 : ¬ checkInterSSHCmd u ip sub = checkSSHCmd u h := fun hc =>
        checkSSHCmd_ne_checkInter u h ip sub hc.symm
      simp [h1, h2])
    outer inner [] (by simp [countCmd, countMarked])

theorem setupSSH_pair_probes_le (env : Env Cmd) (u p a b : String) (outer : List String)
    (inner : String → List String) (houter : outer.Nodup) (hinner : (inner a).Nodup) :
    countCmd (fun c => c == checkInterSSHCmd u a b) (setupSSH env u p outer inner []).trace
      ≤ 1 := by
  have h := setupSSH_count_le env u p (fun c => c == checkInterSSHCmd u a b)
    (fun ip => by simpa using copyKeyCmd_ne_checkInter u p ip a b)
    (fun ip sub => by
      simpa using fun hc => checkInter_ne_interCopy u p a b ip sub hc.symm)
    outer inner []
  have h2 := sum_fanout_pair_le (checkSSHCmd u) (checkInterSSHCmd u) a b outer inner
    (fun x y => checkInterSSHCmd_inj u x y a b)
    (fun x => checkSSHCmd_ne_checkInter u x a b) houter hinner
  simp only [countCmd, List.countP_nil] at h ⊢
  omega

theorem setupSSH_direct_probes_le (env : Env Cmd) (u p h : String) (outer : List String)
    (inner : String → List String) (houter : outer.Nodup) :
    countCmd (fun c => c == checkSSHCmd u h) (setupSSH env u p outer inner []).trace ≤ 1 := by
  have hle := setupSSH_count_le env u p (fun c => c == checkSSHCmd u h)
    (fun ip => by simpa using fun hc => checkSSHCmd_ne_copyKeyCmd u p h ip hc.symm)
    (fun ip sub => by
      simpa using fun hc => checkSSHCmd_ne_interCopy u p h ip sub hc.symm)
    outer inner []
  rw [sum_fanout_single (checkSSHCmd u) (checkInterSSHCmd u) h outer inner
    (fun x => checkSSHCmd_inj u x h)
    (fun x y hc => checkSSHCmd_ne_checkInter u h x y hc.symm)] at hle
  have h1 := count_le_one_of_nodup outer houter h
  simp only [countCmd, List.countP_nil] at hle ⊢
  omega

theorem setupSSH_probes_all (env : Env Cmd) (u p : String)
    (hok1 : ∀ h ip, (env h (copyKeyCmd u p ip)).ok = true)
    (hok2 : ∀ h ip sub, (env h (interCopyKeyCmd u p ip sub)).ok = true)
    (outer : List String) (inner : String → List String) :
    (∀ h ∈ outer, checkSSHCmd u h ∈ cmdsOf (setupSSH env u p outer inner []).trace) ∧
    (∀ a ∈ outer, ∀ b ∈ inner a, a ≠ b →
      checkInterSSHCmd u a b ∈ cmdsOf (setupSSH env u p outer inner []).trace) := by
  constructor
  · intro h hmem
    have heq := (setupSSH_count_eq env u p hok1 hok2 (fun c => c == checkSSHCmd u h)
      (fun ip => by simpa using fun hc => checkSSHCmd_ne_copyKeyCmd u p h ip hc.symm)
      (fun ip sub => by
        simpa using fun hc => checkSSHCmd_ne_interCopy u p h ip sub hc.symm)
      outer inner []).2
    rw [sum_fanout_single (checkSSHCmd u) (checkInterSSHCmd u) h outer inner
      (fun x => checkSSHCmd_inj u x h)
      (fun x y hc => checkSSHCmd_ne_checkInter u h x y hc.symm)] at heq
    have hpos : 0 < outer.count h := List.count_pos_iff.2 hmem
    rw [← List.count_pos_iff, count_cmdsOf]
    simp only [countCmd, List.countP_nil] at heq ⊢
    omega
  · intro a ha b hb hab
    have heq := (setupSSH_count_eq env u p hok1 hok2 (fun c => c == checkInterSSHCmd u a b)
      (fun ip => by simpa using copyKeyCmd_ne_checkInter u p ip a b)
      (fun ip sub => by
        simpa using fun hc => checkInter_ne_interCopy u p a b ip sub hc.symm)
      outer inner []).2
    have hw : fanout (checkSSHCmd u) (checkInterSSHCmd u)
        (fun c => c == checkInterSSHCmd u a b) inner =
        fun ip => if ip = a then (inner a).count b else 0 := by
      funext ip
      rw [fanout_pair _ _ a b ip inner (fun x y => checkInterSSHCmd_inj u x y a b)
        (fun x => checkSSHCmd_ne_checkInter u x a b)]
      simp [hab]
    rw [hw, sum_map_indicator] at heq
    have h1 : 0 < outer.count a := List.count_pos_iff.2 ha
    have h2 : 0 < (inner a).count b := List.count_pos_iff.2 hb
    have h3 : 0 < outer.count a * (inner a).count b := Nat.mul_pos h1 h2
    rw [← List.count_pos_iff, count_cmdsOf]
    simp only [countCmd, List.countP_nil] at heq ⊢
    omega

end SshV2

/-! ## The Kubernetes provisioning program: a failed command is the last event -/

namespace K8s

theorem probeScripts_eq : probeScripts =
    ["[ -f /usr/local/share/ca-certificates/KAINOS-INSPECTION_G2.crt ] && echo 'exists'",
     "[ -f /usr/local/share/ca-certificates/KAINOS-ROOT-CA_G2.crt ] && echo 'exists'",
     "[ -f /usr/local/share/ca-certificates/KAINOS-ZSCALER_G2.crt ] && echo 'exists'",
     "sysctl net.ipv4.ip_forward",
     "test -f /etc/kubernetes/manifests/kube-apiserver.yaml && echo 'exists'"] := by
  decide

theorem Extends.refl (tr : Trace) : Extends tr (tr, true) :=
  ⟨[], by simp, by simp [Orderly]⟩

theorem Extends.trans {tr t1 : Trace} {r : Trace × Bool}
    (h1 : Extends tr (t1, true)) (h2 : Extends t1 r) : Extends tr r := by
  obtain ⟨n1, e1, o1⟩ := h1
  obtain ⟨n2, e2, o2⟩ := h2
  simp only at e1
  refine ⟨n1 ++ n2, by rw [e2, e1, List.append_assoc], ?_, ?_⟩
  · intro hok e he
    rcases List.mem_append.1 he with h | h
    · exact o1.1 rfl e h
    · exact o2.1 hok e h
  · intro hok
    obtain ⟨pre, e, hn, hpre⟩ := o2.2 hok
    refine ⟨n1 ++ pre, e, by rw [hn, List.append_assoc], ?_⟩
    intro x hx
    rcases List.mem_append.1 hx with h | h
    · exact o1.1 rfl x h
    · exact hpre x h

theorem Extends.andThen {tr : Trace} {r : Trace × Bool} {next : Trace → Trace × Bool}
    (h1 : Extends tr r) (h2 : ∀ t, Extends t (next t)) : Extends tr (andThen r next) := by
  unfold K8s.andThen
  obtain ⟨t1, ok⟩ := r
  cases ok with
  | true => simpa using Extends.trans h1 (h2 t1)
  | false => simpa using h1

end K8s

namespace GoStr

theorem dropWhile_spaces_append (l rest : List Char) (x : Char)
    (hl : ∀ c ∈ l, isSpace c = true) (hx : isSpace x = false) :
    (l ++ x :: rest).dropWhile isSpace = x :: rest := by
  induction l with
  | nil => simp [List.dropWhile_cons, hx]
  | cons a as ih =>
    have ha : isSpace a = true := hl a (by simp)
    simp [List.dropWhile_cons, ha, ih (fun c hc => hl c (by simp [hc]))]

theorem split_trailing (p : Char → Bool) (d : List Char) :
    d = (d.reverse.dropWhile p).reverse ++ (d.reverse.takeWhile p).reverse := by
  have h := List.takeWhile_append_dropWhile p d.reverse
  have h2 := congrArg List.reverse h
  rw [List.reverse_append, List.reverse_reverse] at h2
  exact h2.symm

/-- What `TrimSpace` returns is the word `w` exactly when the text is `w` surrounded by
white space only, for a non-empty word `w` that neither starts nor ends with
white space. -/
theorem TrimSpace_eq_iff (s : String) (w mid m : List Char) (first last : Char)
    (hw : w = first :: mid) (hm : w.reverse = last :: m)
    (hfirst : isSpace first = false) (hlast : isSpace last = false) :
    TrimSpace s = String.mk w ↔
      ∃ l r : List Char, (∀ c ∈ l, isSpace c = true) ∧ (∀ c ∈ r, isSpace c = true) ∧
        s.data = l ++ w ++ r := by
  constructor
  · intro h
    have h1 : ((s.data.dropWhile isSpace).reverse.dropWhile isSpace).reverse = w := by
      have := congrArg String.data h
      simpa [TrimSpace] using this
    refine ⟨s.data.takeWhile isSpace,
      ((s.data.dropWhile isSpace).reverse.takeWhile isSpace).reverse, ?_, ?_, ?_⟩
    · intro c hc
      exact List.mem_takeWhile_imp hc
    · intro c hc
      rw [List.mem_reverse] at hc
      exact List.mem_takeWhile_imp hc
    · have h3 := split_trailing isSpace (s.data.dropWhile isSpace)
      rw [h1] at h3
      have h4 : s.data = s.data.takeWhile isSpace ++ s.data.dropWhile isSpace :=
        (List.takeWhile_append_dropWhile _ _).symm
      rw [h3] at h4
      rw [List.append_assoc]
      exact h4
  · rintro ⟨l, r, hl, hr, hs⟩
    have h1 : s.data.dropWhile isSpace = w ++ r := by
      rw [hs, hw, List.append_assoc, List.cons_append]
      exact dropWhile_spaces_append l (mid ++ r) first hl hfirst
    have h2 : (w ++ r).reverse.dropWhile isSpace = w.reverse := by
      rw [List.reverse_append, hm]
      exact dropWhile_spaces_append r.reverse m last
        (fun c hc => hr c (List.mem_reverse.1 hc)) hlast
    unfold TrimSpace
    rw [h1, h2, List.reverse_reverse]

theorem hasInfix_append (sub l r : List Char) : hasInfix sub (l ++ sub ++ r) = true := by
  induction l with
  | nil =>
    cases sub with
    | nil =>
      cases r with
      | nil => simp [hasInfix]
      | cons x xs => simp [hasInfix, List.isPrefixOf]
    | cons y ys =>
      have hp : (y :: ys).isPrefixOf ((y :: ys) ++ r) = true := by
        rw [List.isPrefixOf_iff_prefix]
        exact List.prefix_append _ _
      simp only [List.nil_append, List.cons_append, hasInfix, Bool.or_eq_true]
      left
      exact hp
  | cons a as ih =>
    simp only [List.cons_append, hasInfix, Bool.or_eq_true]
    right
    exact ih

/-- The exact-match test of the Kubernetes program is stronger than containment. -/
theorem Contains_of_TrimSpace_eq (s marker : String) (h : TrimSpace s = marker) :
    Contains s marker = true := by
  unfold Contains
  have h1 : ((s.data.dropWhile isSpace).reverse.dropWhile isSpace).reverse = marker.data := by
    have := congrArg String.data h
    simpa [TrimSpace] using this
  have h3 := split_trailing isSpace (s.data.dropWhile isSpace)
  rw [h1] at h3
  have h4 : s.data = s.data.takeWhile isSpace ++ s.data.dropWhile isSpace :=
    (List.takeWhile_append_dropWhile _ _).symm
  rw [h3, ← List.append_assoc] at h4
  rw [h4]
  exact hasInfix_append _ _ _

end GoStr

namespace K8s

theorem initControlPlane_match (env : Env Cmd) (tr : Trace)
    (h : GoStr.TrimSpace (env tr (.ssh "control-plane" manifestCheckScript)).output = "exists") :
    initControlPlane env tr =
      (tr ++ [⟨.ssh "control-plane" manifestCheckScript,
        env tr (.ssh "control-plane" manifestCheckScript)⟩], "", true) := by
  unfold initControlPlane
  simp only [h, if_true]

theorem initControlPlane_no_match (env : Env Cmd) (tr : Trace)
    (h : GoStr.TrimSpace (env tr (.ssh "control-plane" manifestCheckScript)).output ≠ "exists") :
    ∃ rest, (initControlPlane env tr).1 =
      tr ++ ⟨.ssh "control-plane" manifestCheckScript,
          env tr (.ssh "control-plane" manifestCheckScript)⟩ ::
        ⟨.ssh "control-plane" kubeadmInitCmd,
          env (tr ++ [⟨.ssh "control-plane" manifestCheckScript,
            env tr (.ssh "control-plane" manifestCheckScript)⟩])
            (.ssh "control-plane" kubeadmInitCmd)⟩ :: rest := by
  unfold initControlPlane
  simp only [h, if_false]
  rcases hr2 : runCommand env "control-plane" kubeadmInitCmd
    (tr ++ [⟨.ssh "control-plane" manifestCheckScript,
      env tr (.ssh "control-plane" manifestCheckScript)⟩]) with ⟨t2, ok2⟩
  have ht2 : t2 = tr ++ [⟨.ssh "control-plane" manifestCheckScript,
      env tr (.ssh "control-plane" manifestCheckScript)⟩] ++
      [⟨.ssh "control-plane" kubeadmInitCmd,
        env (tr ++ [⟨.ssh "control-plane" manifestCheckScript,
          env tr (.ssh "control-plane" manifestCheckScript)⟩])
          (.ssh "control-plane" kubeadmInitCmd)⟩] := by
    have := congrArg Prod.fst hr2
    simpa [runCommand] using this.symm
  cases ok2 with
  | false =>
    refine ⟨[], ?_⟩
    simp only [hr2, ht2]
    simp
  | true =>
    rcases hr3 : runCommand env "control-plane" copyAdminConfCmd t2 with ⟨t3, ok3⟩
    have ht3 : t3 = t2 ++ [⟨.ssh "control-plane" copyAdminConfCmd,
        env t2 (.ssh "control-plane" copyAdminConfCmd)⟩] := by
      have := congrArg Prod.fst hr3
      simpa [runCommand] using this.symm
    simp only [hr2, hr3]
    cases ok3 with
    | false =>
      refine ⟨[⟨.ssh "control-plane" copyAdminConfCmd,
        env t2 (.ssh "control-plane" copyAdminConfCmd)⟩], ?_⟩
      simp only [ht3, ht2]
      simp
    | true =>
      refine ⟨[⟨.ssh "control-plane" copyAdminConfCmd,
        env t2 (.ssh "control-plane" copyAdminConfCmd)⟩,
        ⟨.ssh "control-plane" tokenCreateCmd, env t3 (.ssh "control-plane" tokenCreateCmd)⟩], ?_⟩
      have hfst : (if (env t3 (.ssh "control-plane" tokenCreateCmd)).ok = true then
          (t3 ++ [⟨.ssh "control-plane" tokenCreateCmd,
              env t3 (.ssh "control-plane" tokenCreateCmd)⟩],
            GoStr.TrimSpace (env t3 (.ssh "control-plane" tokenCreateCmd)).output, true)
          else (t3 ++ [⟨.ssh "control-plane" tokenCreateCmd,
              env t3 (.ssh "control-plane" tokenCreateCmd)⟩], "", false)).1 =
          t3 ++ [⟨.ssh "control-plane" tokenCreateCmd,
            env t3 (.ssh "control-plane" tokenCreateCmd)⟩] := by
        split <;> rfl
      rw [hfst, ht3, ht2]
      simp

theorem copyCertificate_match (env : Env Cmd) (node certPath : String) (tr : Trace)
    (h : GoStr.TrimSpace (env tr (.ssh node (certCheckScript certPath))).output = "exists") :
    copyCertificate env node certPath tr =
      (tr ++ [⟨.ssh node (certCheckScript certPath),
        env tr (.ssh node (certCheckScript certPath))⟩], true) := by
  unfold copyCertificate
  simp only [h, if_true]

theorem copyCertificate_no_match (env : Env Cmd) (node certPath : String) (tr : Trace)
    (h : GoStr.TrimSpace (env tr (.ssh node (certCheckScript certPath))).output ≠ "exists") :
    ∃ rest, (copyCertificate env node certPath tr).1 =
      tr ++ ⟨.ssh node (certCheckScript certPath),
          env tr (.ssh node (certCheckScript certPath))⟩ ::
        ⟨.sh (certScpScript node certPath),
          env (tr ++ [⟨.ssh node (certCheckScript certPath),
            env tr (.ssh node (certCheckScript certPath))⟩])
            (.sh (certScpScript node certPath))⟩ :: rest := by
  unfold copyCertificate
  simp only [h, if_false]
  split
  · refine ⟨[⟨.ssh node (certInstallScript certPath),
      env (tr ++ [⟨.ssh node (certCheckScript certPath),
          env tr (.ssh node (certCheckScript certPath))⟩] ++
        [⟨.sh (certScpScript node certPath),
          env (tr ++ [⟨.ssh node (certCheckScript certPath),
            env tr (.ssh node (certCheckScript certPath))⟩])
            (.sh (certScpScript node certPath))⟩])
        (.ssh node (certInstallScript certPath))⟩], ?_⟩
    simp [runCommand]
  · exact ⟨[], by simp⟩

end K8s

namespace K8s

/-- The join commands in the order of the given nodes. -/
theorem joinFrom_spec (env : Env Cmd) (j : String) (ns : List String) :
    ∀ tr, ∃ new, (joinFrom env j ns tr).1 = tr ++ new ∧
      cmdsOf new <+: ns.map (fun n => Cmd.ssh n ("sudo " ++ j)) ∧
      ((joinFrom env j ns tr).2 = true →
        cmdsOf new = ns.map (fun n => Cmd.ssh n ("sudo " ++ j)) ∧
        ∀ e ∈ new, e.res.ok = true) ∧
      ((joinFrom env j ns tr).2 = false →
        ∃ pre e, new = pre ++ [e] ∧ (∀ x ∈ pre, x.res.ok = true) ∧ e.res.ok = false) := by
  induction ns with
  | nil =>
    intro tr
    exact ⟨[], by simp [joinFrom], by simp [cmdsOf], by simp [joinFrom, cmdsOf],
      by simp [joinFrom]⟩
  | cons n ns ih =>
    intro tr
    unfold joinFrom
    by_cases hok : (env tr (.ssh n ("sudo " ++ j))).ok = true
    · have hr : runCommand env n ("sudo " ++ j) tr =
          (tr ++ [⟨.ssh n ("sudo " ++ j), env tr (.ssh n ("sudo " ++ j))⟩], true) := by
        simp [runCommand, hok]
      simp only [hr]
      obtain ⟨new, h1, h2, h3, h4⟩ :=
        ih (tr ++ [⟨.ssh n ("sudo " ++ j), env tr (.ssh n ("sudo " ++ j))⟩])
      refine ⟨⟨.ssh n ("sudo " ++ j), env tr (.ssh n ("sudo " ++ j))⟩ :: new, ?_, ?_, ?_, ?_⟩
      · rw [h1]; simp
      · simp only [cmdsOf, List.map_cons]
        exact (List.prefix_cons_inj _).2 h2
      · intro hres
        obtain ⟨h5, h6⟩ := h3 hres
        refine ⟨by simp only [cmdsOf, List.map_cons] at h5 ⊢; rw [h5], ?_⟩
        intro e he
        rcases List.mem_cons.1 he with h | h
        · rw [h]; exact hok
        · exact h6 e h
      · intro hres
        obtain ⟨pre, e, h5, h6, h7⟩ := h4 hres
        refine ⟨⟨.ssh n ("sudo " ++ j), env tr (.ssh n ("sudo " ++ j))⟩ :: pre, e, ?_, ?_, h7⟩
        · rw [h5]; simp
        · intro x hx
          rcases List.mem_cons.1 hx with h | h
          · rw [h]; exact hok
          · exact h6 x h
    · have hf : (env tr (.ssh n ("sudo " ++ j))).ok = false := by simpa using hok
      have hr : runCommand env n ("sudo " ++ j) tr =
          (tr ++ [⟨.ssh n ("sudo " ++ j), env tr (.ssh n ("sudo " ++ j))⟩], false) := by
        simp [runCommand, hf]
      simp only [hr]
      refine ⟨[⟨.ssh n ("sudo " ++ j), env tr (.ssh n ("sudo " ++ j))⟩], rfl, ?_, ?_, ?_⟩
      · simp only [cmdsOf, List.map_cons, List.map_nil]
        exact (List.prefix_cons_inj _).2 (List.nil_prefix)
      · intro h; exact absurd h (by simp)
      · intro _
        exact ⟨[], _, rfl, by simp, hf⟩

theorem joinFrom_ok (env : Env Cmd) (hok : ∀ h c, (env h c).ok = true) (j : String)
    (ns : List String) : ∀ tr, (joinFrom env j ns tr).2 = true := by
  induction ns with
  | nil => intro tr; rfl
  | cons n ns ih =>
    intro tr
    unfold joinFrom
    simp only [runCommand, hok]
    exact ih _

theorem last_of_all_ok {κ : Type} (pre' pre post : List (Event κ)) (e' e : Event κ)
    (h : pre' ++ [e'] = pre ++ e :: post) (hpre : ∀ x ∈ pre', x.res.ok = true)
    (hf : e.res.ok = false) : post = [] := by
  rcases List.eq_nil_or_concat post with hp | ⟨post', x, hp⟩
  · exact hp
  · exfalso
    rw [hp] at h
    have h1 : pre' ++ [e'] = (pre ++ e :: post') ++ [x] := by
      rw [h]; simp
    have h2 := List.append_inj' h1 rfl
    have h3 : e ∈ pre' := by rw [h2.1]; simp
    have := hpre e h3
    rw [hf] at this
    exact absurd this (by simp)

end K8s

/-! ## The Kubernetes provisioning program: the order of the commands -/

namespace K8s

theorem runAll_quiet (env : Env Cmd) (hq : Quiet env) (node : String) (cmds : List String) :
    (∀ c ∈ cmds, c ∉ probeScripts) →
    ∀ tr, ∃ new, runAll env node cmds tr = (tr ++ new, true) ∧
      cmdsOf new = cmds.map (Cmd.ssh node) := by
  induction cmds with
  | nil => intro _ tr; exact ⟨[], by simp [runAll], rfl⟩
  | cons c cs ih =>
    intro hmem tr
    have hok : (env tr (.ssh node c)).ok = true :=
      hq tr _ (by simpa [isProbe] using hmem c (by simp))
    obtain ⟨new, h1, h2⟩ := ih (fun x hx => hmem x (by simp [hx]))
      (tr ++ [⟨.ssh node c, env tr (.ssh node c)⟩])
    refine ⟨⟨.ssh node c, env tr (.ssh node c)⟩ :: new, ?_, ?_⟩
    · unfold runAll
      simp only [runCommand, hok, h1]
      simp
    · simp only [cmdsOf, List.map_cons] at h2 ⊢
      rw [h2]

theorem copyCertificate_quiet (env : Env Cmd) (hq : Quiet env) (node certPath : String)
    (hc : certInstallScript certPath ∉ probeScripts) (tr : Trace) :
    ∃ new skip, copyCertificate env node certPath tr = (tr ++ new, true) ∧
      cmdsOf new = Cmd.ssh node (certCheckScript certPath) ::
        (if skip = true then []
         else [Cmd.sh (certScpScript node certPath),
               Cmd.ssh node (certInstallScript certPath)]) := by
  by_cases hm : GoStr.TrimSpace (env tr (.ssh node (certCheckScript certPath))).output = "exists"
  · exact ⟨_, true, copyCertificate_match env node certPath tr hm, by simp [cmdsOf]⟩
  · refine ⟨[⟨.ssh node (certCheckScript certPath),
        env tr (.ssh node (certCheckScript certPath))⟩,
      ⟨.sh (certScpScript node certPath),
        env (tr ++ [⟨.ssh node (certCheckScript certPath),
          env tr (.ssh node (certCheckScript certPath))⟩])
          (.sh (certScpScript node certPath))⟩,
      ⟨.ssh node (certInstallScript certPath),
        env (tr ++ [⟨.ssh node (certCheckScript certPath),
            env tr (.ssh node (certCheckScript certPath))⟩] ++
          [⟨.sh (certScpScript node certPath),
            env (tr ++ [⟨.ssh node (certCheckScript certPath),
              env tr (.ssh node (certCheckScript certPath))⟩])
              (.sh (certScpScript node certPath))⟩])
          (.ssh node (certInstallScript certPath))⟩], false, ?_, by simp [cmdsOf]⟩
    unfold copyCertificate
    have h1 := hq (tr ++ [⟨.ssh node (certCheckScript certPath),
      env tr (.ssh node (certCheckScript certPath))⟩]) (.sh (certScpScript node certPath)) rfl
    have h2 := hq (tr ++ [⟨.ssh node (certCheckScript certPath),
        env tr (.ssh node (certCheckScript certPath))⟩] ++
      [⟨.sh (certScpScript node certPath),
        env (tr ++ [⟨.ssh node (certCheckScript certPath),
          env tr (.ssh node (certCheckScript certPath))⟩])
          (.sh (certScpScript node certPath))⟩]) (.ssh node (certInstallScript certPath))
      (by simpa [isProbe] using hc)
    simp only [hm, if_false, h1, if_true, runCommand, h2]
    simp

theorem certCheckScript_eq :
    certCheckScript "/home/user/KAINOS-INSPECTION_G2.crt" =
        "[ -f /usr/local/share/ca-certificates/" ++ "KAINOS-INSPECTION_G2.crt" ++
          " ] && echo 'exists'" ∧
    certCheckScript "/home/user/KAINOS-ROOT-CA_G2.crt" =
        "[ -f /usr/local/share/ca-certificates/" ++ "KAINOS-ROOT-CA_G2.crt" ++
          " ] && echo 'exists'" ∧
    certCheckScript "/home/user/KAINOS-ZSCALER_G2.crt" =
        "[ -f /usr/local/share/ca-certificates/" ++ "KAINOS-ZSCALER_G2.crt" ++
          " ] && echo 'exists'" := by
  decide

theorem certInstallScript_eq :
    certInstallScript "/home/user/KAINOS-INSPECTION_G2.crt" =
        "sudo mv /tmp/" ++ "KAINOS-INSPECTION_G2.crt" ++ " /usr/local/share/ca-certificates/" ++
          "KAINOS-INSPECTION_G2.crt" ++ " && sudo update-ca-certificates" ∧
    certInstallScript "/home/user/KAINOS-ROOT-CA_G2.crt" =
        "sudo mv /tmp/" ++ "KAINOS-ROOT-CA_G2.crt" ++ " /usr/local/share/ca-certificates/" ++
          "KAINOS-ROOT-CA_G2.crt" ++ " && sudo update-ca-certificates" ∧
    certInstallScript "/home/user/KAINOS-ZSCALER_G2.crt" =
        "sudo mv /tmp/" ++ "KAINOS-ZSCALER_G2.crt" ++ " /usr/local/share/ca-certificates/" ++
          "KAINOS-ZSCALER_G2.crt" ++ " && sudo update-ca-certificates" := by
  decide

theorem certScpScript_eq (node : String) :
    certScpScript node "/home/user/KAINOS-INSPECTION_G2.crt" =
        "scp /home/user/" ++ "KAINOS-INSPECTION_G2.crt" ++ " " ++ node ++ ":/tmp/" ++
          "KAINOS-INSPECTION_G2.crt" ∧
    certScpScript node "/home/user/KAINOS-ROOT-CA_G2.crt" =
        "scp /home/user/" ++ "KAINOS-ROOT-CA_G2.crt" ++ " " ++ node ++ ":/tmp/" ++
          "KAINOS-ROOT-CA_G2.crt" ∧
    certScpScript node "/home/user/KAINOS-ZSCALER_G2.crt" =
        "scp /home/user/" ++ "KAINOS-ZSCALER_G2.crt" ++ " " ++ node ++ ":/tmp/" ++
          "KAINOS-ZSCALER_G2.crt" := by
  have b1 : GoStr.filepathBase "/home/user/KAINOS-INSPECTION_G2.crt" =
      "KAINOS-INSPECTION_G2.crt" := by decide
  have b2 : GoStr.filepathBase "/home/user/KAINOS-ROOT-CA_G2.crt" =
      "KAINOS-ROOT-CA_G2.crt" := by decide
  have b3 : GoStr.filepathBase "/home/user/KAINOS-ZSCALER_G2.crt" =
      "KAINOS-ZSCALER_G2.crt" := by decide
  have p1 : "scp " ++ "/home/user/KAINOS-INSPECTION_G2.crt" =
      "scp /home/user/" ++ "KAINOS-INSPECTION_G2.crt" := by decide
  have p2 : "scp " ++ "/home/user/KAINOS-ROOT-CA_G2.crt" =
      "scp /home/user/" ++ "KAINOS-ROOT-CA_G2.crt" := by decide
  have p3 : "scp " ++ "/home/user/KAINOS-ZSCALER_G2.crt" =
      "scp /home/user/" ++ "KAINOS-ZSCALER_G2.crt" := by decide
  unfold certScpScript
  rw [b1, b2, b3, p1, p2, p3]
  exact ⟨rfl, rfl, rfl⟩

/-- The certificate step of a node whose checked commands succeed. -/
theorem copyCertificates_quiet (env : Env Cmd) (hq : Quiet env) (node : String) (tr : Trace) :
    ∃ new s1 s2 s3, copyCertificates env node tr = (tr ++ new, true) ∧
      cmdsOf new = certStep node "KAINOS-INSPECTION_G2.crt" s1 ++
        certStep node "KAINOS-ROOT-CA_G2.crt" s2 ++
        certStep node "KAINOS-ZSCALER_G2.crt" s3 := by
  obtain ⟨n1, s1, h1, c1⟩ := copyCertificate_quiet env hq node
    "/home/user/KAINOS-INSPECTION_G2.crt" (by decide) tr
  obtain ⟨n2, s2, h2, c2⟩ := copyCertificate_quiet env hq node
    "/home/user/KAINOS-ROOT-CA_G2.crt" (by decide) (tr ++ n1)
  obtain ⟨n3, s3, h3, c3⟩ := copyCertificate_quiet env hq node
    "/home/user/KAINOS-ZSCALER_G2.crt" (by decide) (tr ++ n1 ++ n2)
  refine ⟨n1 ++ n2 ++ n3, s1, s2, s3, ?_, ?_⟩
  · simp only [copyCertificates, certFiles, copyCertificatesFrom, h1, h2, h3]
    simp only [List.append_assoc]
  · rw [cmdsOf_append, cmdsOf_append, c1, c2, c3]
    rw [certCheckScript_eq.1, certCheckScript_eq.2.1, certCheckScript_eq.2.2,
      certInstallScript_eq.1, certInstallScript_eq.2.1, certInstallScript_eq.2.2,
      (certScpScript_eq node).1, (certScpScript_eq node).2.1, (certScpScript_eq node).2.2]
    cases s1 <;> cases s2 <;> cases s3 <;> rfl

theorem enableIPv4Forwarding_quiet (env : Env Cmd) (hq : Quiet env) (node : String)
    (tr : Trace) :
    ∃ new skip, enableIPv4Forwarding env node tr = (tr ++ new, true) ∧
      cmdsOf new = Cmd.ssh node forwardingCheckScript ::
        (if skip = true then [] else forwardingCmds.map (Cmd.ssh node)) := by
  unfold enableIPv4Forwarding
  by_cases hm : GoStr.Contains (env tr (.ssh node forwardingCheckScript)).output "= 1" = true
  · refine ⟨[⟨.ssh node forwardingCheckScript, env tr (.ssh node forwardingCheckScript)⟩],
      true, by simp only [hm, if_true], by simp [cmdsOf]⟩
  · obtain ⟨n2, h1, h2⟩ := runAll_quiet env hq node forwardingCmds (by decide)
      (tr ++ [⟨.ssh node forwardingCheckScript, env tr (.ssh node forwardingCheckScript)⟩])
    refine ⟨⟨.ssh node forwardingCheckScript, env tr (.ssh node forwardingCheckScript)⟩ :: n2,
      false, ?_, ?_⟩
    · simp only [hm]
      rw [h1]
      simp
    · simp only [cmdsOf, List.map_cons] at h2 ⊢
      rw [h2]
      simp

/-- One node whose checked commands succeed: the commands are those of the plan. -/
theorem provisionNode_quiet (env : Env Cmd) (hq : Quiet env) (node : String) (tr : Trace) :
    ∃ new sk, provisionNode env node tr = (tr ++ new, true) ∧
      cmdsOf new = nodePlan node sk := by
  obtain ⟨n1, h1, c1⟩ := runAll_quiet env hq node firewallCmds (by decide) tr
  obtain ⟨n2, s1, s2, s3, h2, c2⟩ := copyCertificates_quiet env hq node (tr ++ n1)
  obtain ⟨n3, fskip, h3, c3⟩ := enableIPv4Forwarding_quiet env hq node (tr ++ n1 ++ n2)
  obtain ⟨n4, h4, c4⟩ := runAll_quiet env hq node [swapCmd] (by decide) (tr ++ n1 ++ n2 ++ n3)
  obtain ⟨n5, h5, c5⟩ := runAll_quiet env hq node repositoryCmds (by decide)
    (tr ++ n1 ++ n2 ++ n3 ++ n4)
  obtain ⟨n6, h6, c6⟩ := runAll_quiet env hq node packageCmds (by decide)
    (tr ++ n1 ++ n2 ++ n3 ++ n4 ++ n5)
  obtain ⟨n7, h7, c7⟩ := runAll_quiet env hq node containerdCmds (by decide)
    (tr ++ n1 ++ n2 ++ n3 ++ n4 ++ n5 ++ n6)
  have h4' : disableSwap env node (tr ++ n1 ++ n2 ++ n3) = (tr ++ n1 ++ n2 ++ n3 ++ n4, true) := by
    rw [← h4]
    unfold disableSwap runAll
    rcases hr : runCommand env node swapCmd (tr ++ n1 ++ n2 ++ n3) with ⟨t, ok⟩
    cases ok <;> simp [runAll]
  refine ⟨n1 ++ n2 ++ n3 ++ n4 ++ n5 ++ n6 ++ n7, ⟨s1, s2, s3, fskip⟩, ?_, ?_⟩
  · unfold provisionNode configureFirewall setupKubernetesRepository
      installKubernetesPackages setupContainerd
    simp only [andThen, h1, h2, h3, h4', h5, h6, h7, if_true]
    simp only [List.append_assoc]
  · simp only [cmdsOf_append, c1, c2, c3, c4, c5, c6, c7]
    cases fskip <;>
      simp [nodePlan, stepOrder, stepPlan, firewallCmds, forwardingCheckScript,
        forwardingCmds, swapCmd, repositoryCmds, packageCmds, containerdCmds]

/-- The node loop of `main` when the checked commands succeed. -/
theorem provisionFrom_quiet (env : Env Cmd) (hq : Quiet env) (tr : Trace) :
    ∃ new k0 k1 k2 k3, provisionFrom env nodes tr = (tr ++ new, true) ∧
      cmdsOf new = provisioningPlan k0 k1 k2 k3 := by
  obtain ⟨n0, k0, h0, c0⟩ := provisionNode_quiet env hq "control-plane" tr
  obtain ⟨n1, k1, h1, c1⟩ := provisionNode_quiet env hq "worker-node1" (tr ++ n0)
  obtain ⟨n2, k2, h2, c2⟩ := provisionNode_quiet env hq "worker-node2" (tr ++ n0 ++ n1)
  obtain ⟨n3, k3, h3, c3⟩ := provisionNode_quiet env hq "worker-node3" (tr ++ n0 ++ n1 ++ n2)
  refine ⟨n0 ++ n1 ++ n2 ++ n3, k0, k1, k2, k3, ?_, ?_⟩
  · simp only [nodes, provisionFrom, h0, h1, h2, h3]
    simp only [List.append_assoc]
  · simp only [cmdsOf_append, c0, c1, c2, c3, provisioningPlan]

theorem sudo_not_probe (j : String) : ("sudo " ++ j) ∉ probeScripts := by
  rw [probeScripts_eq]
  intro h
  simp only [List.mem_cons, List.mem_singleton, List.not_mem_nil, or_false] at h
  rcases h with h | h | h | h | h <;>
  · have h1 := congrArg String.data h
    simp at h1

theorem joinFrom_quiet (env : Env Cmd) (hq : Quiet env) (j : String) (ns : List String) :
    ∀ tr, ∃ new, joinFrom env j ns tr = (tr ++ new, true) ∧
      cmdsOf new = ns.map (fun n => Cmd.ssh n ("sudo " ++ j)) := by
  induction ns with
  | nil => intro tr; exact ⟨[], by simp [joinFrom], rfl⟩
  | cons n ns ih =>
    intro tr
    have hok : (env tr (.ssh n ("sudo " ++ j))).ok = true :=
      hq tr _ (by simpa [isProbe] using sudo_not_probe j)
    obtain ⟨new, h1, h2⟩ := ih (tr ++ [⟨.ssh n ("sudo " ++ j), env tr (.ssh n ("sudo " ++ j))⟩])
    refine ⟨⟨.ssh n ("sudo " ++ j), env tr (.ssh n ("sudo " ++ j))⟩ :: new, ?_, ?_⟩
    · unfold joinFrom
      simp only [runCommand, hok, h1]
      simp
    · simp only [cmdsOf, List.map_cons] at h2 ⊢
      rw [h2]

/-- What follows the node loop when the checked commands succeed. -/
theorem bootstrap_quiet (env : Env Cmd) (hq : Quiet env) (tr : Trace) :
    ∃ new initSkipped joinCmd, bootstrap env tr = (tr ++ new, true) ∧
      cmdsOf new = bootstrapPlan initSkipped joinCmd ∧
      (initSkipped = true → joinCmd = "") := by
  have htail : ∀ (j : String) (t : Trace), ∃ new,
      (andThen (joinWorkerNodes env j t) fun tr =>
        andThen (setupRemoteKubectl env tr) fun tr => installNetworkPlugin env tr) =
        (t ++ new, true) ∧
      cmdsOf new =
        (if j = "" then []
         else [Cmd.ssh "worker-node1" ("sudo " ++ j), Cmd.ssh "worker-node2" ("sudo " ++ j),
               Cmd.ssh "worker-node3" ("sudo " ++ j)]) ++
        [Cmd.sh remoteKubectlScript,
         Cmd.ssh "control-plane" "kubectl create -f https://raw.githubusercontent.com/projectcalico/calico/v3.25.0/manifests/tigera-operator.yaml",
         Cmd.ssh "control-plane" "kubectl apply -f https://docs.projectcalico.org/manifests/calico.yaml"] := by
    intro j t
    have hjoin : ∃ nj, joinWorkerNodes env j t = (t ++ nj, true) ∧
        cmdsOf nj = (if j = "" then []
          else [Cmd.ssh "worker-node1" ("sudo " ++ j), Cmd.ssh "worker-node2" ("sudo " ++ j),
                Cmd.ssh "worker-node3" ("sudo " ++ j)]) := by
      by_cases hj : j = ""
      · exact ⟨[], by simp [joinWorkerNodes, hj], by simp [hj, cmdsOf]⟩
      · obtain ⟨nj, h1, h2⟩ := joinFrom_quiet env hq j
          ["worker-node1", "worker-node2", "worker-node3"] t
        refine ⟨nj, ?_, ?_⟩
        · simp only [joinWorkerNodes, hj, if_false, nodes, List.drop_succ_cons, List.drop_zero]
          exact h1
        · rw [h2]
          simp [hj]
    obtain ⟨nj, hj1, hj2⟩ := hjoin
    have hk : (env (t ++ nj) (.sh remoteKubectlScript)).ok = true := hq _ _ rfl
    obtain ⟨np, hp1, hp2⟩ := runAll_quiet env hq "control-plane" networkPluginCmds (by decide)
      (t ++ nj ++ [⟨.sh remoteKubectlScript, env (t ++ nj) (.sh remoteKubectlScript)⟩])
    refine ⟨nj ++ [⟨.sh remoteKubectlScript, env (t ++ nj) (.sh remoteKubectlScript)⟩] ++ np,
      ?_, ?_⟩
    · simp only [andThen, hj1, if_true, setupRemoteKubectl, hk, installNetworkPlugin, hp1]
      simp only [List.append_assoc]
    · rw [cmdsOf_append, cmdsOf_append, hj2, hp2]
      simp [cmdsOf, networkPluginCmds]
  by_cases hm : GoStr.TrimSpace (env tr (.ssh "control-plane" manifestCheckScript)).output
      = "exists"
  · obtain ⟨nt, ht1, ht2⟩ := htail ""
      (tr ++ [⟨.ssh "control-plane" manifestCheckScript,
        env tr (.ssh "control-plane" manifestCheckScript)⟩])
    refine ⟨⟨.ssh "control-plane" manifestCheckScript,
      env tr (.ssh "control-plane" manifestCheckScript)⟩ :: nt, true, "", ?_, ?_, fun _ => rfl⟩
    · unfold bootstrap
      rw [initControlPlane_match env tr hm]
      simp only [ht1]
      simp
    · simp only [cmdsOf, List.map_cons] at ht2 ⊢
      rw [ht2]
      rfl
  · have hi : (env (tr ++ [⟨.ssh "control-plane" manifestCheckScript,
        env tr (.ssh "control-plane" manifestCheckScript)⟩])
        (.ssh "control-plane" kubeadmInitCmd)).ok = true := hq _ _ (by decide)
    have ha : ∀ t, (env t (.ssh "control-plane" copyAdminConfCmd)).ok = true :=
      fun t => hq _ _ (by decide)
    have hk : ∀ t, (env t (.ssh "control-plane" tokenCreateCmd)).ok = true :=
      fun t => hq _ _ (by decide)
    have hinit : ∃ ni j, initControlPlane env tr = (tr ++ ni, j, true) ∧
        cmdsOf ni = [Cmd.ssh "control-plane" manifestCheckScript,
          Cmd.ssh "control-plane" kubeadmInitCmd, Cmd.ssh "control-plane" copyAdminConfCmd,
          Cmd.ssh "control-plane" tokenCreateCmd] := by
      refine ⟨[⟨.ssh "control-plane" manifestCheckScript,
            env tr (.ssh "control-plane" manifestCheckScript)⟩,
          ⟨.ssh "control-plane" kubeadmInitCmd,
            env (tr ++ [⟨.ssh "control-plane" manifestCheckScript,
              env tr (.ssh "control-plane" manifestCheckScript)⟩])
              (.ssh "control-plane" kubeadmInitCmd)⟩,
          ⟨.ssh "control-plane" copyAdminConfCmd,
            env (tr ++ [⟨.ssh "control-plane" manifestCheckScript,
                env tr (.ssh "control-plane" manifestCheckScript)⟩] ++
              [⟨.ssh "control-plane" kubeadmInitCmd,
                env (tr ++ [⟨.ssh "control-plane" manifestCheckScript,
                  env tr (.ssh "control-plane" manifestCheckScript)⟩])
                  (.ssh "control-plane" kubeadmInitCmd)⟩])
              (.ssh "control-plane" copyAdminConfCmd)⟩,
          ⟨.ssh "control-plane" tokenCreateCmd,
            env (tr ++ [⟨.ssh "control-plane" manifestCheckScript,
                env tr (.ssh "control-plane" manifestCheckScript)⟩] ++
              [⟨.ssh "control-plane" kubeadmInitCmd,
                env (tr ++ [⟨.ssh "control-plane" manifestCheckScript,
                  env tr (.ssh "control-plane" manifestCheckScript)⟩])
                  (.ssh "control-plane" kubeadmInitCmd)⟩] ++
              [⟨.ssh "control-plane" copyAdminConfCmd,
                env (tr ++ [⟨.ssh "control-plane" manifestCheckScript,
                    env tr (.ssh "control-plane" manifestCheckScript)⟩] ++
                  [⟨.ssh "control-plane" kubeadmInitCmd,
                    env (tr ++ [⟨.ssh "control-plane" manifestCheckScript,
                      env tr (.ssh "control-plane" manifestCheckScript)⟩])
                      (.ssh "control-plane" kubeadmInitCmd)⟩])
                  (.ssh "control-plane" copyAdminConfCmd)⟩])
              (.ssh "control-plane" tokenCreateCmd)⟩],
        GoStr.TrimSpace (env (tr ++ [⟨.ssh "control-plane" manifestCheckScript,
                env tr (.ssh "control-plane" manifestCheckScript)⟩] ++
              [⟨.ssh "control-plane" kubeadmInitCmd,
                env (tr ++ [⟨.ssh "control-plane" manifestCheckScript,
                  env tr (.ssh "control-plane" manifestCheckScript)⟩])
                  (.ssh "control-plane" kubeadmInitCmd)⟩] ++
              [⟨.ssh "control-plane" copyAdminConfCmd,
                env (tr ++ [⟨.ssh "control-plane" manifestCheckScript,
                    env tr (.ssh "control-plane" manifestCheckScript)⟩] ++
                  [⟨.ssh "control-plane" kubeadmInitCmd,
                    env (tr ++ [⟨.ssh "control-plane" manifestCheckScript,
                      env tr (.ssh "control-plane" manifestCheckScript)⟩])
                      (.ssh "control-plane" kubeadmInitCmd)⟩])
                  (.ssh "control-plane" copyAdminConfCmd)⟩])
              (.ssh "control-plane" tokenCreateCmd)).output, ?_, ?_⟩
      · unfold initControlPlane
        simp only [hm, if_false, runCommand, hi, ha, hk, if_true]
        simp only [List.append_assoc, List.cons_append, List.nil_append]
      · simp [cmdsOf]
    obtain ⟨ni, j, hi1, hi2⟩ := hinit
    obtain ⟨nt, ht1, ht2⟩ := htail j (tr ++ ni)
    refine ⟨ni ++ nt, false, j, ?_, ?_, fun h => absurd h (by simp)⟩
    · unfold bootstrap
      rw [hi1]
      simp only [ht1, List.append_assoc]
    · rw [cmdsOf_append, hi2, ht2]
      rfl

set_option maxRecDepth 100000 in
theorem fullPlan_nodup : fullPlan.Nodup := by decide

set_option maxRecDepth 100000 in
theorem bootstrapPlan_not_provisioning (initSkipped : Bool) :
    ∀ c ∈ bootstrapPlan initSkipped "", c ∉ fullPlan := by
  cases initSkipped <;> decide

theorem certStep_sublist (node name : String) (skip : Bool) :
    (certStep node name skip).Sublist (certStep node name false) := by
  cases skip <;> simp [certStep]

theorem nodePlan_sublist (node : String) (sk : Skips) :
    (nodePlan node sk).Sublist (nodePlan node noSkip) := by
  obtain ⟨s1, s2, s3, fs⟩ := sk
  simp only [nodePlan, stepOrder, List.flatMap_cons, List.flatMap_nil, stepPlan, noSkip,
    List.append_nil]
  refine List.Sublist.append (List.Sublist.refl _) ?_
  refine List.Sublist.append ?_ ?_
  · exact ((certStep_sublist node _ s1).append (certStep_sublist node _ s2)).append
      (certStep_sublist node _ s3)
  · refine List.Sublist.append ?_ (List.Sublist.refl _)
    cases fs <;> simp

theorem provisioningPlan_sublist (k0 k1 k2 k3 : Skips) :
    (provisioningPlan k0 k1 k2 k3).Sublist fullPlan := by
  unfold fullPlan provisioningPlan
  exact (((nodePlan_sublist _ k0).append (nodePlan_sublist _ k1)).append
    (nodePlan_sublist _ k2)).append (nodePlan_sublist _ k3)

end K8s

/-! ## The line scanner -/

namespace GoStr

theorem scanFrom_full (rest : List Char) :
    ∀ (cur : List Char) (size : Nat), maxScanTokenSize ≤ size →
      scanFrom rest cur size = ([], true) := by
  induction rest with
  | nil =>
    intro cur size h
    have h0 : size ≠ 0 := by
      have : 0 < maxScanTokenSize := by decide
      omega
    simp [scanFrom, h0, h]
  | cons c cs ih =>
    intro cur size h
    unfold scanFrom
    by_cases hc : c = '\n'
    · have : ¬ size < maxScanTokenSize := by omega
      simp [hc, this]
    · simp only [hc, if_false]
      exact ih _ _ (by omega)

theorem scanFrom_line (l : List Char) (hl : ∀ c ∈ l, c ≠ '\n') :
    ∀ (rest cur : List Char) (size : Nat),
      scanFrom (l ++ rest) cur size = scanFrom rest (l.reverse ++ cur) (size + byteSize l) := by
  induction l with
  | nil => intro rest cur size; simp [byteSize]
  | cons x xs ih =>
    intro rest cur size
    have hx : x ≠ '\n' := hl x (by simp)
    have h := ih (fun c hc => hl c (by simp [hc])) rest (x :: cur) (size + x.utf8Size)
    have hb : size + byteSize (x :: xs) = size + x.utf8Size + byteSize xs := by
      simp [byteSize, Nat.add_assoc]
    rw [hb, List.reverse_cons, List.append_assoc, List.singleton_append, ← h]
    simp only [List.cons_append, scanFrom, hx, if_false]
    rfl

theorem dropCR_reverse (l : List Char) (h : l.getLast? ≠ some '\r') :
    dropCR l.reverse = l.reverse := by
  rcases List.eq_nil_or_concat l with h0 | ⟨pre, x, h0⟩
  · subst h0; rfl
  · subst h0
    have hx : x ≠ '\r' := by
      intro hc
      apply h
      simp [hc]
    simp [dropCR, hx]

theorem byteSize_pos (l : List Char) (h : l ≠ []) : 0 < byteSize l := by
  cases l with
  | nil => exact absurd rfl h
  | cons x xs =>
    have := Char.utf8Size_pos x
    simp only [byteSize, List.map_cons, List.sum_cons]
    omega

theorem byteSize_append (a b : List Char) : byteSize (a ++ b) = byteSize a + byteSize b := by
  simp [byteSize]

theorem byteSize_replicate (n : Nat) (c : Char) :
    byteSize (List.replicate n c) = n * c.utf8Size := by
  simp [byteSize, List.map_replicate, List.sum_replicate]

/-- A line within the limit, ended by a line feed, is yielded and the scan goes on. -/
theorem scanFrom_good_line (l : String) (rest : List Char) (hl : IsLine l)
    (hsize : byteSize l.data < maxScanTokenSize) :
    scanFrom (l.data ++ '\n' :: rest) [] 0 =
      (l :: (scanFrom rest [] 0).1, (scanFrom rest [] 0).2) := by
  rw [scanFrom_line l.data (fun c hc hn => hl.1 (hn ▸ hc))]
  simp only [List.append_nil, Nat.zero_add, scanFrom, if_true, hsize]
  rw [dropCR_reverse l.data hl.2, List.reverse_reverse]

/-- A line that reaches the limit stops the scanner with an error. -/
theorem scanFrom_long_line (long rest : List Char) (hl : ∀ c ∈ long, c ≠ '\n')
    (hsize : maxScanTokenSize ≤ byteSize long) :
    scanFrom (long ++ rest) [] 0 = ([], true) := by
  rw [scanFrom_line long hl]
  exact scanFrom_full _ _ _ (by omega)

theorem scanLines_fileOf (ls : List String)
    (h : ∀ l ∈ ls, IsLine l ∧ byteSize l.data < maxScanTokenSize) :
    scanLines (fileOf ls) = (ls, false) := by
  unfold scanLines fileOf
  induction ls with
  | nil => simp [scanFrom]
  | cons l ls ih =>
    have hl := h l (by simp)
    have := ih (fun x hx => h x (by simp [hx]))
    simp only at this
    simp only [List.flatMap_cons, List.append_assoc, List.singleton_append]
    rw [scanFrom_good_line l _ hl.1 hl.2, this]

theorem scanLines_fileOf_long (pre post : List String) (long : String)
    (h : ∀ l ∈ pre, IsLine l ∧ byteSize l.data < maxScanTokenSize)
    (hl : '\n' ∉ long.data) (hsize : maxScanTokenSize ≤ byteSize long.data) :
    scanLines (fileOf (pre ++ long :: post)) = (pre, true) := by
  unfold scanLines fileOf
  induction pre with
  | nil =>
    simp only [List.nil_append, List.flatMap_cons, List.append_assoc]
    exact scanFrom_long_line long.data _ (fun c hc hn => hl (hn ▸ hc)) hsize
  | cons l ls ih =>
    have hl' := h l (by simp)
    have := ih (fun x hx => h x (by simp [hx]))
    simp only at this
    simp only [List.cons_append, List.flatMap_cons, List.append_assoc, List.singleton_append]
    rw [scanFrom_good_line l _ hl'.1 hl'.2]
    simp only [List.nil_append] at this ⊢
    rw [this]

end GoStr

/-- The fold of the scanner loop builds the registry that the lines describe. -/
theorem registryOf_setAll (lines : List String) :
    RegistryOf lines (HostMap.setAll [] (lines.filterMap entryOf)) := by
  refine ⟨HostMap.nodup_keys_setAll _ [] (by simp [HostMap.keys]), ?_, ?_, ?_⟩
  · intro a
    rw [HostMap.mem_keys_setAll]
    constructor
    · rintro (h | ⟨e, he, h⟩)
      · simp [HostMap.keys] at h
      · obtain ⟨l, hl, hle⟩ := List.mem_filterMap.1 he
        obtain ⟨b, h0, h1, _⟩ := (entryOf_eq_some l e).1 hle
        refine ⟨l, hl, ?_, by rw [h0, h]⟩
        have := (List.getElem?_eq_some.1 h1).1
        omega
    · rintro ⟨l, hl, hlen, h0⟩
      right
      have hb : ∃ b, (GoStr.Fields l)[1]? = some b :=
        ⟨(GoStr.Fields l)[1], List.getElem?_eq_getElem (by omega)⟩
      obtain ⟨b, h1⟩ := hb
      exact ⟨(a, beforeComma b), List.mem_filterMap.2
        ⟨l, hl, (entryOf_eq_some l (a, beforeComma b)).2 ⟨b, h0, h1, rfl⟩⟩, rfl⟩
  · intro pre l post a b hlines h0 h1 hpost
    have he : entryOf l = some (a, beforeComma b) :=
      (entryOf_eq_some l (a, beforeComma b)).2 ⟨b, h0, h1, rfl⟩
    have hsplit : lines.filterMap entryOf =
        pre.filterMap entryOf ++ (a, beforeComma b) :: post.filterMap entryOf := by
      rw [hlines, List.filterMap_append, List.filterMap_cons, he]
    rw [hsplit]
    refine HostMap.get?_setAll_last [] _ _ (a, beforeComma b) ?_
    intro e' he' hkey
    obtain ⟨l', hl', hle'⟩ := List.mem_filterMap.1 he'
    obtain ⟨b', h0', h1', _⟩ := (entryOf_eq_some l' e').1 hle'
    apply hpost l' hl'
    refine ⟨?_, by rw [h0', hkey]⟩
    have := (List.getElem?_eq_some.1 h1').1
    omega
  · intro a lab h
    rcases HostMap.get?_setAll_source _ [] a lab h with h' | h'
    · simp [HostMap.get?] at h'
    · obtain ⟨l, _, hle⟩ := List.mem_filterMap.1 h'
      exact entryOf_clean l (a, lab) hle

namespace GoStr

/-- A file made of one line, with or without a final carriage return and line feed. -/
theorem scanLines_single (core cr nl : List Char) (hne : core ≠ [])
    (hcore : ∀ c ∈ core, c ≠ '\n' ∧ c ≠ '\r')
    (hcr : cr = [] ∨ cr = ['\r']) (hnl : nl = [] ∨ nl = ['\n'])
    (hsize : byteSize (core ++ cr) < maxScanTokenSize) :
    scanLines (String.mk (core ++ cr ++ nl)) = ([String.mk core], false) := by
  have hline : ∀ c ∈ core ++ cr, c ≠ '\n' := by
    intro c hc
    rcases List.mem_append.1 hc with h | h
    · exact (hcore c h).1
    · rcases hcr with h0 | h0
      · rw [h0] at h; simp at h
      · rw [h0] at h
        simp only [List.mem_singleton] at h
        rw [h]
        decide
  have hdrop : dropCR (core ++ cr).reverse = core.reverse := by
    rcases hcr with h0 | h0
    · rw [h0, List.append_nil]
      refine dropCR_reverse core ?_
      intro hc
      have hmem : '\r' ∈ core := List.mem_of_getLast?_eq_some hc
      exact (hcore _ hmem).2 rfl
    · rw [h0]
      simp [dropCR]
  have hpos : 0 < byteSize (core ++ cr) := byteSize_pos _ (by simp [hne])
  unfold scanLines
  simp only
  rw [scanFrom_line (core ++ cr) hline]
  rcases hnl with h0 | h0
  · rw [h0]
    have h1 : ¬ (0 + byteSize (core ++ cr) = 0) := by omega
    have h2 : ¬ (maxScanTokenSize ≤ 0 + byteSize (core ++ cr)) := by omega
    simp only [scanFrom, h1, h2, if_false, List.append_nil, hdrop, List.reverse_reverse]
  · rw [h0]
    have h2 : 0 + byteSize (core ++ cr) < maxScanTokenSize := by omega
    simp only [scanFrom, h2, if_true, List.append_nil, hdrop, List.reverse_reverse]

/-- A line of a short prefix followed by many letters reaches the scanner limit. -/
theorem long_line (p : String) (n : Nat) (hp : '\n' ∉ p.data) (hn : maxScanTokenSize ≤ n) :
    '\n' ∉ (String.mk (p.data ++ List.replicate n 'w')).data ∧
    maxScanTokenSize ≤ byteSize (String.mk (p.data ++ List.replicate n 'w')).data := by
  constructor
  · intro h
    rcases List.mem_append.1 h with h1 | h1
    · exact hp h1
    · have := (List.mem_replicate.1 h1).2
      exact absurd this (by decide)
  · have h1 : byteSize (p.data ++ List.replicate n 'w') = byteSize p.data + n := by
      rw [byteSize_append, byteSize_replicate]
      have : 'w'.utf8Size = 1 := by decide
      rw [this, Nat.mul_one]
    show maxScanTokenSize ≤ byteSize (p.data ++ List.replicate n 'w')
    omega

theorem Fields_long_line (n : Nat) (hn : 0 < n) :
    Fields (String.mk ("10.0.0.5 ".data ++ List.replicate n 'w')) =
      ["10.0.0.5", String.mk (List.replicate n 'w')] := by
  have h := Fields_two [] "10.0.0.5".data [' '] (List.replicate n 'w') []
    (by simp) (by decide) (by decide) (by simp) (by decide)
    (by
      intro hc
      have := congrArg List.length hc
      simp at this
      omega)
    (by
      intro c hc
      rw [(List.mem_replicate.1 hc).2]
      decide)
    (Or.inl rfl)
  have hF : Fields (String.mk []) = [] := by decide
  rw [hF] at h
  have hd : ([] ++ "10.0.0.5".data ++ [' '] ++ List.replicate n 'w' ++ []) =
      "10.0.0.5 ".data ++ List.replicate n 'w' := by
    simp
  rw [hd] at h
  exact h

end GoStr

/-! ## The specification claims -/

/-- Counterexample to C1 as stated: the only line of the file has two fields, the second
one made of 65536 letters.  The scanner gives up with `bufio.ErrTooLong`, the
function ends in `log.Fatal` and the registry has no entry. -/
theorem SshV2.loadHostsFromFile_long_line_fatal :
    GoStr.Fields (String.mk ("10.0.0.5 ".data ++ List.replicate 65536 'w')) =
      ["10.0.0.5", String.mk (List.replicate 65536 'w')] ∧
    GoStr.scanLines (String.mk ("10.0.0.5 ".data ++ List.replicate 65536 'w')) = ([], true) ∧
    SshV2.loadHostsFromFile (some (String.mk ("10.0.0.5 ".data ++ List.replicate 65536 'w'))) []
      = SshV2.Load.fatal [] := by
  have hl := GoStr.long_line "10.0.0.5 " 65536 (by decide) (by decide)
  have hscan : GoStr.scanLines (String.mk ("10.0.0.5 ".data ++ List.replicate 65536 'w')) =
      ([], true) := by
    have := GoStr.scanFrom_long_line ("10.0.0.5 ".data ++ List.replicate 65536 'w') []
      (fun c hc hn => hl.1 (hn ▸ hc)) hl.2
    rw [List.append_nil] at this
    exact this
  refine ⟨GoStr.Fields_long_line 65536 (by decide), hscan, ?_⟩
  rw [SshV2.loadHostsFromFile_eq, hscan]
  rfl

/-- C1 (amended): `loadHostsFromFile` of the second SSH variant, run on an empty registry
with a file from which the scanner reads exactly one line, without error, returns
with exactly one entry when that line has at least two fields: the address is
the first field and the label is the second field up to its first comma.  This
is the case of every file made of optional white space, a first field `a`,
white space, a second field `b`, an optional remainder starting with white
space and an optional line end, as long as the line is shorter than the
scanner limit of 64 KiB.  The file `10.0.0.5 worker1,w1`, with or without a
line feed, yields the single entry `10.0.0.5 -> worker1`. -/
theorem SshV2.loadHostsFromFile_single_line :
    (∀ (content line a b : String),
        GoStr.scanLines content = ([line], false) →
        (GoStr.Fields line)[0]? = some a → (GoStr.Fields line)[1]? = some b →
        SshV2.loadHostsFromFile (some content) [] = SshV2.Load.done [(a, beforeComma b)]) ∧
    (∀ (w0 a w1 b tail cr nl : List Char),
        (∀ c ∈ w0, GoStr.isSpace c = true) →
        a ≠ [] → (∀ c ∈ a, GoStr.isSpace c = false) →
        w1 ≠ [] → (∀ c ∈ w1, GoStr.isSpace c = true) →
        b ≠ [] → (∀ c ∈ b, GoStr.isSpace c = false) →
        (tail = [] ∨ ∃ c t, tail = c :: t ∧ GoStr.isSpace c = true) →
        (∀ c ∈ w0 ++ a ++ w1 ++ b ++ tail, c ≠ '\n' ∧ c ≠ '\r') →
        (cr = [] ∨ cr = ['\r']) → (nl = [] ∨ nl = ['\n']) →
        byteSize (w0 ++ a ++ w1 ++ b ++ tail ++ cr) < GoStr.maxScanTokenSize →
        SshV2.loadHostsFromFile (some (String.mk (w0 ++ a ++ w1 ++ b ++ tail ++ cr ++ nl))) [] =
          SshV2.Load.done [(String.mk a, String.mk (b.takeWhile (fun c => c != ',')))]) ∧
    SshV2.loadHostsFromFile (some "10.0.0.5 worker1,w1") [] =
      SshV2.Load.done [("10.0.0.5", "worker1")] ∧
    SshV2.loadHostsFromFile (some "10.0.0.5 worker1,w1\n") [] =
      SshV2.Load.done [("10.0.0.5", "worker1")] := by
  have hone : ∀ (content line a b : String),
      GoStr.scanLines content = ([line], false) →
      (GoStr.Fields line)[0]? = some a → (GoStr.Fields line)[1]? = some b →
      SshV2.loadHostsFromFile (some content) [] = SshV2.Load.done [(a, beforeComma b)] := by
    intro content line a b hscan h0 h1
    have he : entryOf line = some (a, beforeComma b) :=
      (entryOf_eq_some line (a, beforeComma b)).2 ⟨b, h0, h1, rfl⟩
    rw [SshV2.loadHostsFromFile_eq, hscan]
    simp [he, HostMap.setAll, HostMap.set]
  refine ⟨hone, ?_, by decide, by decide⟩
  intro w0 a w1 b tail cr nl hw0 ha ha' hw1 hw1' hb hb' ht hcore hcr hnl hsize
  have hF := GoStr.Fields_two w0 a w1 b tail hw0 ha ha' hw1 hw1' hb hb' ht
  have hscan := GoStr.scanLines_single (w0 ++ a ++ w1 ++ b ++ tail) cr nl
    (by simp [ha]) hcore hcr hnl hsize
  have h := hone _ (String.mk (w0 ++ a ++ w1 ++ b ++ tail)) (String.mk a) (String.mk b)
    hscan (by rw [hF]; simp) (by rw [hF]; simp)
  simpa [beforeComma] using h

/-- Witness for C1 (amended): a line with leading blanks, a tab between the columns, two
aliases, a third column and a carriage return and line feed at its end. -/
theorem SshV2.loadHostsFromFile_single_line_witness :
    SshV2.loadHostsFromFile (some "  10.0.0.7\tnode7,n7,seven extra\r\n") [] =
      SshV2.Load.done [("10.0.0.7", "node7")] :=
  SshV2.loadHostsFromFile_single_line.2.1
    [' ', ' '] "10.0.0.7".data ['\t'] "node7,n7,seven".data " extra".data ['\r'] ['\n']
    (by decide) (by decide) (by decide) (by decide) (by decide) (by decide) (by decide)
    (Or.inr ⟨' ', "extra".data, rfl, by decide⟩) (by decide) (Or.inr rfl) (Or.inr rfl)
    (by decide)

/-- Counterexample to C10 as stated: the second of three lines is longer than the scanner
limit.  The function ends in `log.Fatal` after the first line, and `10.0.0.3`,
the first field of the third line, never becomes a key. -/
theorem SshV2.loadHostsFromFile_long_line_hides_later_lines :
    GoStr.Fields "10.0.0.3 c" = ["10.0.0.3", "c"] ∧
    SshV2.loadHostsFromFile
      (some (fileOf ["10.0.0.1 a", String.mk ("10.0.0.9 ".data ++ List.replicate 70000 'w'),
        "10.0.0.3 c"])) [] = SshV2.Load.fatal [("10.0.0.1", "a")] ∧
    "10.0.0.3" ∉ HostMap.keys [("10.0.0.1", "a")] := by
  have hl := GoStr.long_line "10.0.0.9 " 70000 (by decide) (by decide)
  have hscan : GoStr.scanLines
      (fileOf ["10.0.0.1 a", String.mk ("10.0.0.9 ".data ++ List.replicate 70000 'w'),
        "10.0.0.3 c"]) = (["10.0.0.1 a"], true) :=
    GoStr.scanLines_fileOf_long ["10.0.0.1 a"] ["10.0.0.3 c"]
      (String.mk ("10.0.0.9 ".data ++ List.replicate 70000 'w'))
      (by
        intro l hl'
        simp only [List.mem_singleton] at hl'
        subst hl'
        exact ⟨⟨by decide, by decide⟩, by decide⟩)
      hl.1 hl.2
  refine ⟨by decide, ?_, by decide⟩
  rw [SshV2.loadHostsFromFile_eq, hscan]
  decide

/-- C10 (amended): `loadHostsFromFile` never indexes out of range.  For every file it
processes the lines the scanner yields and ends with the registry those lines
describe, returning normally unless the scanner failed, in which case it ends
in `log.Fatal`.  For every sequence of text lines each shorter than the
scanner limit of 64 KiB the function returns normally and the registry built
from the empty one is exactly this: `a` is a key iff `a` is the first field of
some line with at least two fields; its label comes from the last such line;
lines with fewer than two fields contribute nothing; keys are non-empty and
free of white space, labels free of commas and white space.  When a line
reaches the limit the function ends in `log.Fatal` with the registry of the
lines before it.  A label can be empty: the line `10.0.0.5 ,w1` gives `""`. -/
theorem SshV2.loadHostsFromFile_registry :
    (∀ file : Option String, SshV2.loadHostsFromFile file [] ≠ SshV2.Load.panic) ∧
    (∀ content : String, ∃ m : HostMap,
      RegistryOf (GoStr.scanLines content).1 m ∧
      SshV2.loadHostsFromFile (some content) [] =
        if (GoStr.scanLines content).2 then SshV2.Load.fatal m else SshV2.Load.done m) ∧
    (∀ lines : List String,
      (∀ l ∈ lines, IsLine l ∧ byteSize l.data < GoStr.maxScanTokenSize) →
      ∃ m : HostMap,
        SshV2.loadHostsFromFile (some (fileOf lines)) [] = SshV2.Load.done m ∧
        RegistryOf lines m ∧
        SshV2.loadHostsFromFile
          (some (fileOf (lines.filter (fun l => decide (2 ≤ (GoStr.Fields l).length))))) [] =
          SshV2.Load.done m) ∧
    (∀ (pre post : List String) (long : String),
      (∀ l ∈ pre, IsLine l ∧ byteSize l.data < GoStr.maxScanTokenSize) →
      '\n' ∉ long.data → GoStr.maxScanTokenSize ≤ byteSize long.data →
      ∃ m : HostMap,
        SshV2.loadHostsFromFile (some (fileOf (pre ++ long :: post))) [] = SshV2.Load.fatal m ∧
        RegistryOf pre m) ∧
    SshV2.loadHostsFromFile (some "10.0.0.5 ,w1\n") [] = SshV2.Load.done [("10.0.0.5", "")] := by
  refine ⟨?_, ?_, ?_, ?_, by decide⟩
  · intro file
    cases file with
    | none => simp [SshV2.loadHostsFromFile]
    | some content =>
      rw [SshV2.loadHostsFromFile_eq]
      split <;> simp
  · intro content
    exact ⟨_, registryOf_setAll _, SshV2.loadHostsFromFile_eq content []⟩
  · intro lines hlines
    have hscan := GoStr.scanLines_fileOf lines hlines
    have hscan' := GoStr.scanLines_fileOf
      (lines.filter (fun l => decide (2 ≤ (GoStr.Fields l).length)))
      (fun l hl => hlines l (List.mem_of_mem_filter hl))
    refine ⟨HostMap.setAll [] (lines.filterMap entryOf), ?_, registryOf_setAll lines, ?_⟩
    · rw [SshV2.loadHostsFromFile_eq, hscan]
      simp
    · rw [SshV2.loadHostsFromFile_eq, hscan']
      simp [filterMap_entryOf_filter]
  · intro pre post long hpre hl hsize
    have hscan := GoStr.scanLines_fileOf_long pre post long hpre hl hsize
    refine ⟨HostMap.setAll [] (pre.filterMap entryOf), ?_, registryOf_setAll pre⟩
    rw [SshV2.loadHostsFromFile_eq, hscan]
    simp

/-- Witness for C10 (amended): a later line overwrites the label of an earlier one, and
blank and one-column lines are skipped. -/
theorem SshV2.loadHostsFromFile_registry_witness :
    ∃ m : HostMap,
      SshV2.loadHostsFromFile
        (some (fileOf ["10.0.0.5 old", "10.0.0.5 new,alias", "", "lonely"])) [] =
        SshV2.Load.done m ∧
      m.get? "10.0.0.5" = some "new" := by
  obtain ⟨m, hm, hreg, _⟩ := SshV2.loadHostsFromFile_registry.2.2.1
    ["10.0.0.5 old", "10.0.0.5 new,alias", "", "lonely"]
    (by
      intro l hl
      simp only [List.mem_cons, List.mem_singleton, List.not_mem_nil, or_false] at hl
      rcases hl with h | h | h | h <;> subst h <;>
        exact ⟨⟨by decide, by decide⟩, by decide⟩)
  exact ⟨m, hm, hreg.2.2.1 ["10.0.0.5 old"] "10.0.0.5 new,alias" ["", "lonely"] "10.0.0.5"
    "new,alias" rfl (by decide) (by decide) (by decide)⟩

/-- C2: for every registry with `n` distinct addresses, every order in which
the two nested `range hosts` loops yield the addresses, and every environment
in which all commands succeed, `setupSSH` of the first SSH variant runs to the
end and its trace holds exactly one inter-host key copy for each ordered pair
`(a, b)` of distinct registry addresses, none for a self-pair, `n * (n - 1)`
inter-host key copies in all, exactly one direct key copy per host and `n`
direct key copies in all. -/
theorem SshV1.setupSSH_key_copies (registry : HostMap) (env : Env Cmd)
    (outer : List String) (inner : String → List String)
    (hnd : registry.keys.Nodup)
    (houter : outer.Perm registry.keys)
    (hinner : ∀ ip ∈ registry.keys, (inner ip).Perm registry.keys)
    (hok : ∀ h c, (env h c).ok = true) :
    (SshV1.setupSSH env outer inner []).alive = true ∧
    (∀ a ∈ registry.keys, ∀ b ∈ registry.keys, a ≠ b →
      (cmdsOf (SshV1.setupSSH env outer inner []).trace).count
        (SshV1.interCopyKeyCmd a b) = 1) ∧
    (∀ a, (cmdsOf (SshV1.setupSSH env outer inner []).trace).count
        (SshV1.interCopyKeyCmd a a) = 0) ∧
    (cmdsOf (SshV1.setupSSH env outer inner []).trace).countP SshV1.isInterCopyKey =
      registry.keys.length * (registry.keys.length - 1) ∧
    (∀ a ∈ registry.keys,
      (cmdsOf (SshV1.setupSSH env outer inner []).trace).count (SshV1.copyKeyCmd a) = 1) ∧
    (cmdsOf (SshV1.setupSSH env outer inner []).trace).countP SshV1.isCopyKey =
      registry.keys.length := by
  have hcount : ∀ q, countCmd q (SshV1.setupSSH env outer inner []).trace =
      (outer.map (fanout SshV1.copyKeyCmd SshV1.interCopyKeyCmd q inner)).sum := by
    intro q
    have := (SshV1.v1_setupSSH_countCmd env hok q outer inner []).2
    simpa [countCmd] using this
  have hout : ∀ a ∈ registry.keys, outer.count a = 1 := by
    intro a ha
    rw [houter.count_eq]
    exact List.count_eq_one_of_mem hnd ha
  have hin : ∀ a ∈ registry.keys, ∀ b ∈ registry.keys, (inner a).count b = 1 := by
    intro a ha b hb
    rw [(hinner a ha).count_eq]
    exact List.count_eq_one_of_mem hnd hb
  refine ⟨(SshV1.v1_setupSSH_countCmd env hok (fun _ => true) outer inner []).1, ?_, ?_, ?_, ?_, ?_⟩
  · intro a ha b hb hab
    rw [count_cmdsOf, hcount]
    exact sum_fanout_pair _ _ a b outer inner
      (fun x y => SshV1.v1_interCopyKeyCmd_inj x y a b)
      (fun x => SshV1.v1_copyKeyCmd_ne_inter x a b) hab (hout a ha) (hin a ha b hb)
  · intro a
    rw [count_cmdsOf, hcount]
    exact sum_fanout_self _ _ a outer inner
      (fun x y => SshV1.v1_interCopyKeyCmd_inj x y a a)
      (fun x => SshV1.v1_copyKeyCmd_ne_inter x a a)
  · rw [countP_cmdsOf, hcount]
    exact sum_fanout_inter_class _ _ _ SshV1.v1_isInterCopyKey_copy SshV1.v1_isInterCopyKey_inter
      registry.keys outer inner hnd houter hinner
  · intro a ha
    rw [count_cmdsOf, hcount, sum_fanout_single _ _ a outer inner
      (fun x => SshV1.v1_copyKeyCmd_inj x a)
      (fun x y hc => SshV1.v1_copyKeyCmd_ne_inter a x y hc.symm)]
    exact hout a ha
  · rw [countP_cmdsOf, hcount, sum_fanout_direct_class _ _ _ SshV1.v1_isCopyKey_copy
      SshV1.v1_isCopyKey_inter, houter.length_eq]

/-- Witness for C2: the compiled-in registry of five hosts, iterated in
storage order by the outer loop and in reverse order by the inner loops,
with every command succeeding: twenty inter-host key copies. -/
theorem SshV1.setupSSH_key_copies_witness :
    (cmdsOf (SshV1.setupSSH (fun _ _ => ⟨"", true⟩) SshV1.hosts.keys
        (fun _ => SshV1.hosts.keys.reverse) []).trace).countP SshV1.isInterCopyKey = 5 * (5 - 1) :=
  (SshV1.setupSSH_key_copies SshV1.hosts (fun _ _ => ⟨"", true⟩) SshV1.hosts.keys
    (fun _ => SshV1.hosts.keys.reverse) (by decide) (List.Perm.refl _)
    (fun _ _ => List.reverse_perm _) (fun _ _ => rfl)).2.2.2.1

/-- Counterexample to C3 as stated: two hosts, every command succeeds and prints
`success`; `setupSSH` of the second SSH variant then runs to the end without a
single inter-host key copy, although the claim promises `2 * (2 - 1)`. -/
theorem SshV2.setupSSH_marked_pairs_not_copied :
    (∀ h c, ((fun _ _ => ⟨"success", true⟩ : Env Cmd) h c).ok = true) ∧
    (SshV2.setupSSH (fun _ _ => ⟨"success", true⟩) "user" "pw" ["10.0.0.1", "10.0.0.2"]
      (fun _ => ["10.0.0.1", "10.0.0.2"]) []).alive = true ∧
    SshV2.interCopyKeyCmd "user" "pw" "10.0.0.1" "10.0.0.2" ∉
      cmdsOf (SshV2.setupSSH (fun _ _ => ⟨"success", true⟩) "user" "pw"
        ["10.0.0.1", "10.0.0.2"] (fun _ => ["10.0.0.1", "10.0.0.2"]) []).trace ∧
    (cmdsOf (SshV2.setupSSH (fun _ _ => ⟨"success", true⟩) "user" "pw"
        ["10.0.0.1", "10.0.0.2"] (fun _ => ["10.0.0.1", "10.0.0.2"]) []).trace).countP
      SshV2.isInterCopyKey ≠ 2 * (2 - 1) := by
  refine ⟨fun _ _ => rfl, ?_, ?_, ?_⟩ <;> decide

/-- C3 (amended): in the second SSH variant, for every registry with `n` distinct
addresses, every iteration order and every environment in which all commands
succeed, `setupSSH` runs to the end; for every ordered pair `(a, b)` of
distinct registry addresses the inter-host probe is run exactly once, and the
inter-host key copy for `(a, b)` is issued (at most once) exactly when the
output of that probe does not contain `success`.  The number of inter-host
key copies plus the number of inter-host probes showing `success` is
`n * (n - 1)`; it is `n * (n - 1)` copies when no inter-host probe shows the
marker. -/
theorem SshV2.setupSSH_pair_copies (registry : HostMap) (env : Env Cmd)
    (sshUser sshPassword : String) (outer : List String) (inner : String → List String)
    (hnd : registry.keys.Nodup)
    (houter : outer.Perm registry.keys)
    (hinner : ∀ ip ∈ registry.keys, (inner ip).Perm registry.keys)
    (hok : ∀ h c, (env h c).ok = true) :
    (SshV2.setupSSH env sshUser sshPassword outer inner []).alive = true ∧
    (∀ a ∈ registry.keys, ∀ b ∈ registry.keys, a ≠ b →
      (cmdsOf (SshV2.setupSSH env sshUser sshPassword outer inner []).trace).count
          (SshV2.checkInterSSHCmd sshUser a b) = 1 ∧
      (cmdsOf (SshV2.setupSSH env sshUser sshPassword outer inner []).trace).count
          (SshV2.interCopyKeyCmd sshUser sshPassword a b) ≤ 1 ∧
      (SshV2.interCopyKeyCmd sshUser sshPassword a b ∈
          cmdsOf (SshV2.setupSSH env sshUser sshPassword outer inner []).trace ↔
        ∃ e ∈ (SshV2.setupSSH env sshUser sshPassword outer inner []).trace,
          e.cmd = SshV2.checkInterSSHCmd sshUser a b ∧
          GoStr.Contains e.res.output "success" = false)) ∧
    (cmdsOf (SshV2.setupSSH env sshUser sshPassword outer inner []).trace).countP
        SshV2.isInterCopyKey +
      countMarked SshV2.isCheckInterSSH "success"
        (SshV2.setupSSH env sshUser sshPassword outer inner []).trace =
      registry.keys.length * (registry.keys.length - 1) ∧
    ((∀ e ∈ (SshV2.setupSSH env sshUser sshPassword outer inner []).trace,
        SshV2.isCheckInterSSH e.cmd = true → GoStr.Contains e.res.output "success" = false) →
      (cmdsOf (SshV2.setupSSH env sshUser sshPassword outer inner []).trace).countP
        SshV2.isInterCopyKey = registry.keys.length * (registry.keys.length - 1)) := by
  have hout : ∀ a ∈ registry.keys, outer.count a = 1 := by
    intro a ha
    rw [houter.count_eq]
    exact List.count_eq_one_of_mem hnd ha
  have hin : ∀ a ∈ registry.keys, ∀ b ∈ registry.keys, (inner a).count b = 1 := by
    intro a ha b hb
    rw [(hinner a ha).count_eq]
    exact List.count_eq_one_of_mem hnd hb
  have htotal : countCmd SshV2.isInterCopyKey
        (SshV2.setupSSH env sshUser sshPassword outer inner []).trace +
      countMarked SshV2.isCheckInterSSH "success"
        (SshV2.setupSSH env sshUser sshPassword outer inner []).trace =
      registry.keys.length * (registry.keys.length - 1) := by
    have hbal := SshV2.setupSSH_balance env sshUser sshPassword
      SshV2.isCheckInterSSH SshV2.isInterCopyKey
      (fun ip => SshV2.isInterCopyKey_checkSSH sshUser ip)
      (fun ip => SshV2.isCheckInterSSH_copyKey sshUser sshPassword ip)
      (fun ip => by
        rw [SshV2.isInterCopyKey_copyKey, SshV2.isCheckInterSSH_checkSSH])
      (fun ip sub => SshV2.isInterCopyKey_checkInter sshUser ip sub)
      (fun ip sub => SshV2.isCheckInterSSH_interCopy sshUser sshPassword ip sub)
      (fun ip sub => by
        rw [SshV2.isInterCopyKey_interCopy, SshV2.isCheckInterSSH_checkInter])
      outer inner [] (by simp [countCmd, countMarked])
    have hcnt := (SshV2.setupSSH_count_eq env sshUser sshPassword (fun h _ => hok h _)
      (fun h _ _ => hok h _) SshV2.isCheckInterSSH
      (fun ip => SshV2.isCheckInterSSH_copyKey sshUser sshPassword ip)
      (fun ip sub => SshV2.isCheckInterSSH_interCopy sshUser sshPassword ip sub)
      outer inner []).2
    rw [sum_fanout_inter_class _ _ _ (SshV2.isCheckInterSSH_checkSSH sshUser)
      (SshV2.isCheckInterSSH_checkInter sshUser) registry.keys outer inner hnd houter hinner]
      at hcnt
    simp only [countCmd, List.countP_nil, Nat.zero_add] at hcnt
    rw [hbal]
    simpa [countCmd] using hcnt
  refine ⟨(SshV2.setupSSH_count_eq env sshUser sshPassword (fun h _ => hok h _)
    (fun h _ _ => hok h _) (fun _ => false)
    (fun _ => rfl) (fun _ _ => rfl) outer inner []).1, ?_, ?_, ?_⟩
  · intro a ha b hb hab
    have hbal := SshV2.setupSSH_balance env sshUser sshPassword
      (fun c => c == SshV2.checkInterSSHCmd sshUser a b)
      (fun c => c == SshV2.interCopyKeyCmd sshUser sshPassword a b)
      (fun ip => by simpa using SshV2.checkSSHCmd_ne_interCopy sshUser sshPassword ip a b)
      (fun ip => by simpa using SshV2.copyKeyCmd_ne_checkInter sshUser sshPassword ip a b)
      (fun ip => by
        have h1 := SshV2.copyKeyCmd_ne_interCopy sshUser sshPassword ip a b
        have h2 := SshV2.checkSSHCmd_ne_checkInter sshUser ip a b
        simp [h1, h2])
      (fun ip sub => by
        simpa using SshV2.checkInter_ne_interCopy sshUser sshPassword ip sub a b)
      (fun ip sub => by
        simpa using fun hc =>
          SshV2.checkInter_ne_interCopy sshUser sshPassword a b ip sub hc.symm)
      (fun ip sub => by
        simp [SshV2.interCopyKeyCmd_inj, SshV2.checkInterSSHCmd_inj])
      outer inner [] (by simp [countCmd, countMarked])
    have hcnt := (SshV2.setupSSH_count_eq env sshUser sshPassword (fun h _ => hok h _)
      (fun h _ _ => hok h _)
      (fun c => c == SshV2.checkInterSSHCmd sshUser a b)
      (fun ip => by simpa using SshV2.copyKeyCmd_ne_checkInter sshUser sshPassword ip a b)
      (fun ip sub => by
        simpa using fun hc =>
          SshV2.checkInter_ne_interCopy sshUser sshPassword a b ip sub hc.symm)
      outer inner []).2
    rw [sum_fanout_pair _ _ a b outer inner
      (fun x y => SshV2.checkInterSSHCmd_inj sshUser x y a b)
      (fun x => SshV2.checkSSHCmd_ne_checkInter sshUser x a b) hab (hout a ha)
      (hin a ha b hb)] at hcnt
    simp only [countCmd, List.countP_nil, Nat.zero_add] at hcnt
    have hP : countCmd (fun c => c == SshV2.checkInterSSHCmd sshUser a b)
        (SshV2.setupSSH env sshUser sshPassword outer inner []).trace = 1 := hcnt
    rw [hP] at hbal
    have hsplit := countCmd_split (fun c => c == SshV2.checkInterSSHCmd sshUser a b) "success"
      (SshV2.setupSSH env sshUser sshPassword outer inner []).trace
    rw [hP] at hsplit
    refine ⟨by rw [count_cmdsOf]; exact hP, by rw [count_cmdsOf]; omega, ?_⟩
    rw [← List.count_pos_iff, count_cmdsOf]
    constructor
    · intro hpos
      have hz : (SshV2.setupSSH env sshUser sshPassword outer inner []).trace.countP
          (fun e => (e.cmd == SshV2.checkInterSSHCmd sshUser a b) &&
            !GoStr.Contains e.res.output "success") > 0 := by omega
      obtain ⟨e, he, hp⟩ := List.countP_pos_iff.1 hz
      refine ⟨e, he, ?_⟩
      simpa using hp
    · rintro ⟨e, he, hc, hm⟩
      have hz : 0 < (SshV2.setupSSH env sshUser sshPassword outer inner []).trace.countP
          (fun e => (e.cmd == SshV2.checkInterSSHCmd sshUser a b) &&
            !GoStr.Contains e.res.output "success") :=
        List.countP_pos_iff.2 ⟨e, he, by simp [hc, hm]⟩
      omega
  · rw [countP_cmdsOf]
    exact htotal
  · intro hno
    rw [countP_cmdsOf]
    have hz : countMarked SshV2.isCheckInterSSH "success"
        (SshV2.setupSSH env sshUser sshPassword outer inner []).trace = 0 := by
      unfold countMarked
      rw [List.countP_eq_zero]
      intro e he hc
      simp only [Bool.and_eq_true] at hc
      have := hno e he hc.1
      rw [this] at hc
      exact absurd hc.2 (by simp)
    omega

/-- Witness for C3 (amended): three hosts, every command succeeds; only the inter-host
probes relayed through `10.0.0.1` print `success`; the two pairs starting at
`10.0.0.1` are skipped and the other four are copied. -/
theorem SshV2.setupSSH_pair_copies_witness :
    (cmdsOf (SshV2.setupSSH
        (fun _ c => ⟨if c.get? 1 = some "root@10.0.0.1" then "success" else "denied", true⟩)
        "root" "pw" ["10.0.0.2", "10.0.0.1", "10.0.0.3"]
        (fun _ => ["10.0.0.3", "10.0.0.2", "10.0.0.1"]) []).trace).countP
        SshV2.isInterCopyKey +
      countMarked SshV2.isCheckInterSSH "success"
        (SshV2.setupSSH
          (fun _ c => ⟨if c.get? 1 = some "root@10.0.0.1" then "success" else "denied", true⟩)
          "root" "pw" ["10.0.0.2", "10.0.0.1", "10.0.0.3"]
          (fun _ => ["10.0.0.3", "10.0.0.2", "10.0.0.1"]) []).trace = 3 * (3 - 1) :=
  (SshV2.setupSSH_pair_copies [("10.0.0.1", "a"), ("10.0.0.2", "b"), ("10.0.0.3", "c")]
    (fun _ c => ⟨if c.get? 1 = some "root@10.0.0.1" then "success" else "denied", true⟩)
    "root" "pw" ["10.0.0.2", "10.0.0.1", "10.0.0.3"]
    (fun _ => ["10.0.0.3", "10.0.0.2", "10.0.0.1"])
    (by decide) (by decide)
    (fun _ _ => (by decide : ["10.0.0.3", "10.0.0.2", "10.0.0.1"].Perm
      (HostMap.keys [("10.0.0.1", "a"), ("10.0.0.2", "b"), ("10.0.0.3", "c")])))
    (fun _ _ => rfl)).2.2.1

/-- C4: in the second SSH variant, for every registry of distinct addresses, every
iteration order and every environment: if a probe event of `generateSSHKey`,
`configurePasswordlessSudo` or `setupSSH` for a host `h` shows that step's
marker (`exists`, `passwordless`, `success`), the trace of that step holds no
mutating command for `h` (`ssh-keygen`, sudoers write, direct `ssh-copy-id`);
if the inter-host probe of `setupSSH` for a pair `(a, b)` shows `success`, the
trace holds no inter-host key copy for `(a, b)`.  Skipping does not stop the
loops: when the mutating commands of a step succeed, the step runs to the end
and probes every host (and `setupSSH` every ordered pair of distinct hosts),
whatever the probes show and whatever their exit status. -/
theorem SshV2.marked_steps_not_repeated (registry : HostMap) (env : Env Cmd)
    (sshUser sshPassword : String) (order outer : List String)
    (inner : String → List String)
    (hnd : registry.keys.Nodup)
    (horder : order.Perm registry.keys)
    (houter : outer.Perm registry.keys)
    (hinner : ∀ ip ∈ registry.keys, (inner ip).Perm registry.keys) :
    (∀ h ∈ registry.keys,
      (∃ e ∈ (SshV2.generateSSHKey env sshUser sshPassword order []).trace,
        e.cmd = SshV2.keyCheckCmd sshUser sshPassword h ∧
        GoStr.Contains e.res.output "exists" = true) →
      SshV2.keyGenCmd sshUser sshPassword h ∉
        cmdsOf (SshV2.generateSSHKey env sshUser sshPassword order []).trace) ∧
    (∀ h ∈ registry.keys,
      (∃ e ∈ (SshV2.configurePasswordlessSudo env sshUser sshPassword order []).trace,
        e.cmd = SshV2.sudoCheckCmd sshUser sshPassword h ∧
        GoStr.Contains e.res.output "passwordless" = true) →
      SshV2.sudoCmd sshUser sshPassword h ∉
        cmdsOf (SshV2.configurePasswordlessSudo env sshUser sshPassword order []).trace) ∧
    (∀ h ∈ registry.keys,
      (∃ e ∈ (SshV2.setupSSH env sshUser sshPassword outer inner []).trace,
        e.cmd = SshV2.checkSSHCmd sshUser h ∧
        GoStr.Contains e.res.output "success" = true) →
      SshV2.copyKeyCmd sshUser sshPassword h ∉
        cmdsOf (SshV2.setupSSH env sshUser sshPassword outer inner []).trace) ∧
    (∀ a ∈ registry.keys, ∀ b ∈ registry.keys, a ≠ b →
      (∃ e ∈ (SshV2.setupSSH env sshUser sshPassword outer inner []).trace,
        e.cmd = SshV2.checkInterSSHCmd sshUser a b ∧
        GoStr.Contains e.res.output "success" = true) →
      SshV2.interCopyKeyCmd sshUser sshPassword a b ∉
        cmdsOf (SshV2.setupSSH env sshUser sshPassword outer inner []).trace) ∧
    ((∀ t ip, (env t (SshV2.keyGenCmd sshUser sshPassword ip)).ok = true) →
      (SshV2.generateSSHKey env sshUser sshPassword order []).alive = true ∧
        ∀ h ∈ registry.keys, SshV2.keyCheckCmd sshUser sshPassword h ∈
          cmdsOf (SshV2.generateSSHKey env sshUser sshPassword order []).trace) ∧
    ((∀ t ip, (env t (SshV2.sudoCmd sshUser sshPassword ip)).ok = true) →
      (SshV2.configurePasswordlessSudo env sshUser sshPassword order []).alive = true ∧
        ∀ h ∈ registry.keys, SshV2.sudoCheckCmd sshUser sshPassword h ∈
          cmdsOf (SshV2.configurePasswordlessSudo env sshUser sshPassword order []).trace) ∧
    ((∀ t ip, (env t (SshV2.copyKeyCmd sshUser sshPassword ip)).ok = true) →
      (∀ t ip sub, (env t (SshV2.interCopyKeyCmd sshUser sshPassword ip sub)).ok = true) →
      ((SshV2.setupSSH env sshUser sshPassword outer inner []).alive = true ∧
        (∀ h ∈ registry.keys, SshV2.checkSSHCmd sshUser h ∈
          cmdsOf (SshV2.setupSSH env sshUser sshPassword outer inner []).trace) ∧
        (∀ a ∈ registry.keys, ∀ b ∈ registry.keys, a ≠ b →
          SshV2.checkInterSSHCmd sshUser a b ∈
            cmdsOf (SshV2.setupSSH env sshUser sshPassword outer inner []).trace))) := by
  have hnd_order : order.Nodup := horder.nodup_iff.2 hnd
  have hnd_outer : outer.Nodup := houter.nodup_iff.2 hnd
  have hgen := gated_loop_facts env (SshV2.keyCheckCmd sshUser sshPassword)
    (SshV2.keyGenCmd sshUser sshPassword) "exists"
    (SshV2.keyCheckCmd_inj sshUser sshPassword) (SshV2.keyGenCmd_inj sshUser sshPassword)
    (SshV2.keyCheckCmd_ne_keyGenCmd sshUser sshPassword) order hnd_order
  have hsudo := gated_loop_facts env (SshV2.sudoCheckCmd sshUser sshPassword)
    (SshV2.sudoCmd sshUser sshPassword) "passwordless"
    (SshV2.sudoCheckCmd_inj sshUser sshPassword) (SshV2.sudoCmd_inj sshUser sshPassword)
    (SshV2.sudoCheckCmd_ne_sudoCmd sshUser sshPassword) order hnd_order
  rw [← SshV2.generateSSHKey_eq] at hgen
  rw [← SshV2.configurePasswordlessSudo_eq] at hsudo
  refine ⟨fun h _ => hgen.1 h, fun h _ => hsudo.1 h, ?_, ?_,
    fun hok => ⟨(hgen.2 hok).1, fun h hh => (hgen.2 hok).2 h (horder.mem_iff.2 hh)⟩,
    fun hok => ⟨(hsudo.2 hok).1, fun h hh => (hsudo.2 hok).2 h (horder.mem_iff.2 hh)⟩, ?_⟩
  · intro h _ hev
    apply not_mem_cmdsOf_of_count
    refine no_mutation_of_marked (fun c => c == SshV2.checkSSHCmd sshUser h)
      (fun c => c == SshV2.copyKeyCmd sshUser sshPassword h) "success" _
      (SshV2.setupSSH_direct_balance env sshUser sshPassword h outer inner)
      (SshV2.setupSSH_direct_probes_le env sshUser sshPassword h outer inner hnd_outer) ?_
    obtain ⟨e, he, hc, hm⟩ := hev
    exact ⟨e, he, by simp [hc], hm⟩
  · intro a ha b _ _ hev
    apply not_mem_cmdsOf_of_count
    refine no_mutation_of_marked (fun c => c == SshV2.checkInterSSHCmd sshUser a b)
      (fun c => c == SshV2.interCopyKeyCmd sshUser sshPassword a b) "success" _
      (SshV2.setupSSH_pair_balance env sshUser sshPassword a b outer inner)
      (SshV2.setupSSH_pair_probes_le env sshUser sshPassword a b outer inner hnd_outer
        ((hinner a ha).nodup_iff.2 hnd)) ?_
    obtain ⟨e, he, hc, hm⟩ := hev
    exact ⟨e, he, by simp [hc], hm⟩
  · intro hok1 hok2
    have hall := SshV2.setupSSH_probes_all env sshUser sshPassword hok1 hok2 outer inner
    exact ⟨(SshV2.setupSSH_count_eq env sshUser sshPassword hok1 hok2 (fun _ => false)
        (fun _ => rfl) (fun _ _ => rfl) outer inner []).1,
      fun h hh => hall.1 h (houter.mem_iff.2 hh),
      fun a ha b hb hab => hall.2 a (houter.mem_iff.2 ha) b ((hinner a ha).mem_iff.2 hb) hab⟩

/-- Witness for C4: two hosts; the key probe prints `exists` on `10.0.0.1` only, so no
`ssh-keygen` is issued for `10.0.0.1`. -/
theorem SshV2.marked_steps_not_repeated_witness :
    SshV2.keyGenCmd "root" "pw" "10.0.0.1" ∉
      cmdsOf (SshV2.generateSSHKey
        (fun _ c => ⟨if c.get? 7 = some "root@10.0.0.1" then "exists\r\n" else "", true⟩)
        "root" "pw" ["10.0.0.2", "10.0.0.1"] []).trace :=
  (SshV2.marked_steps_not_repeated [("10.0.0.1", "a"), ("10.0.0.2", "b")]
    (fun _ c => ⟨if c.get? 7 = some "root@10.0.0.1" then "exists\r\n" else "", true⟩)
    "root" "pw" ["10.0.0.2", "10.0.0.1"] ["10.0.0.1", "10.0.0.2"]
    (fun _ => ["10.0.0.1", "10.0.0.2"])
    (by decide) (by decide) (by decide)
    (fun _ _ => (by decide : ["10.0.0.1", "10.0.0.2"].Perm
      (HostMap.keys [("10.0.0.1", "a"), ("10.0.0.2", "b")])))).1
    "10.0.0.1" (by decide) (by decide)

/-- Counterexample to C6 as stated: the probe prints a login banner before the marker, so
its output contains `exists`; the code compares the trimmed output with
`exists`, goes on to `kubeadm init` and the token creation, returns the
non-empty join command `kubeadm join 10.0.0.1:6443`, and the workers are
joined. -/
theorem K8s.initControlPlane_banner_not_skipped :
    GoStr.Contains "Welcome to Ubuntu\nexists\n" "exists" = true ∧
    (K8s.initControlPlane
      (fun _ c => if c = K8s.Cmd.ssh "control-plane" K8s.manifestCheckScript
        then ⟨"Welcome to Ubuntu\nexists\n", true⟩
        else ⟨"kubeadm join 10.0.0.1:6443\n", true⟩) []).2 =
      ("kubeadm join 10.0.0.1:6443", true) ∧
    cmdsOf (K8s.bootstrap
      (fun _ c => if c = K8s.Cmd.ssh "control-plane" K8s.manifestCheckScript
        then ⟨"Welcome to Ubuntu\nexists\n", true⟩
        else ⟨"kubeadm join 10.0.0.1:6443\n", true⟩) []).1 =
      [K8s.Cmd.ssh "control-plane" K8s.manifestCheckScript,
       K8s.Cmd.ssh "control-plane" K8s.kubeadmInitCmd,
       K8s.Cmd.ssh "control-plane" K8s.copyAdminConfCmd,
       K8s.Cmd.ssh "control-plane" K8s.tokenCreateCmd,
       K8s.Cmd.ssh "worker-node1" "sudo kubeadm join 10.0.0.1:6443",
       K8s.Cmd.ssh "worker-node2" "sudo kubeadm join 10.0.0.1:6443",
       K8s.Cmd.ssh "worker-node3" "sudo kubeadm join 10.0.0.1:6443",
       K8s.Cmd.sh K8s.remoteKubectlScript,
       K8s.Cmd.ssh "control-plane" "kubectl create -f https://raw.githubusercontent.com/projectcalico/calico/v3.25.0/manifests/tigera-operator.yaml",
       K8s.Cmd.ssh "control-plane" "kubectl apply -f https://docs.projectcalico.org/manifests/calico.yaml"] := by
  refine ⟨?_, ?_, ?_⟩ <;> decide

/-- C6 (amended): whenever the output of the manifest-presence probe on the control plane
is the marker `exists` surrounded by white space only (the code compares the
trimmed output with `exists`), `initControlPlane` returns the empty join
command and no error after the probe alone: neither `kubeadm init` nor the
token creation is issued.  `joinWorkerNodes` called with the empty join
command issues no command and returns success, so that the bootstrap goes
straight from the probe to the remote-kubectl step. -/
theorem K8s.initControlPlane_already_initialised (env : Env K8s.Cmd) (tr : K8s.Trace)
    (l r : List Char)
    (hl : ∀ c ∈ l, GoStr.isSpace c = true) (hr : ∀ c ∈ r, GoStr.isSpace c = true)
    (hout : (env tr (K8s.Cmd.ssh "control-plane" K8s.manifestCheckScript)).output.data =
      l ++ "exists".data ++ r) :
    K8s.initControlPlane env tr =
      (tr ++ [⟨K8s.Cmd.ssh "control-plane" K8s.manifestCheckScript,
        env tr (K8s.Cmd.ssh "control-plane" K8s.manifestCheckScript)⟩], "", true) ∧
    K8s.Cmd.ssh "control-plane" K8s.kubeadmInitCmd ∉
      cmdsOf ((K8s.initControlPlane env tr).1.drop tr.length) ∧
    K8s.Cmd.ssh "control-plane" K8s.tokenCreateCmd ∉
      cmdsOf ((K8s.initControlPlane env tr).1.drop tr.length) ∧
    (∀ (env' : Env K8s.Cmd) (tr' : K8s.Trace), K8s.joinWorkerNodes env' "" tr' = (tr', true)) ∧
    K8s.bootstrap env tr =
      K8s.andThen
        (K8s.setupRemoteKubectl env
          (tr ++ [⟨K8s.Cmd.ssh "control-plane" K8s.manifestCheckScript,
            env tr (K8s.Cmd.ssh "control-plane" K8s.manifestCheckScript)⟩]))
        (K8s.installNetworkPlugin env) := by
  have hmatch : GoStr.TrimSpace
      (env tr (K8s.Cmd.ssh "control-plane" K8s.manifestCheckScript)).output = "exists" :=
    (GoStr.TrimSpace_eq_iff _ "exists".data "xists".data "tsixe".data 'e' 's'
      rfl rfl (by decide) (by decide)).2 ⟨l, r, hl, hr, hout⟩
  have h := K8s.initControlPlane_match env tr hmatch
  have hj : ∀ (env' : Env K8s.Cmd) (tr' : K8s.Trace),
      K8s.joinWorkerNodes env' "" tr' = (tr', true) := by
    intro env' tr'
    simp [K8s.joinWorkerNodes]
  refine ⟨h, ?_, ?_, hj, ?_⟩
  · rw [h]
    simp only [List.drop_left, cmdsOf, List.map_cons, List.map_nil, List.mem_singleton]
    decide
  · rw [h]
    simp only [List.drop_left, cmdsOf, List.map_cons, List.map_nil, List.mem_singleton]
    decide
  · unfold K8s.bootstrap
    rw [h]
    simp only [hj]
    simp [K8s.andThen]

/-- Witness for C6 (amended): the probe prints `exists` followed by a line end. -/
theorem K8s.initControlPlane_already_initialised_witness :
    K8s.initControlPlane (fun _ _ => ⟨"exists\n", true⟩) [] =
      ([⟨K8s.Cmd.ssh "control-plane" K8s.manifestCheckScript, ⟨"exists\n", true⟩⟩], "", true) :=
  (K8s.initControlPlane_already_initialised (fun _ _ => ⟨"exists\n", true⟩) []
    [] ['\n'] (by decide) (by decide) rfl).1

/-- Counterexample to C8 as stated: the probe output `File exists` contains the marker
`exists`, yet `initControlPlane` goes on to `kubeadm init` and the certificate
step goes on to `scp`. -/
theorem K8s.exists_probe_not_substring_match :
    GoStr.Contains "File exists" "exists" = true ∧
    K8s.Cmd.ssh "control-plane" K8s.kubeadmInitCmd ∈
      cmdsOf (K8s.initControlPlane (fun _ _ => ⟨"File exists", true⟩) []).1 ∧
    K8s.Cmd.sh (K8s.certScpScript "control-plane" "/home/user/KAINOS-ROOT-CA_G2.crt") ∈
      cmdsOf (K8s.copyCertificate (fun _ _ => ⟨"File exists", true⟩) "control-plane"
        "/home/user/KAINOS-ROOT-CA_G2.crt" []).1 := by
  refine ⟨?_, ?_, ?_⟩ <;> decide

/-- C8 (amended): the certificate-presence probe of `copyCertificates` and the
manifest-presence probe of `initControlPlane` look at the returned text only,
never at the exit status: the step is skipped (the probe is the only new event
and no error is returned) when the text with leading and trailing white space
removed equals `exists`, that is when the text is `exists` surrounded by white
space only; otherwise the mutating command (`scp`, `kubeadm init`) is the next
event.  A matching text contains the marker, but containing it is not enough. -/
theorem K8s.exists_probes_match_trimmed_text (env : Env K8s.Cmd) (node certPath : String)
    (tr : K8s.Trace) (out : String) (ok : Bool) :
    (env tr (K8s.Cmd.ssh node (K8s.certCheckScript certPath)) = ⟨out, ok⟩ →
      (GoStr.TrimSpace out = "exists" →
        K8s.copyCertificate env node certPath tr =
          (tr ++ [⟨K8s.Cmd.ssh node (K8s.certCheckScript certPath), ⟨out, ok⟩⟩], true)) ∧
      (GoStr.TrimSpace out ≠ "exists" →
        ∃ r rest, (K8s.copyCertificate env node certPath tr).1 =
          tr ++ ⟨K8s.Cmd.ssh node (K8s.certCheckScript certPath), ⟨out, ok⟩⟩ ::
            ⟨K8s.Cmd.sh (K8s.certScpScript node certPath), r⟩ :: rest)) ∧
    (env tr (K8s.Cmd.ssh "control-plane" K8s.manifestCheckScript) = ⟨out, ok⟩ →
      (GoStr.TrimSpace out = "exists" →
        K8s.initControlPlane env tr =
          (tr ++ [⟨K8s.Cmd.ssh "control-plane" K8s.manifestCheckScript, ⟨out, ok⟩⟩],
            "", true)) ∧
      (GoStr.TrimSpace out ≠ "exists" →
        ∃ r rest, (K8s.initControlPlane env tr).1 =
          tr ++ ⟨K8s.Cmd.ssh "control-plane" K8s.manifestCheckScript, ⟨out, ok⟩⟩ ::
            ⟨K8s.Cmd.ssh "control-plane" K8s.kubeadmInitCmd, r⟩ :: rest)) ∧
    (GoStr.TrimSpace out = "exists" ↔
      ∃ l r : List Char, (∀ c ∈ l, GoStr.isSpace c = true) ∧
        (∀ c ∈ r, GoStr.isSpace c = true) ∧ out.data = l ++ "exists".data ++ r) ∧
    (GoStr.TrimSpace out = "exists" → GoStr.Contains out "exists" = true) := by
  refine ⟨?_, ?_, ?_, GoStr.Contains_of_TrimSpace_eq out "exists"⟩
  · intro henv
    constructor
    · intro hm
      have := K8s.copyCertificate_match env node certPath tr (by rw [henv]; exact hm)
      rw [henv] at this
      exact this
    · intro hm
      obtain ⟨rest, h⟩ := K8s.copyCertificate_no_match env node certPath tr
        (by rw [henv]; exact hm)
      rw [henv] at h
      exact ⟨_, rest, h⟩
  · intro henv
    constructor
    · intro hm
      have := K8s.initControlPlane_match env tr (by rw [henv]; exact hm)
      rw [henv] at this
      exact this
    · intro hm
      obtain ⟨rest, h⟩ := K8s.initControlPlane_no_match env tr (by rw [henv]; exact hm)
      rw [henv] at h
      exact ⟨_, rest, h⟩
  · exact GoStr.TrimSpace_eq_iff out "exists".data "xists".data "tsixe".data 'e' 's'
      rfl rfl (by decide) (by decide)

/-- Witness for C8 (amended): the probe fails (exit status 1) but prints `exists`
between a blank and a line end; the certificate is skipped all the same. -/
theorem K8s.exists_probes_match_trimmed_text_witness :
    K8s.copyCertificate (fun _ _ => ⟨" exists\r\n", false⟩) "worker-node1"
        "/home/user/KAINOS-ROOT-CA_G2.crt" [] =
      ([⟨K8s.Cmd.ssh "worker-node1" (K8s.certCheckScript "/home/user/KAINOS-ROOT-CA_G2.crt"),
        ⟨" exists\r\n", false⟩⟩], true) :=
  ((K8s.exists_probes_match_trimmed_text (fun _ _ => ⟨" exists\r\n", false⟩) "worker-node1"
    "/home/user/KAINOS-ROOT-CA_G2.crt" [] " exists\r\n" false).1 rfl).1 (by decide)

/-- C9: for every non-empty join command `j`: when every command succeeds,
`joinWorkerNodes` returns success and issues exactly the commands `sudo j` to
the hosts of the node list other than `control-plane`, one each, in list
order; in every run the commands issued are an initial part of that list,
none is addressed to `control-plane`, and a failed join is the last event and
makes the function return the error. -/
theorem K8s.joinWorkerNodes_joins_each_worker (env : Env K8s.Cmd) (j : String)
    (tr : K8s.Trace) (hj : j ≠ "") :
    ∃ new, (K8s.joinWorkerNodes env j tr).1 = tr ++ new ∧
      ((∀ h c, (env h c).ok = true) →
        (K8s.joinWorkerNodes env j tr).2 = true ∧
        cmdsOf new = (K8s.nodes.filter (fun n => n ≠ "control-plane")).map
          (fun n => K8s.Cmd.ssh n ("sudo " ++ j))) ∧
      cmdsOf new <+: [K8s.Cmd.ssh "worker-node1" ("sudo " ++ j),
        K8s.Cmd.ssh "worker-node2" ("sudo " ++ j), K8s.Cmd.ssh "worker-node3" ("sudo " ++ j)] ∧
      (∀ c ∈ cmdsOf new, ∀ s, c ≠ K8s.Cmd.ssh "control-plane" s) ∧
      (∀ pre e post, new = pre ++ e :: post → e.res.ok = false →
        post = [] ∧ (K8s.joinWorkerNodes env j tr).2 = false) := by
  have hjw : K8s.joinWorkerNodes env j tr =
      K8s.joinFrom env j ["worker-node1", "worker-node2", "worker-node3"] tr := by
    simp [K8s.joinWorkerNodes, hj, K8s.nodes]
  obtain ⟨new, h1, h2, h3, h4⟩ :=
    K8s.joinFrom_spec env j ["worker-node1", "worker-node2", "worker-node3"] tr
  rw [hjw]
  refine ⟨new, h1, ?_, h2, ?_, ?_⟩
  · intro hok
    have hres := K8s.joinFrom_ok env hok j ["worker-node1", "worker-node2", "worker-node3"] tr
    refine ⟨hres, ?_⟩
    rw [(h3 hres).1]
    have hnodes : K8s.nodes.filter (fun n => n ≠ "control-plane") =
        ["worker-node1", "worker-node2", "worker-node3"] := by decide
    rw [hnodes]
  · intro c hc s
    have hsub := h2.subset hc
    simp only [List.map_cons, List.map_nil, List.mem_cons, List.mem_singleton,
      List.not_mem_nil, or_false] at hsub
    rcases hsub with h | h | h <;> rw [h] <;> simp
  · intro pre e post hsplit hfail
    have hres : (K8s.joinFrom env j ["worker-node1", "worker-node2", "worker-node3"] tr).2
        = false := by
      by_contra hc
      have ht : (K8s.joinFrom env j ["worker-node1", "worker-node2", "worker-node3"] tr).2
          = true := by simpa using hc
      have := (h3 ht).2 e (by rw [hsplit]; simp)
      rw [hfail] at this
      exact absurd this (by simp)
    obtain ⟨pre', e', hn, hpre, _⟩ := h4 hres
    exact ⟨K8s.last_of_all_ok pre' pre post e' e (hn.symm.trans hsplit) hpre hfail, hres⟩

/-- Witness for C9: every command succeeds and the join command is a `kubeadm join` line. -/
theorem K8s.joinWorkerNodes_joins_each_worker_witness :
    (K8s.joinWorkerNodes (fun _ _ => ⟨"", true⟩) "kubeadm join 10.0.0.1:6443" []).2 = true := by
  obtain ⟨_, _, h, _⟩ := K8s.joinWorkerNodes_joins_each_worker (fun _ _ => ⟨"", true⟩)
    "kubeadm join 10.0.0.1:6443" [] (by decide)
  exact (h (fun _ _ => rfl)).1

/-- C7: in a run of the Kubernetes provisioning program in which every command whose
error is checked succeeds, whatever the probes return, the run is not fatal
and the commands of the trace are, in this order: the plan of `control-plane`,
the plan of `worker-node1`, the plan of `worker-node2`, the plan of
`worker-node3`, and only then the bootstrap, which opens with the manifest
probe of the control-plane initialisation.  The plan of a node lists its
firewall commands, then its certificate commands, then IPv4 forwarding, swap
disable, package repository setup, package install and container runtime
configuration, a probe-gated step with or without its mutating commands.
The provisioning part is a subsequence of the plan without skipped step, in
which no command occurs twice, and none of the fixed bootstrap commands is a
provisioning command. -/
theorem K8s.main_provisions_in_order (env : Env K8s.Cmd) (hq : K8s.Quiet env) :
    ∃ (k0 k1 k2 k3 : K8s.Skips) (initSkipped : Bool) (joinCmd : String),
      cmdsOf (K8s.main env).trace =
        K8s.nodePlan "control-plane" k0 ++ K8s.nodePlan "worker-node1" k1 ++
        K8s.nodePlan "worker-node2" k2 ++ K8s.nodePlan "worker-node3" k3 ++
        K8s.bootstrapPlan initSkipped joinCmd ∧
      (K8s.main env).fatal = false ∧
      (initSkipped = true → joinCmd = "") ∧
      (K8s.nodePlan "control-plane" k0 ++ K8s.nodePlan "worker-node1" k1 ++
        K8s.nodePlan "worker-node2" k2 ++ K8s.nodePlan "worker-node3" k3).Sublist
        K8s.fullPlan ∧
      K8s.fullPlan.Nodup ∧
      (∀ c ∈ K8s.bootstrapPlan initSkipped "", c ∉ K8s.fullPlan) := by
  obtain ⟨n1, k0, k1, k2, k3, h1, c1⟩ := K8s.provisionFrom_quiet env hq []
  obtain ⟨n2, sk, j, h2, c2, hsk⟩ := K8s.bootstrap_quiet env hq ([] ++ n1)
  refine ⟨k0, k1, k2, k3, sk, j, ?_, ?_, hsk, K8s.provisioningPlan_sublist k0 k1 k2 k3,
    K8s.fullPlan_nodup, K8s.bootstrapPlan_not_provisioning sk⟩
  · simp only [K8s.main, K8s.andThen, h1, if_true, h2]
    rw [cmdsOf_append, cmdsOf_append, c1, c2]
    simp [K8s.provisioningPlan, cmdsOf]
  · simp only [K8s.main, K8s.andThen, h1, if_true, h2]
    rfl

/-- Witness for C7: every command succeeds and prints nothing, so no step is skipped and
the join command is empty. -/
theorem K8s.main_provisions_in_order_witness :
    ∃ (k0 k1 k2 k3 : K8s.Skips) (initSkipped : Bool) (joinCmd : String),
      cmdsOf (K8s.main (fun _ _ => ⟨"", true⟩)).trace =
        K8s.nodePlan "control-plane" k0 ++ K8s.nodePlan "worker-node1" k1 ++
        K8s.nodePlan "worker-node2" k2 ++ K8s.nodePlan "worker-node3" k3 ++
        K8s.bootstrapPlan initSkipped joinCmd ∧
      (K8s.main (fun _ _ => ⟨"", true⟩)).fatal = false := by
  obtain ⟨k0, k1, k2, k3, sk, j, h1, h2, _⟩ :=
    K8s.main_provisions_in_order (fun _ _ => ⟨"", true⟩) (fun _ _ _ => rfl)
  exact ⟨k0, k1, k2, k3, sk, j, h1, h2⟩
